import Mathlib

/-!
# Verification of the simulation core in `src/game.cpp`

The C++ program stores every coordinate and angle in a `float`.  The embedding
keeps the scalar type abstract: a `FloatOps F` record supplies the literals and
the operations the source applies to floats (`+ - * /`, `std::sqrt`, `std::sin`,
`std::cos`, `<`, `==`).  Every function of the source is translated once, over
an arbitrary `FloatOps F`.  Two interpretations are defined:

* `binary32Ops` is the program's own arithmetic on finite values: rationals, with
  every result rounded to the nearest binary32 value, ties to even.  It is
  executable, and the counterexamples to exactness claims are evaluated in it.
* `idealOps` is an idealisation, not the program's arithmetic: the operations of
  a linearly ordered field with an exact square root, sine and cosine.

Structural properties (collection sizes, mode flags, key flags, which float
operations produce a stored value) are proved for every `FloatOps F`, hence for
both interpretations.  A statement proved for `idealOps` only says so; it
describes the computation with rounding left out.

`int` fields (`health`, `score`) are `Int`; the source never brings them near the
machine limits in the executions considered here.
-/

namespace GameCore

/-! ## Scalar operations -/

/-- The operations `game.cpp` performs on `float` values. `lit q` is the float
denoted by the numeric literal `q`; `lt` and `eq` are the comparisons `<` and
`==`. -/
structure FloatOps (F : Type) where
  lit : ℚ → F
  add : F → F → F
  sub : F → F → F
  mul : F → F → F
  div : F → F → F
  sqrt : F → F
  sin : F → F
  cos : F → F
  lt : F → F → Bool
  eq : F → F → Bool

/-- Exact interpretation of the float operations in a linearly ordered field;
`sqrt`, `sin` and `cos` are supplied by the caller.  This is the computation of
`game.cpp` with rounding, overflow and NaN left out: an idealisation, used for
statements that say so.  The program's own arithmetic is `binary32Ops` below. -/
def idealOps {F : Type} [LinearOrderedField F] (sqrt sin cos : F → F) : FloatOps F where
  lit := fun q => (q : F)
  add := fun a b => a + b
  sub := fun a b => a - b
  mul := fun a b => a * b
  div := fun a b => a / b
  sqrt := sqrt
  sin := sin
  cos := cos
  lt := fun a b => decide (a < b)
  eq := fun a b => decide (a = b)

/-! ## The binary32 interpretation

`game.cpp` computes in IEEE-754 binary32 (`float`).  The finite binary32 values
are rational numbers, and each of `+ - * /` and `std::sqrt` returns the exact
result rounded to the nearest binary32 value, ties to even.  `binary32Ops`
interprets the operations that way over `ℚ`.  Infinities, NaN and the sign of
zero have no counterpart in `ℚ`: the interpretation agrees with the machine as
long as every intermediate result is finite and of magnitude below `2 ^ 128`,
which holds in all the executions it is evaluated on below. -/

/-- Floor of the binary logarithm of `n ≥ 1` by repeated halving; `fuel` bounds
the number of halvings (`fuel = n` always suffices). -/
def log2Fuel : Nat → Nat → Nat
  | 0, _ => 0
  | fuel + 1, n => if n < 2 then 0 else 1 + log2Fuel fuel (n / 2)

/-- Floor of the binary logarithm of a positive rational: the difference of the
logarithms of numerator and denominator, lowered by one when it overshoots. -/
def ilog2 (q : ℚ) : Int :=
  let a : Int := log2Fuel q.num.natAbs q.num.natAbs
  let b : Int := log2Fuel q.den q.den
  let e0 := a - b
  if e0 ≥ 0 then
    (if q.den * 2 ^ e0.toNat ≤ q.num.natAbs then e0 else e0 - 1)
  else
    (if q.den ≤ q.num.natAbs * 2 ^ (-e0).toNat then e0 else e0 - 1)

/-- The integer nearest to `n / d`, ties to even. -/
def roundHalfEven (n d : Nat) : Nat :=
  let f := n / d
  let r := n % d
  if 2 * r < d then f else if d < 2 * r then f + 1 else if f % 2 = 0 then f else f + 1

/-- Rounding to the nearest binary32 value, ties to even: the result is
`n * 2 ^ e` with `n` the integer nearest to `|q| / 2 ^ e`, where `e` is the
exponent of the last of the 24 significant bits of `|q|`, not below `-149` (the
subnormal range). -/
def rnd32 (q : ℚ) : ℚ :=
  if q = 0 then 0 else
    let e := max (ilog2 |q|) (-126) - 23
    let n : Nat :=
      if e ≥ 0 then roundHalfEven q.num.natAbs (q.den * 2 ^ e.toNat)
      else roundHalfEven (q.num.natAbs * 2 ^ (-e).toNat) q.den
    let mag : ℚ := if e ≥ 0 then (n * 2 ^ e.toNat : Nat) else (n : ℚ) / (2 ^ (-e).toNat : Nat)
    if q < 0 then -mag else mag

/-- Bound on the error of rounding `q` to binary32: `2^-24 * |q|`, or `2^-150` in
the subnormal range. -/
def roundErr (q : ℚ) : ℚ := max (|q| / 2 ^ 24) (1 / 2 ^ 150)

/-- Floor of the square root of `n`, bit by bit: `isqrtBits k n r` decides the
bits of weight `2 ^ (k - 1)`, ..., `1` on top of the partial root `r`. -/
def isqrtBits : Nat → Nat → Nat → Nat
  | 0, _, r => r
  | k + 1, n, r => if (r + 2 ^ k) * (r + 2 ^ k) ≤ n then isqrtBits k n (r + 2 ^ k)
      else isqrtBits k n r

/-- Floor of the square root of a natural number. -/
def isqrt (n : Nat) : Nat := isqrtBits (log2Fuel n n / 2 + 1) n 0

/-- The binary32 `std::sqrt`: the square root rounded to the nearest binary32
value, ties to even.  With `e` the exponent of the last significant bit of the
root and `x = q / 4 ^ e`, the root is `m * 2 ^ e` or `(m + 1) * 2 ^ e` for
`m = isqrt ⌊x⌋`, according to the side of `(m + 1/2) ^ 2` on which `x` lies.
(The source takes roots of sums of squares only; `0` is returned for `q ≤ 0`.) -/
def sqrt32 (q : ℚ) : ℚ :=
  if q ≤ 0 then 0 else
    let l := ilog2 q
    let h : Int := if l ≥ 0 then (l.toNat / 2 : Nat) else -(((-l).toNat + 1) / 2 : Nat)
    let e := max h (-126) - 23
    let x : ℚ := if e ≥ 0 then q / (4 ^ e.toNat : Nat) else q * (4 ^ (-e).toNat : Nat)
    let m : Nat := isqrt (x.num.natAbs / x.den)
    let n : Nat :=
      if 4 * x < ((2 * m + 1) ^ 2 : Nat) then m
      else if (((2 * m + 1) ^ 2 : Nat) : ℚ) < 4 * x then m + 1
      else if m % 2 = 0 then m else m + 1
    if e ≥ 0 then (n * 2 ^ e.toNat : Nat) else (n : ℚ) / (2 ^ (-e).toNat : Nat)

/-- The Taylor polynomial of the sine with `n` terms at `t`: the sum of
`(-1) ^ i * t ^ (2 i + 1) / (2 i + 1)!` over `i < n`. -/
def sinSeries : Nat → ℚ → ℚ
  | 0, _ => 0
  | n + 1, t => sinSeries n t + (-1) ^ n * t ^ (2 * n + 1) / (Nat.factorial (2 * n + 1) : ℚ)

/-- The Taylor polynomial of the cosine with `n` terms at `t`: the sum of
`(-1) ^ i * t ^ (2 i) / (2 i)!` over `i < n`. -/
def cosSeries : Nat → ℚ → ℚ
  | 0, _ => 0
  | n + 1, t => cosSeries n t + (-1) ^ n * t ^ (2 * n) / (Nat.factorial (2 * n) : ℚ)

/-- The binary32 `std::sin` for small arguments: the Taylor polynomial of degree
23, rounded.  For `|t| ≤ 2` the polynomial is within `2^25 / 25! < 3e-18` of the
sine, so the result is the correctly rounded sine unless the sine lies that
close to the midpoint of two binary32 values.  (The C library's `sinf` returns
the correctly rounded value at the arguments used below, 0 and 3/8.) -/
def sin32 (t : ℚ) : ℚ := rnd32 (sinSeries 12 t)

/-- The binary32 `std::cos` for small arguments: the Taylor polynomial of degree
22, rounded (see `sin32`). -/
def cos32 (t : ℚ) : ℚ := rnd32 (cosSeries 12 t)

/-- The binary32 interpretation of the float operations: a literal denotes the
nearest binary32 value, an arithmetic operation returns the exact result
rounded. -/
def binary32Ops : FloatOps ℚ where
  lit := fun q => rnd32 q
  add := fun a b => rnd32 (a + b)
  sub := fun a b => rnd32 (a - b)
  mul := fun a b => rnd32 (a * b)
  div := fun a b => rnd32 (a / b)
  sqrt := sqrt32
  sin := sin32
  cos := cos32
  lt := fun a b => decide (a < b)
  eq := fun a b => decide (a = b)

/-! ## Vector math (`struct Vector3`) -/

/-- Mirror of `struct Vector3 { float x, y, z; }`. -/
structure Vector3 (F : Type) where
  x : F
  y : F
  z : F

namespace Vector3

variable {F : Type}

/-- The default constructor `Vector3()`: all components `0`. -/
def zero (ops : FloatOps F) : Vector3 F := ⟨ops.lit 0, ops.lit 0, ops.lit 0⟩

/-- The overload `operator+`. -/
def add (ops : FloatOps F) (a b : Vector3 F) : Vector3 F :=
  ⟨ops.add a.x b.x, ops.add a.y b.y, ops.add a.z b.z⟩

/-- The overload `operator-`. -/
def sub (ops : FloatOps F) (a b : Vector3 F) : Vector3 F :=
  ⟨ops.sub a.x b.x, ops.sub a.y b.y, ops.sub a.z b.z⟩

/-- The overload `operator*(float)`. -/
def scale (ops : FloatOps F) (a : Vector3 F) (scalar : F) : Vector3 F :=
  ⟨ops.mul a.x scalar, ops.mul a.y scalar, ops.mul a.z scalar⟩

/-- The method `length`: `std::sqrt(x * x + y * y + z * z)`. -/
def length (ops : FloatOps F) (a : Vector3 F) : F :=
  ops.sqrt (ops.add (ops.add (ops.mul a.x a.x) (ops.mul a.y a.y)) (ops.mul a.z a.z))

/-- The method `normalize`: the zero vector when the length compares equal to
`0`, otherwise the component-wise quotient by the length. -/
def normalize (ops : FloatOps F) (a : Vector3 F) : Vector3 F :=
  let len := length ops a
  if ops.eq len (ops.lit 0) then zero ops
  else ⟨ops.div a.x len, ops.div a.y len, ops.div a.z len⟩

/-- The method `distanceTo`: `(*this - other).length()`. -/
def distanceTo (ops : FloatOps F) (a other : Vector3 F) : F :=
  length ops (sub ops a other)

end Vector3

/-! ## Entity records and simulation state -/

/-- Mirror of `struct Enemy`. -/
structure Enemy (F : Type) where
  position : Vector3 F
  health : Int
  alive : Bool

/-- The constructor `Enemy(Vector3 pos)`: health 3, alive. -/
def Enemy.mk3 {F : Type} (pos : Vector3 F) : Enemy F := ⟨pos, 3, true⟩

/-- Mirror of `struct Bullet`. -/
structure Bullet (F : Type) where
  position : Vector3 F
  direction : Vector3 F
  alive : Bool

/-- The constructor `Bullet(Vector3 pos, Vector3 dir)`: alive. -/
def Bullet.mk2 {F : Type} (pos dir : Vector3 F) : Bullet F := ⟨pos, dir, true⟩

/-- The private fields of `class Game`.  `keys` is the array `bool keys[256]`.
`rng` stands for the generator `std::mt19937 rng` as the distribution reads it:
`rng 0`, `rng 1`, ... are the canonical draws (`std::generate_canonical`, values
of the unit interval) that the successive calls `dist(rng)` consume from this
state on. -/
structure Game (F : Type) where
  playerPos : Vector3 F
  carPos : Vector3 F
  inCar : Bool
  score : Int
  camAngleH : F
  camAngleV : F
  camDist : F
  enemies : List (Enemy F)
  bullets : List (Bullet F)
  keys : Fin 256 → Bool
  rng : Nat → F

namespace Game

variable {F : Type}

/-- Character codes used as indices into `keys`. -/
def key_e : Fin 256 := 101
def key_E : Fin 256 := 69
def key_w : Fin 256 := 119
def key_W : Fin 256 := 87
def key_s : Fin 256 := 115
def key_S : Fin 256 := 83
def key_a : Fin 256 := 97
def key_A : Fin 256 := 65
def key_d : Fin 256 := 100
def key_D : Fin 256 := 68

/-- The call operator of `std::uniform_real_distribution<float>(a, b)` on a
generator whose canonical draw is `u`: the library computes `(b - a) * u + a`. -/
def uniformReal (ops : FloatOps F) (a b u : F) : F :=
  ops.add (ops.mul (ops.sub b a) u) a

/-- The local `std::uniform_real_distribution<float> dist(-20.0f, 20.0f)` of
`spawnEnemy`, applied to the canonical draw `u`. -/
def dist (ops : FloatOps F) (u : F) : F :=
  uniformReal ops (ops.lit (-20)) (ops.lit 20) u

/-- The method `spawnEnemy`: two draws `dist(rng)` give x and z, y is 1; the new
enemy is pushed at the back.  (The source leaves the evaluation order of the
two draws to the compiler; the first draw is taken for x here.) -/
def spawnEnemy (ops : FloatOps F) (g : Game F) : Game F :=
  let pos : Vector3 F := ⟨dist ops (g.rng 0), ops.lit 1, dist ops (g.rng 1)⟩
  { g with enemies := g.enemies ++ [Enemy.mk3 pos], rng := fun n => g.rng (n + 2) }

/-- The constructor `Game()`, for the random source `rng`. -/
def init (ops : FloatOps F) (rng : Nat → F) : Game F :=
  let g0 : Game F :=
    { playerPos := ⟨ops.lit 0, ops.lit 1, ops.lit 0⟩
      carPos := ⟨ops.lit 10, ops.lit (3 / 4), ops.lit 0⟩
      inCar := false
      score := 0
      camAngleH := ops.lit 0
      camAngleV := ops.lit (2 / 5)
      camDist := ops.lit 10
      enemies := []
      bullets := []
      keys := fun _ => false
      rng := rng }
  spawnEnemy ops (spawnEnemy ops (spawnEnemy ops g0))

/-- The method `setKey`: codes outside `0..255` are ignored. -/
def setKey (g : Game F) (keyCode : Int) (pressed : Bool) : Game F :=
  if 0 ≤ keyCode ∧ keyCode < 256 then
    { g with keys := fun i => if (i.val : Int) = keyCode then pressed else g.keys i }
  else g

/-- Mirror of `std::max(a, b)`: `(a < b) ? b : a`. -/
def fmax (ops : FloatOps F) (a b : F) : F := if ops.lt a b then b else a

/-- Mirror of `std::min(a, b)`: `(b < a) ? b : a`. -/
def fmin (ops : FloatOps F) (a b : F) : F := if ops.lt b a then b else a

/-- The method `updateCamera`. -/
def updateCamera (ops : FloatOps F) (g : Game F) (deltaH deltaV deltaZoom : F) : Game F :=
  let h := ops.sub g.camAngleH (ops.mul deltaH (ops.lit (5 / 1000)))
  let v := ops.sub g.camAngleV (ops.mul deltaV (ops.lit (5 / 1000)))
  let v := fmax ops (ops.lit (1 / 10)) (fmin ops (ops.lit (14 / 10)) v)
  let d := fmax ops (ops.lit 5)
    (fmin ops (ops.lit 20) (ops.add g.camDist (ops.mul deltaZoom (ops.lit (1 / 100)))))
  { g with camAngleH := h, camAngleV := v, camDist := d }

/-- The method `handleInteraction`. -/
def handleInteraction (ops : FloatOps F) (g : Game F) : Game F :=
  if g.keys key_e || g.keys key_E then
    let g1 : Game F :=
      if !g.inCar && ops.lt (Vector3.distanceTo ops g.playerPos g.carPos) (ops.lit 4) then
        { g with inCar := true }
      else if g.inCar then
        { g with inCar := false }
      else g
    { g1 with keys := fun i => if i = key_e ∨ i = key_E then false else g1.keys i }
  else g

/-- The first half of `updatePlayerMovement`: the raw direction `move` read
from the held movement keys. -/
def rawMove (ops : FloatOps F) (g : Game F) : Vector3 F :=
  let move : Vector3 F := ⟨ops.lit 0, ops.lit 0, ops.lit 0⟩
  let move := if g.keys key_w || g.keys key_W then { move with z := ops.sub move.z (ops.lit 1) } else move
  let move := if g.keys key_s || g.keys key_S then { move with z := ops.add move.z (ops.lit 1) } else move
  let move := if g.keys key_a || g.keys key_A then { move with x := ops.sub move.x (ops.lit 1) } else move
  let move := if g.keys key_d || g.keys key_D then { move with x := ops.add move.x (ops.lit 1) } else move
  move

/-- The rotation of `v` about the vertical axis by the angle `t`, as both
`updatePlayerMovement` and `shoot` compute it: the pair `(newX, newZ)`. -/
def rotateH (ops : FloatOps F) (v : Vector3 F) (t : F) : F × F :=
  (ops.sub (ops.mul v.x (ops.cos t)) (ops.mul v.z (ops.sin t)),
   ops.add (ops.mul v.x (ops.sin t)) (ops.mul v.z (ops.cos t)))

/-- The method `updatePlayerMovement`. -/
def updatePlayerMovement (ops : FloatOps F) (g : Game F) : Game F :=
  let speed := ops.lit (2 / 10)
  let move := rawMove ops g
  if ops.lt (ops.lit 0) (Vector3.length ops move) then
    let move := Vector3.normalize ops move
    let newX := (rotateH ops move g.camAngleH).1
    let newZ := (rotateH ops move g.camAngleH).2
    { g with playerPos :=
        { g.playerPos with
          x := ops.add g.playerPos.x (ops.mul newX speed)
          z := ops.add g.playerPos.z (ops.mul newZ speed) } }
  else g

/-- The method `updateCarMovement`. -/
def updateCarMovement (ops : FloatOps F) (g : Game F) : Game F :=
  let speed := ops.lit (3 / 10)
  let car := g.carPos
  let car := if g.keys key_w || g.keys key_W then { car with z := ops.sub car.z speed } else car
  let car := if g.keys key_s || g.keys key_S then { car with z := ops.add car.z speed } else car
  let car := if g.keys key_a || g.keys key_A then { car with x := ops.sub car.x speed } else car
  let car := if g.keys key_d || g.keys key_D then { car with x := ops.add car.x speed } else car
  { g with carPos := car }

/-- The method `shoot`. -/
def shoot (ops : FloatOps F) (g : Game F) : Game F :=
  if !g.inCar then
    let dir : Vector3 F := ⟨ops.lit 0, ops.lit 0, ops.lit (-1)⟩
    let newX := (rotateH ops dir g.camAngleH).1
    let newZ := (rotateH ops dir g.camAngleH).2
    let dir : Vector3 F := { dir with x := newX, z := newZ }
    { g with bullets := g.bullets ++ [Bullet.mk2 g.playerPos dir] }
  else g

/-- The inner `for (auto& enemy : enemies)` loop of `updateBullets` for a bullet
at `bpos`.  `none`: the scan reached the end without a hit.  `some (es, killed)`:
the first alive enemy closer than `1.0` had its health decremented (and was
marked dead when the health reached `<= 0`, in which case `killed` is true); the
scan stopped there (`break`). -/
def hitScan (ops : FloatOps F) (bpos : Vector3 F) :
    List (Enemy F) → Option (List (Enemy F) × Bool)
  | [] => none
  | e :: es =>
    if !e.alive then (hitScan ops bpos es).map (fun r => (e :: r.1, r.2))
    else if ops.lt (Vector3.distanceTo ops e.position bpos) (ops.lit 1) then
      let e1 : Enemy F := { e with health := e.health - 1 }
      if e1.health ≤ 0 then some ({ e1 with alive := false } :: es, true)
      else some (e1 :: es, false)
    else (hitScan ops bpos es).map (fun r => (e :: r.1, r.2))

/-- One iteration of the outer `for (auto& bullet : bullets)` collision loop:
the state after the iteration and the bullet as it is left in the vector. -/
def collideBullet (ops : FloatOps F) (g : Game F) (b : Bullet F) : Game F × Bullet F :=
  if !b.alive then (g, b)
  else
    match hitScan ops b.position g.enemies with
    | none => (g, b)
    | some (es, killed) =>
      let g1 : Game F := { g with enemies := es }
      let g2 : Game F :=
        if killed then
          let g3 := spawnEnemy ops g1
          { g3 with score := g3.score + 1 }
        else g1
      (g2, { b with alive := false })

/-- The whole collision loop over the bullet vector, front to back. -/
def collideAll (ops : FloatOps F) : Game F → List (Bullet F) → Game F × List (Bullet F)
  | g, [] => (g, [])
  | g, b :: bs =>
    let r := collideBullet ops g b
    let rs := collideAll ops r.1 bs
    (rs.1, r.2 :: rs.2)

/-- The first loop of `updateBullets`: an alive bullet advances by
`direction * bulletSpeed`. -/
def advanceBullet (ops : FloatOps F) (b : Bullet F) : Bullet F :=
  if b.alive then
    { b with position := Vector3.add ops b.position (Vector3.scale ops b.direction (ops.lit (1 / 2))) }
  else b

/-- The method `updateBullets`: advance, collide, then erase the dead bullets
and the dead enemies (`erase(remove_if(...))` keeps the order of the rest). -/
def updateBullets (ops : FloatOps F) (g : Game F) : Game F :=
  let r := collideAll ops g (g.bullets.map (advanceBullet ops))
  { r.1 with
    bullets := r.2.filter (fun b => b.alive)
    enemies := r.1.enemies.filter (fun e => e.alive) }

/-- The method `update`: one tick. -/
def update (ops : FloatOps F) (g : Game F) : Game F :=
  let g1 := handleInteraction ops g
  let g2 := if g1.inCar then updateCarMovement ops g1 else updatePlayerMovement ops g1
  updateBullets ops g2

/-- States reachable from the constructor through the public methods. -/
inductive Reachable (ops : FloatOps F) : Game F → Prop
  | init (rng : Nat → F) : Reachable ops (init ops rng)
  | setKey (g : Game F) (keyCode : Int) (pressed : Bool) :
      Reachable ops g → Reachable ops (setKey g keyCode pressed)
  | updateCamera (g : Game F) (deltaH deltaV deltaZoom : F) :
      Reachable ops g → Reachable ops (updateCamera ops g deltaH deltaV deltaZoom)
  | shoot (g : Game F) : Reachable ops g → Reachable ops (shoot ops g)
  | update (g : Game F) : Reachable ops g → Reachable ops (update ops g)

/-! ## Predicates used in the statements -/

/-- Number of enemies whose `alive` flag is set. -/
def aliveCount (es : List (Enemy F)) : Nat := (es.filter (fun e => e.alive)).length

/-- The population invariant: three enemies, all of them alive. -/
def EnemiesOK (g : Game F) : Prop := g.enemies.length = 3 ∧ ∀ e ∈ g.enemies, e.alive = true

/-- The test of the collision loop: bullet position `bpos` is closer than `1.0`
to the enemy `e` (`enemy.position.distanceTo(bullet.position) < 1.0f`). -/
def inRange (ops : FloatOps F) (bpos : Vector3 F) (e : Enemy F) : Bool :=
  ops.lt (Vector3.distanceTo ops e.position bpos) (ops.lit 1)

/-- The enemy as the collision loop leaves it after one hit. -/
def Enemy.hit (e : Enemy F) : Enemy F :=
  if e.health - 1 ≤ 0 then { e with health := e.health - 1, alive := false }
  else { e with health := e.health - 1 }

/-- The state `update` hands to `updateBullets`: interaction handling followed by
the movement resolver selected by the mode. -/
def movementStep (ops : FloatOps F) (g : Game F) : Game F :=
  if (handleInteraction ops g).inCar then updateCarMovement ops (handleInteraction ops g)
  else updatePlayerMovement ops (handleInteraction ops g)

/-- The enemy `spawnEnemy` creates in state `g`. -/
def nextEnemy (ops : FloatOps F) (g : Game F) : Enemy F :=
  Enemy.mk3 ⟨dist ops (g.rng 0), ops.lit 1, dist ops (g.rng 1)⟩

/-- An exact square root on the non-negative elements of an ordered field. -/
def IsSqrt {K : Type} [LinearOrderedField K] (sqrt : K → K) : Prop :=
  ∀ x, 0 ≤ x → 0 ≤ sqrt x ∧ sqrt x * sqrt x = x

/-- The Pythagorean identity, the only property of `sin` and `cos` used. -/
def IsTrig {K : Type} [LinearOrderedField K] (sin cos : K → K) : Prop :=
  ∀ t, sin t * sin t + cos t * cos t = 1

/-- The lethal-hit scenario: a freshly constructed simulation in which the enemy
at index `i` has its health set to 1 and a single alive bullet with direction
`dir` is placed at that enemy's position. -/
def lethalScenario (ops : FloatOps F) (rng : Nat → F) (i : Nat) (dir : Vector3 F) : Game F :=
  match (init ops rng).enemies.get? i with
  | some e =>
    { init ops rng with
      enemies := (init ops rng).enemies.set i { e with health := 1 }
      bullets := [Bullet.mk2 e.position dir] }
  | none => init ops rng

/-! ## Concrete inputs used by the witnesses and counterexamples -/

/-- A random source whose canonical draws are 20/40, 23/40, 26/40, ..., which
`dist` maps to 0, 3, 6, ...: the three initial enemies sit at (0,1,3), (6,1,9)
and (12,1,15), far from one another. -/
def spreadRng (ops : FloatOps F) : Nat → F := fun n => ops.lit ((3 * n + 20) / 40)

/-- A random source whose canonical draws are 80/160, 81/160, 82/160, ..., which
`dist` maps to 0, 1/4, 1/2, ...: the three initial enemies sit at (0,1,1/4),
(1/2,1,3/4) and (1,1,5/4), close to one another. -/
def denseRng (ops : FloatOps F) : Nat → F := fun n => ops.lit ((n / 4 + 20) / 40)

/-- The direction `(0, 0, -1)`. -/
def forwardDir (ops : FloatOps F) : Vector3 F := ⟨ops.lit 0, ops.lit 0, ops.lit (-1)⟩

/-- A bullet at (6, 1, 19/2) flying along `(0, 0, -1)`: after advancing it is at
(6, 1, 9), the position of the second enemy of `spreadRng`. -/
def aimedBullet (ops : FloatOps F) : Bullet F :=
  Bullet.mk2 ⟨ops.lit 6, ops.lit 1, ops.lit (19 / 2)⟩ (forwardDir ops)

/-- The state `g` with its bullet collection replaced by the single bullet
`aimedBullet`. -/
def reload (ops : FloatOps F) (g : Game F) : Game F := { g with bullets := [aimedBullet ops] }

/-- A freshly constructed simulation put in vehicle mode. -/
def seated (ops : FloatOps F) : Game F := { init ops (spreadRng ops) with inCar := true }

/-- A freshly constructed simulation with the player moved to (8, 1, 0), two
units from the vehicle. -/
def besideCar (ops : FloatOps F) : Game F :=
  { init ops (spreadRng ops) with playerPos := ⟨ops.lit 8, ops.lit 1, ops.lit 0⟩ }

/-- Number of enemies whose `alive` flag is cleared. -/
def deadCount (es : List (Enemy F)) : Nat := (es.filter (fun e => !e.alive)).length

/-- The state and the bullet vector of a tick right after the collision loop of
`updateBullets`, before the two `erase(remove_if(...))` calls. -/
def collided (ops : FloatOps F) (g : Game F) : Game F × List (Bullet F) :=
  collideAll ops (movementStep ops g) ((movementStep ops g).bullets.map (advanceBullet ops))

/-- Number of enemies marked dead during the tick that starts in `g`: the dead
entries of the enemy vector right before compaction, minus those that were
already dead when the tick started (a dead entry is never revived or moved
before compaction). -/
def killsInTick (ops : FloatOps F) (g : Game F) : Nat :=
  deadCount (collided ops g).1.enemies - deadCount g.enemies

/-- Every alive enemy of the list has health between 1 and 3. -/
def HealthOK (es : List (Enemy F)) : Prop :=
  ∀ e ∈ es, e.alive = true → 1 ≤ e.health ∧ e.health ≤ 3

/-- The liveness invariant of stored entities: every stored enemy is alive with
health between 1 and 3, every stored bullet is alive. -/
def Live (g : Game F) : Prop :=
  (∀ e ∈ g.enemies, e.alive = true ∧ 1 ≤ e.health ∧ e.health ≤ 3) ∧
    ∀ b ∈ g.bullets, b.alive = true

/-- An already advanced bullet at (1/4, 1, 1/2): with the enemies of `denseRng` it
is within range of both the first enemy (0, 1, 1/4) and the second enemy
(1/2, 1, 3/4). -/
def tieBullet (ops : FloatOps F) : Bullet F :=
  Bullet.mk2 ⟨ops.lit (1 / 4), ops.lit 1, ops.lit (1 / 2)⟩ (forwardDir ops)

/-- The state and the bullet vector right after the collision loop of
`updateBullets` run in state `g`, before compaction. -/
def afterLoop (ops : FloatOps F) (g : Game F) : Game F × List (Bullet F) :=
  collideAll ops g (g.bullets.map (advanceBullet ops))

/-- The enemies created by the first `n` calls of `spawnEnemy` from the random
source `rng`, in spawn order. -/
def spawnSeq (ops : FloatOps F) (rng : Nat → F) (n : Nat) : List (Enemy F) :=
  (List.range n).map
    (fun i => Enemy.mk3 ⟨dist ops (rng (2 * i)), ops.lit 1, dist ops (rng (2 * i + 1))⟩)

/-- Enemy `q` is enemy `p` after zero or more hits: same position, health not
higher, and not alive unless `p` is. -/
def Worn (p q : Enemy F) : Prop :=
  q.position = p.position ∧ q.health ≤ p.health ∧ (q.alive = true → p.alive = true)

/-- Bullet `d` is bullet `c` as the collision loop leaves it: untouched, or (for an
alive `c` that hit an enemy) `c` with its `alive` flag cleared. -/
def Spent (c d : Bullet F) : Prop :=
  d = c ∨ (c.alive = true ∧ d = { c with alive := false })

/-- Bullet `b` of state `g` meets nothing in the tick that starts in `g`: wherever
`b` stands in the bullet vector, at the moment the collision loop reaches it (the
bullets before it already processed) its advanced position is out of range of
every alive enemy. -/
def MissesAtScan (ops : FloatOps F) (g : Game F) (b : Bullet F) : Prop :=
  ∀ bs1 bs2, g.bullets = bs1 ++ b :: bs2 →
    ∀ p ∈ (collideAll ops (movementStep ops g) (bs1.map (advanceBullet ops))).1.enemies,
      p.alive = true → inRange ops (advanceBullet ops b).position p = false

/-- A bullet at the player's initial position (0, 1, 0) flying along
`(0, 0, -1)`, away from the enemies of `spreadRng`. -/
def strayBullet (ops : FloatOps F) : Bullet F :=
  Bullet.mk2 ⟨ops.lit 0, ops.lit 1, ops.lit 0⟩ (forwardDir ops)

/-- A freshly constructed simulation (enemies of `spreadRng`) whose bullet
collection is the single bullet `strayBullet`. -/
def strayShot (ops : FloatOps F) : Game F :=
  { init ops (spreadRng ops) with bullets := [strayBullet ops] }

/-- The state `g` with its random source replaced by `r`. -/
def withRng (g : Game F) (r : Nat → F) : Game F := { g with rng := r }

/-- Bullet position `bpos` hits nothing in the enemy vector `es`: no alive enemy
is closer than `1.0` to it. -/
def hitsNothing (ops : FloatOps F) (es : List (Enemy F)) (bpos : Vector3 F) : Bool :=
  es.all (fun p => !(p.alive && inRange ops bpos p))

/-- Specification of the bullets that survive a tick, to be compared with what
`updateBullets` computes.  Starting in state `g`, walk the (advanced) bullets
`bs` front to back; a bullet is kept exactly when it is alive and, in the state
the collision loop has reached when it comes to this bullet, it hits nothing.
The state moves on as `collideBullet` prescribes. -/
def survivors (ops : FloatOps F) : Game F → List (Bullet F) → List (Bullet F)
  | _, [] => []
  | g, b :: bs =>
    (if b.alive && hitsNothing ops g.enemies b.position then [b] else [])
      ++ survivors ops (collideBullet ops g b).1 bs

/-- Enemy `q` is enemy `p` as the collision loop leaves it: untouched, or (for an
alive `p`) hit `n ≥ 1` times, with the health lowered by `n` and the `alive` flag
cleared exactly when the health is no longer positive. -/
def Struck (p q : Enemy F) : Prop :=
  q = p ∨ (p.alive = true ∧ ∃ n : Nat, 0 < n ∧
    q = { p with health := p.health - n, alive := decide (0 < p.health - n) })

/-- The state two ticks after construction with `d` held throughout: in binary32
the player stands at x = 0.4f. -/
def walked (ops : FloatOps F) : Game F :=
  update ops (update ops (setKey (init ops (spreadRng ops)) 100 true))

/-- The state after construction and one call `updateCamera(-75, 0, 0)`: in
binary32 the horizontal camera angle is 3/8. -/
def turned (ops : FloatOps F) : Game F :=
  updateCamera ops (init ops (spreadRng ops)) (ops.lit (-75)) (ops.lit 0) (ops.lit 0)

/-! ## Frame lemmas and the population invariant -/

theorem aliveCount_cons (e : Enemy F) (es : List (Enemy F)) :
    aliveCount (e :: es) = (if e.alive then 1 else 0) + aliveCount es := by
  unfold aliveCount
  by_cases h : e.alive = true <;> simp [List.filter_cons, h, Nat.add_comm]

theorem aliveCount_append (es fs : List (Enemy F)) :
    aliveCount (es ++ fs) = aliveCount es + aliveCount fs := by
  simp [aliveCount, List.filter_append]

theorem aliveCount_of_all_alive (es : List (Enemy F)) (h : ∀ e ∈ es, e.alive = true) :
    aliveCount es = es.length := by
  unfold aliveCount
  rw [List.filter_eq_self.mpr]
  intro e he
  simpa using h e he

/-- A hit keeps the number of alive enemies unless it kills, in which case that
number drops by exactly one. -/
theorem hitScan_aliveCount (ops : FloatOps F) (bpos : Vector3 F) (es es1 : List (Enemy F))
    (killed : Bool) (h : hitScan ops bpos es = some (es1, killed)) :
    aliveCount es1 + (if killed then 1 else 0) = aliveCount es := by
  induction es generalizing es1 killed with
  | nil => simp [hitScan] at h
  | cons e es ih =>
    unfold hitScan at h
    by_cases ha : e.alive = true
    · by_cases hd : ops.lt (Vector3.distanceTo ops e.position bpos) (ops.lit 1) = true
      · by_cases hh : e.health - 1 ≤ 0
        · simp [ha, hd, hh] at h
          obtain ⟨h1, h2⟩ := h
          subst h1; subst h2
          simp [aliveCount_cons, ha, Nat.add_comm]
        · simp [ha, hd, hh] at h
          obtain ⟨h1, h2⟩ := h
          subst h1; subst h2
          simp [aliveCount_cons, ha]
      · simp [ha, hd] at h
        obtain ⟨r, hr, h1⟩ := h
        subst h1
        have := ih r killed hr
        simp only [aliveCount_cons, ha, if_true] at this ⊢
        omega
    · simp [ha] at h
      obtain ⟨r, hr, h1⟩ := h
      subst h1
      have := ih r killed hr
      simp only [aliveCount_cons, ha] at this ⊢
      simpa using this

theorem spawnEnemy_enemies (ops : FloatOps F) (g : Game F) :
    (spawnEnemy ops g).enemies = g.enemies ++
      [Enemy.mk3 ⟨dist ops (g.rng 0), ops.lit 1, dist ops (g.rng 1)⟩] := rfl

theorem collideBullet_aliveCount (ops : FloatOps F) (g : Game F) (b : Bullet F) :
    aliveCount (collideBullet ops g b).1.enemies = aliveCount g.enemies := by
  unfold collideBullet
  by_cases hb : b.alive = true
  · simp only [hb, Bool.not_true, Bool.false_eq_true, if_false]
    cases hs : hitScan ops b.position g.enemies with
    | none => rfl
    | some r =>
      obtain ⟨es, killed⟩ := r
      have hc := hitScan_aliveCount ops b.position g.enemies es killed hs
      cases killed with
      | false => simpa using hc
      | true =>
        simp only [if_true, spawnEnemy_enemies, aliveCount_append]
        simp only [if_true] at hc
        rw [← hc]
        simp [aliveCount, Enemy.mk3]
  · simp [hb]

theorem collideAll_aliveCount (ops : FloatOps F) (bs : List (Bullet F)) (g : Game F) :
    aliveCount (collideAll ops g bs).1.enemies = aliveCount g.enemies := by
  induction bs generalizing g with
  | nil => rfl
  | cons b bs ih =>
    simp only [collideAll]
    rw [ih, collideBullet_aliveCount]

theorem updateBullets_enemies_length (ops : FloatOps F) (g : Game F) :
    (updateBullets ops g).enemies.length = aliveCount g.enemies := by
  simp only [updateBullets]
  exact collideAll_aliveCount ops _ g

theorem updateBullets_enemies_alive (ops : FloatOps F) (g : Game F) :
    ∀ e ∈ (updateBullets ops g).enemies, e.alive = true := by
  intro e he
  simp only [updateBullets, List.mem_filter] at he
  exact he.2

theorem handleInteraction_enemies (ops : FloatOps F) (g : Game F) :
    (handleInteraction ops g).enemies = g.enemies := by
  unfold handleInteraction
  split
  · dsimp only
    split
    · rfl
    · split <;> rfl
  · rfl

theorem updateCarMovement_enemies (ops : FloatOps F) (g : Game F) :
    (updateCarMovement ops g).enemies = g.enemies := rfl

theorem updatePlayerMovement_enemies (ops : FloatOps F) (g : Game F) :
    (updatePlayerMovement ops g).enemies = g.enemies := by
  unfold updatePlayerMovement
  by_cases h : ops.lt (ops.lit 0) (Vector3.length ops (rawMove ops g)) = true <;> simp [h]

/-- Enemies at the moment `updateBullets` starts within `update`. -/
theorem update_pre_enemies (ops : FloatOps F) (g : Game F) :
    (if (handleInteraction ops g).inCar then updateCarMovement ops (handleInteraction ops g)
      else updatePlayerMovement ops (handleInteraction ops g)).enemies = g.enemies := by
  split
  · rw [updateCarMovement_enemies, handleInteraction_enemies]
  · rw [updatePlayerMovement_enemies, handleInteraction_enemies]

theorem setKey_enemies (g : Game F) (k : Int) (p : Bool) : (setKey g k p).enemies = g.enemies := by
  unfold setKey
  split <;> rfl

theorem shoot_enemies (ops : FloatOps F) (g : Game F) : (shoot ops g).enemies = g.enemies := by
  unfold shoot
  split <;> rfl

theorem update_enemiesOK (ops : FloatOps F) (g : Game F) (h : EnemiesOK g) :
    EnemiesOK (update ops g) := by
  obtain ⟨hlen, halive⟩ := h
  refine ⟨?_, updateBullets_enemies_alive ops _⟩
  show (updateBullets ops _).enemies.length = 3
  rw [updateBullets_enemies_length, update_pre_enemies, aliveCount_of_all_alive _ halive, hlen]

theorem reachable_enemiesOK (ops : FloatOps F) (g : Game F) (h : Reachable ops g) :
    EnemiesOK g := by
  induction h with
  | init rng =>
    constructor
    · rfl
    · intro e he
      simp [init, spawnEnemy, Enemy.mk3] at he
      rcases he with rfl | rfl | rfl <;> rfl
  | setKey g k p _ ih => simpa [EnemiesOK, setKey_enemies] using ih
  | updateCamera g dh dv dz _ ih => exact ih
  | shoot g _ ih => simpa [EnemiesOK, shoot_enemies] using ih
  | update g _ ih => exact update_enemiesOK ops g ih

/-! ## C1: every kill is replaced inside the same tick -/

/-- C1. In every state reachable from the constructor through `setKey`,
`updateCamera`, `shoot` and `update` (for any float semantics and any values of
the random source) the enemy collection has exactly 3 entries, and it again has
exactly 3 entries after one more `update`. -/
theorem C1_enemy_count_three (ops : FloatOps F) (g : Game F) (h : Reachable ops g) :
    g.enemies.length = 3 ∧ (update ops g).enemies.length = 3 :=
  ⟨(reachable_enemiesOK ops g h).1, (update_enemiesOK ops g (reachable_enemiesOK ops g h)).1⟩

/-- Witness for C1: the state after constructing, shooting once and ticking once
(real-number interpretation, all random draws 0). -/
theorem C1_enemy_count_three_witness :
    Reachable (idealOps Real.sqrt Real.sin Real.cos)
        (update (idealOps Real.sqrt Real.sin Real.cos)
          (shoot (idealOps Real.sqrt Real.sin Real.cos)
            (init (idealOps Real.sqrt Real.sin Real.cos) (fun _ => 0)))) ∧
      (update (idealOps Real.sqrt Real.sin Real.cos)
        (update (idealOps Real.sqrt Real.sin Real.cos)
          (shoot (idealOps Real.sqrt Real.sin Real.cos)
            (init (idealOps Real.sqrt Real.sin Real.cos) (fun _ => 0))))).enemies.length = 3 :=
  ⟨Reachable.update _ (Reachable.shoot _ (Reachable.init _)),
    (C1_enemy_count_three _ _ (Reachable.update _ (Reachable.shoot _ (Reachable.init _)))).2⟩

/-! ## The collision loop on a single bullet -/

theorem hitScan_none_of_miss (ops : FloatOps F) (bpos : Vector3 F) (es : List (Enemy F))
    (h : ∀ p ∈ es, p.alive = true → inRange ops bpos p = false) :
    hitScan ops bpos es = none := by
  induction es with
  | nil => rfl
  | cons e es ih =>
    have ih1 := ih (fun p hp => h p (List.mem_cons_of_mem _ hp))
    unfold hitScan
    by_cases ha : e.alive = true
    · have := h e (List.mem_cons_self _ _) ha
      unfold inRange at this
      simp [ha, this, ih1]
    · simp [ha, ih1]

/-- First match wins: when no alive enemy in `pre` is in range and `e` is alive
and in range, the scan modifies exactly `e`. -/
theorem hitScan_first (ops : FloatOps F) (bpos : Vector3 F) (pre post : List (Enemy F))
    (e : Enemy F) (hpre : ∀ p ∈ pre, p.alive = true → inRange ops bpos p = false)
    (he : e.alive = true) (hr : inRange ops bpos e = true) :
    hitScan ops bpos (pre ++ e :: post)
      = some (pre ++ Enemy.hit e :: post, decide (e.health - 1 ≤ 0)) := by
  induction pre with
  | nil =>
    unfold inRange at hr
    unfold hitScan
    by_cases hh : e.health - 1 ≤ 0 <;> simp [he, hr, hh, Enemy.hit]
  | cons p pre ih =>
    have ih1 := ih (fun q hq => hpre q (List.mem_cons_of_mem _ hq))
    rw [List.cons_append]
    unfold hitScan
    by_cases ha : p.alive = true
    · have := hpre p (List.mem_cons_self _ _) ha
      unfold inRange at this
      simp [ha, this, ih1]
    · simp [ha, ih1]

theorem update_eq (ops : FloatOps F) (g : Game F) :
    update ops g = updateBullets ops (movementStep ops g) := rfl

theorem handleInteraction_frame (ops : FloatOps F) (g : Game F) :
    (handleInteraction ops g).enemies = g.enemies ∧ (handleInteraction ops g).bullets = g.bullets ∧
      (handleInteraction ops g).score = g.score ∧ (handleInteraction ops g).rng = g.rng := by
  unfold handleInteraction
  split
  · dsimp only
    split
    · exact ⟨rfl, rfl, rfl, rfl⟩
    · split <;> exact ⟨rfl, rfl, rfl, rfl⟩
  · exact ⟨rfl, rfl, rfl, rfl⟩

theorem updatePlayerMovement_frame (ops : FloatOps F) (g : Game F) :
    (updatePlayerMovement ops g).enemies = g.enemies ∧
      (updatePlayerMovement ops g).bullets = g.bullets ∧
      (updatePlayerMovement ops g).score = g.score ∧ (updatePlayerMovement ops g).rng = g.rng := by
  unfold updatePlayerMovement
  by_cases h : ops.lt (ops.lit 0) (Vector3.length ops (rawMove ops g)) = true <;> simp [h]

theorem movementStep_frame (ops : FloatOps F) (g : Game F) :
    (movementStep ops g).enemies = g.enemies ∧ (movementStep ops g).bullets = g.bullets ∧
      (movementStep ops g).score = g.score ∧ (movementStep ops g).rng = g.rng := by
  obtain ⟨h1, h2, h3, h4⟩ := handleInteraction_frame ops g
  unfold movementStep
  split
  · exact ⟨h1, h2, h3, h4⟩
  · obtain ⟨k1, k2, k3, k4⟩ := updatePlayerMovement_frame ops (handleInteraction ops g)
    exact ⟨k1.trans h1, k2.trans h2, k3.trans h3, k4.trans h4⟩

theorem filter_alive_of_all (es : List (Enemy F)) (h : ∀ p ∈ es, p.alive = true) :
    es.filter (fun p => p.alive) = es :=
  List.filter_eq_self.mpr (fun p hp => by simpa using h p hp)

/-- One alive bullet whose advanced position first meets the alive enemy `e`
with health at least 2: the enemy stays, one health point lower. -/
theorem updateBullets_single_wound (ops : FloatOps F) (g : Game F) (b : Bullet F)
    (pre post : List (Enemy F)) (e : Enemy F)
    (hb : g.bullets = [b]) (hba : b.alive = true) (hes : g.enemies = pre ++ e :: post)
    (halive : ∀ p ∈ g.enemies, p.alive = true)
    (hpre : ∀ p ∈ pre, inRange ops (advanceBullet ops b).position p = false)
    (hr : inRange ops (advanceBullet ops b).position e = true) (hh : 2 ≤ e.health) :
    (updateBullets ops g).enemies = pre ++ { e with health := e.health - 1 } :: post ∧
      (updateBullets ops g).bullets = [] ∧ (updateBullets ops g).score = g.score ∧
      (updateBullets ops g).rng = g.rng := by
  have hea : e.alive = true := halive e (by simp [hes])
  have hscan := hitScan_first ops (advanceBullet ops b).position pre post e
    (fun p hp _ => hpre p hp) hea hr
  have hnot : ¬ (e.health - 1 ≤ 0) := by omega
  have hba2 : (advanceBullet ops b).alive = true := by simp [advanceBullet, hba]
  have hfil : (pre ++ { e with health := e.health - 1 } :: post).filter (fun p => p.alive)
      = pre ++ { e with health := e.health - 1 } :: post := by
    apply filter_alive_of_all
    intro p hp
    simp only [List.mem_append, List.mem_cons] at hp
    rcases hp with hp | rfl | hp
    · exact halive p (by simp [hes, hp])
    · exact hea
    · exact halive p (by simp [hes, hp])
  simp only [updateBullets, hb, List.map_cons, List.map_nil, collideAll, collideBullet, hba2,
    hes, hscan, Enemy.hit, hnot, Bool.not_true, Bool.false_eq_true, if_false, decide_False,
    List.filter_cons, List.filter_nil, hfil]
  exact ⟨trivial, trivial, trivial, trivial⟩

/-- One alive bullet whose advanced position first meets the alive enemy `e`
with health at most 1: the enemy is erased, a fresh enemy is pushed at the back
and the score grows by one. -/
theorem updateBullets_single_kill (ops : FloatOps F) (g : Game F) (b : Bullet F)
    (pre post : List (Enemy F)) (e : Enemy F)
    (hb : g.bullets = [b]) (hba : b.alive = true) (hes : g.enemies = pre ++ e :: post)
    (halive : ∀ p ∈ g.enemies, p.alive = true)
    (hpre : ∀ p ∈ pre, inRange ops (advanceBullet ops b).position p = false)
    (hr : inRange ops (advanceBullet ops b).position e = true) (hh : e.health ≤ 1) :
    (updateBullets ops g).enemies = pre ++ post ++ [nextEnemy ops g] ∧
      (updateBullets ops g).bullets = [] ∧ (updateBullets ops g).score = g.score + 1 ∧
      (updateBullets ops g).rng = fun n => g.rng (n + 2) := by
  have hea : e.alive = true := halive e (by simp [hes])
  have hscan := hitScan_first ops (advanceBullet ops b).position pre post e
    (fun p hp _ => hpre p hp) hea hr
  have hle : e.health - 1 ≤ 0 := by omega
  have hba2 : (advanceBullet ops b).alive = true := by simp [advanceBullet, hba]
  have hpre2 : pre.filter (fun p => p.alive) = pre :=
    filter_alive_of_all pre (fun p hp => halive p (by simp [hes, hp]))
  have hpost2 : post.filter (fun p => p.alive) = post :=
    filter_alive_of_all post (fun p hp => halive p (by simp [hes, hp]))
  simp only [updateBullets, hb, List.map_cons, List.map_nil, collideAll, collideBullet, hba2,
    hes, hscan, Enemy.hit, hle, Bool.not_true, Bool.false_eq_true, if_false, if_true,
    decide_True, spawnEnemy, List.filter_cons, List.filter_nil, List.filter_append, hpre2,
    hpost2, Enemy.mk3, nextEnemy, List.append_assoc, List.nil_append]
  exact ⟨trivial, trivial, trivial, trivial⟩

theorem update_single_wound (ops : FloatOps F) (g : Game F) (b : Bullet F)
    (pre post : List (Enemy F)) (e : Enemy F)
    (hb : g.bullets = [b]) (hba : b.alive = true) (hes : g.enemies = pre ++ e :: post)
    (halive : ∀ p ∈ g.enemies, p.alive = true)
    (hpre : ∀ p ∈ pre, inRange ops (advanceBullet ops b).position p = false)
    (hr : inRange ops (advanceBullet ops b).position e = true) (hh : 2 ≤ e.health) :
    (update ops g).enemies = pre ++ { e with health := e.health - 1 } :: post ∧
      (update ops g).bullets = [] ∧ (update ops g).score = g.score ∧
      (update ops g).rng = g.rng := by
  obtain ⟨m1, m2, m3, m4⟩ := movementStep_frame ops g
  have := updateBullets_single_wound ops (movementStep ops g) b pre post e (m2.trans hb) hba
    (m1.trans hes) (by rw [m1]; exact halive) hpre hr hh
  rw [update_eq]
  rw [m3, m4] at this
  exact this

theorem update_single_kill (ops : FloatOps F) (g : Game F) (b : Bullet F)
    (pre post : List (Enemy F)) (e : Enemy F)
    (hb : g.bullets = [b]) (hba : b.alive = true) (hes : g.enemies = pre ++ e :: post)
    (halive : ∀ p ∈ g.enemies, p.alive = true)
    (hpre : ∀ p ∈ pre, inRange ops (advanceBullet ops b).position p = false)
    (hr : inRange ops (advanceBullet ops b).position e = true) (hh : e.health ≤ 1) :
    (update ops g).enemies = pre ++ post ++ [nextEnemy ops g] ∧
      (update ops g).bullets = [] ∧ (update ops g).score = g.score + 1 ∧
      (update ops g).rng = fun n => g.rng (n + 2) := by
  obtain ⟨m1, m2, m3, m4⟩ := movementStep_frame ops g
  have := updateBullets_single_kill ops (movementStep ops g) b pre post e (m2.trans hb) hba
    (m1.trans hes) (by rw [m1]; exact halive) hpre hr hh
  rw [update_eq]
  have hn : nextEnemy ops (movementStep ops g) = nextEnemy ops g := by
    unfold nextEnemy
    rw [m4]
  rw [m3, m4, hn] at this
  exact this

theorem alive_after_wound (pre post : List (Enemy F)) (e : Enemy F) (h : Int)
    (halive : ∀ p ∈ pre ++ e :: post, p.alive = true) :
    ∀ p ∈ pre ++ { e with health := h } :: post, p.alive = true := by
  intro p hp
  simp only [List.mem_append, List.mem_cons] at hp
  rcases hp with hp | rfl | hp
  · exact halive p (by simp [hp])
  · exact halive e (by simp)
  · exact halive p (by simp [hp])

/-! ## The exact interpretation -/

section Ideal

variable {K : Type} [LinearOrderedField K] (sqrt sin cos : K → K)

@[simp] theorem idealOps_lit (q : ℚ) : (idealOps sqrt sin cos).lit q = (q : K) := rfl
@[simp] theorem idealOps_add (a b : K) : (idealOps sqrt sin cos).add a b = a + b := rfl
@[simp] theorem idealOps_sub (a b : K) : (idealOps sqrt sin cos).sub a b = a - b := rfl
@[simp] theorem idealOps_mul (a b : K) : (idealOps sqrt sin cos).mul a b = a * b := rfl
@[simp] theorem idealOps_div (a b : K) : (idealOps sqrt sin cos).div a b = a / b := rfl
@[simp] theorem idealOps_sqrt (a : K) : (idealOps sqrt sin cos).sqrt a = sqrt a := rfl
@[simp] theorem idealOps_sin (a : K) : (idealOps sqrt sin cos).sin a = sin a := rfl
@[simp] theorem idealOps_cos (a : K) : (idealOps sqrt sin cos).cos a = cos a := rfl
@[simp] theorem idealOps_lt (a b : K) : (idealOps sqrt sin cos).lt a b = decide (a < b) := rfl
@[simp] theorem idealOps_eq (a b : K) : (idealOps sqrt sin cos).eq a b = decide (a = b) := rfl

theorem isSqrt_real : IsSqrt Real.sqrt :=
  fun x hx => ⟨Real.sqrt_nonneg x, Real.mul_self_sqrt hx⟩

theorem isTrig_real : IsTrig Real.sin Real.cos := fun t => by
  have := Real.sin_sq_add_cos_sq t
  nlinarith [this]

variable {sqrt}

theorem IsSqrt.lt_one_iff (hs : IsSqrt sqrt) (x : K) (hx : 0 ≤ x) : sqrt x < 1 ↔ x < 1 := by
  obtain ⟨h0, h1⟩ := hs x hx
  constructor
  · intro h
    nlinarith
  · intro h
    by_contra hc
    push_neg at hc
    nlinarith

theorem IsSqrt.eq_of_sq (hs : IsSqrt sqrt) (x y : K) (hy : 0 ≤ y) (h : y * y = x) :
    sqrt x = y := by
  have hx : 0 ≤ x := by rw [← h]; exact mul_self_nonneg y
  obtain ⟨h0, h1⟩ := hs x hx
  nlinarith [mul_self_nonneg (sqrt x - y), mul_nonneg h0 hy]

/-- In the exact interpretation the range test compares the squared distance
with 1. -/
theorem ideal_inRange (hs : IsSqrt sqrt) (bpos : Vector3 K) (e : Enemy K) :
    inRange (idealOps sqrt sin cos) bpos e
      = decide ((e.position.x - bpos.x) * (e.position.x - bpos.x)
          + (e.position.y - bpos.y) * (e.position.y - bpos.y)
          + (e.position.z - bpos.z) * (e.position.z - bpos.z) < 1) := by
  simp only [inRange, Vector3.distanceTo, Vector3.length, Vector3.sub, idealOps_lt, idealOps_sqrt,
    idealOps_add, idealOps_mul, idealOps_sub, idealOps_lit, Rat.cast_one]
  rw [decide_eq_decide]
  apply hs.lt_one_iff
  have h1 := mul_self_nonneg (e.position.x - bpos.x)
  have h2 := mul_self_nonneg (e.position.y - bpos.y)
  have h3 := mul_self_nonneg (e.position.z - bpos.z)
  linarith

end Ideal

/-! ## C2: the lethal-hit scenario -/

section Ideal

variable {K : Type} [LinearOrderedField K] {sqrt : K → K} (sin cos : K → K)

theorem ideal_length_eq_one (hs : IsSqrt sqrt) (d : Vector3 K)
    (h : Vector3.length (idealOps sqrt sin cos) d = 1) : d.x * d.x + d.y * d.y + d.z * d.z = 1 := by
  simp only [Vector3.length, idealOps_sqrt, idealOps_add, idealOps_mul] at h
  have hnn : 0 ≤ d.x * d.x + d.y * d.y + d.z * d.z := by
    have h1 := mul_self_nonneg d.x
    have h2 := mul_self_nonneg d.y
    have h3 := mul_self_nonneg d.z
    linarith
  have := (hs _ hnn).2
  rw [h] at this
  linarith

/-- A bullet placed on an enemy and advanced along a unit direction is within
range of that enemy: the distance is one half. -/
theorem ideal_unit_step_inRange (hs : IsSqrt sqrt) (pos dir : Vector3 K)
    (hunit : Vector3.length (idealOps sqrt sin cos) dir = 1) (e : Enemy K)
    (he : e.position = pos) :
    inRange (idealOps sqrt sin cos)
      (advanceBullet (idealOps sqrt sin cos) (Bullet.mk2 pos dir)).position e = true := by
  have h1 := ideal_length_eq_one sin cos hs dir hunit
  rw [ideal_inRange sin cos hs]
  simp only [advanceBullet, Bullet.mk2, if_true, Vector3.add, Vector3.scale, idealOps_add,
    idealOps_mul, idealOps_lit, he, decide_eq_true_eq]
  push_cast
  have : (pos.x - (pos.x + dir.x * (1 / 2))) * (pos.x - (pos.x + dir.x * (1 / 2)))
      + (pos.y - (pos.y + dir.y * (1 / 2))) * (pos.y - (pos.y + dir.y * (1 / 2)))
      + (pos.z - (pos.z + dir.z * (1 / 2))) * (pos.z - (pos.z + dir.z * (1 / 2)))
      = (dir.x * dir.x + dir.y * dir.y + dir.z * dir.z) / 4 := by ring
  rw [this, h1]
  norm_num

end Ideal

/-- In exact arithmetic `dist` maps the canonical draw `u` to `40 * u - 20`. -/
theorem ideal_dist {K : Type} [LinearOrderedField K] (sqrt sin cos : K → K) (u : K) :
    dist (idealOps sqrt sin cos) u = 40 * u - 20 := by
  show (((20 : ℚ) : K) - ((-20 : ℚ) : K)) * u + ((-20 : ℚ) : K) = 40 * u - 20
  push_cast
  ring

/-- C2, counterexample. Real-number interpretation, initial enemies at (0,1,1/4),
(1/2,1,3/4), (1,1,5/4); the second enemy gets health 1 and the bullet, with the
unit direction (0,0,-1), is placed on it. After advancing, the bullet is at
(1/2,1,1/4), at distance 1/2 from the first enemy, which is scanned first and
takes the hit: the score does not change and the enemy of health 1 is still in
the collection. -/
theorem C2_lethal_hit_counterexample :
    Vector3.length (idealOps Real.sqrt Real.sin Real.cos)
        (forwardDir (idealOps Real.sqrt Real.sin Real.cos)) = 1 ∧
      (update (idealOps Real.sqrt Real.sin Real.cos)
        (lethalScenario (idealOps Real.sqrt Real.sin Real.cos)
          (denseRng (idealOps Real.sqrt Real.sin Real.cos)) 1
          (forwardDir (idealOps Real.sqrt Real.sin Real.cos)))).score = 0 ∧
      (update (idealOps Real.sqrt Real.sin Real.cos)
        (lethalScenario (idealOps Real.sqrt Real.sin Real.cos)
          (denseRng (idealOps Real.sqrt Real.sin Real.cos)) 1
          (forwardDir (idealOps Real.sqrt Real.sin Real.cos)))).enemies
        = [⟨⟨0, 1, 1 / 4⟩, 2, true⟩, ⟨⟨1 / 2, 1, 3 / 4⟩, 1, true⟩, ⟨⟨1, 1, 5 / 4⟩, 3, true⟩] := by
  have hsc : lethalScenario (idealOps Real.sqrt Real.sin Real.cos)
      (denseRng (idealOps Real.sqrt Real.sin Real.cos)) 1
      (forwardDir (idealOps Real.sqrt Real.sin Real.cos))
      = { init (idealOps Real.sqrt Real.sin Real.cos)
            (denseRng (idealOps Real.sqrt Real.sin Real.cos)) with
          enemies := [⟨⟨0, 1, 1 / 4⟩, 3, true⟩, ⟨⟨1 / 2, 1, 3 / 4⟩, 1, true⟩,
            ⟨⟨1, 1, 5 / 4⟩, 3, true⟩]
          bullets := [Bullet.mk2 ⟨1 / 2, 1, 3 / 4⟩
            (forwardDir (idealOps Real.sqrt Real.sin Real.cos))] } := by
    simp [lethalScenario, init, spawnEnemy, dist, uniformReal, denseRng, Enemy.mk3]
    norm_num
  rw [hsc]
  have key : ∀ g : Game ℝ,
      g.bullets = [Bullet.mk2 ⟨1 / 2, 1, 3 / 4⟩
        (forwardDir (idealOps Real.sqrt Real.sin Real.cos))] →
      g.enemies = [⟨⟨0, 1, 1 / 4⟩, 3, true⟩, ⟨⟨1 / 2, 1, 3 / 4⟩, 1, true⟩,
        ⟨⟨1, 1, 5 / 4⟩, 3, true⟩] →
      g.score = 0 →
      (update (idealOps Real.sqrt Real.sin Real.cos) g).score = 0 ∧
        (update (idealOps Real.sqrt Real.sin Real.cos) g).enemies
          = [⟨⟨0, 1, 1 / 4⟩, 2, true⟩, ⟨⟨1 / 2, 1, 3 / 4⟩, 1, true⟩,
            ⟨⟨1, 1, 5 / 4⟩, 3, true⟩] := by
    intro g hb he hscore
    have h := update_single_wound (idealOps Real.sqrt Real.sin Real.cos) g
      (Bullet.mk2 ⟨1 / 2, 1, 3 / 4⟩ (forwardDir (idealOps Real.sqrt Real.sin Real.cos)))
      [] [⟨⟨1 / 2, 1, 3 / 4⟩, 1, true⟩, ⟨⟨1, 1, 5 / 4⟩, 3, true⟩] ⟨⟨0, 1, 1 / 4⟩, 3, true⟩
      hb rfl he (by rw [he]; simp) (by simp)
      (by
        rw [ideal_inRange Real.sin Real.cos isSqrt_real]
        simp [advanceBullet, forwardDir, Bullet.mk2, Vector3.add, Vector3.scale]
        norm_num)
      (by norm_num)
    exact ⟨h.2.2.1.trans hscore, h.1⟩
  refine ⟨?_, key _ rfl rfl rfl⟩
  simp [Vector3.length, forwardDir]

theorem init_enemies (ops : FloatOps F) (rng : Nat → F) :
    (init ops rng).enemies
      = [Enemy.mk3 ⟨dist ops (rng 0), ops.lit 1, dist ops (rng 1)⟩,
        Enemy.mk3 ⟨dist ops (rng 2), ops.lit 1, dist ops (rng 3)⟩,
          Enemy.mk3 ⟨dist ops (rng 4), ops.lit 1, dist ops (rng 5)⟩] := rfl

theorem init_nextEnemy (ops : FloatOps F) (rng : Nat → F) :
    nextEnemy ops (init ops rng) = Enemy.mk3 ⟨dist ops (rng 6), ops.lit 1, dist ops (rng 7)⟩ := rfl

/-- The lethal-hit scenario for any float semantics, given that the targeted
enemy is the first one in range of the advanced bullet. -/
theorem lethalScenario_update (ops : FloatOps F) (rng : Nat → F) (i : Nat) (dir : Vector3 F)
    (target : Enemy F) (ht : (init ops rng).enemies.get? i = some target)
    (hfirst : ∀ j p, j < i → (init ops rng).enemies.get? j = some p →
      inRange ops (advanceBullet ops (Bullet.mk2 target.position dir)).position p = false)
    (hr : inRange ops (advanceBullet ops (Bullet.mk2 target.position dir)).position target
      = true) :
    (update ops (lethalScenario ops rng i dir)).enemies
        = (init ops rng).enemies.eraseIdx i ++ [nextEnemy ops (init ops rng)] ∧
      (update ops (lethalScenario ops rng i dir)).bullets = [] ∧
      (update ops (lethalScenario ops rng i dir)).score
        = (lethalScenario ops rng i dir).score + 1 ∧
      (update ops (lethalScenario ops rng i dir)).enemies.length
        = (lethalScenario ops rng i dir).enemies.length := by
  have hsc : lethalScenario ops rng i dir
      = { init ops rng with
          enemies := (init ops rng).enemies.set i { target with health := 1 }
          bullets := [Bullet.mk2 target.position dir] } := by
    simp only [lethalScenario, ht]
  have hlt : i < 3 := by
    have := List.get?_eq_some.mp ht
    obtain ⟨h, _⟩ := this
    simpa [init_enemies] using h
  have hr1 : inRange ops (advanceBullet ops (Bullet.mk2 target.position dir)).position
      { target with health := 1 } = true := hr
  rw [hsc, init_nextEnemy]
  rw [init_enemies] at ht hfirst ⊢
  interval_cases i
  · simp only [List.get?_cons_zero, Option.some.injEq] at ht
    subst ht
    have h := update_single_kill ops
      { init ops rng with
        enemies := [{ (Enemy.mk3 ⟨dist ops (rng 0), ops.lit 1, dist ops (rng 1)⟩ : Enemy F) with
            health := 1 },
          Enemy.mk3 ⟨dist ops (rng 2), ops.lit 1, dist ops (rng 3)⟩,
            Enemy.mk3 ⟨dist ops (rng 4), ops.lit 1, dist ops (rng 5)⟩]
        bullets := [Bullet.mk2 (⟨dist ops (rng 0), ops.lit 1, dist ops (rng 1)⟩ : Vector3 F) dir] }
      (Bullet.mk2 ⟨dist ops (rng 0), ops.lit 1, dist ops (rng 1)⟩ dir) []
      [Enemy.mk3 ⟨dist ops (rng 2), ops.lit 1, dist ops (rng 3)⟩,
        Enemy.mk3 ⟨dist ops (rng 4), ops.lit 1, dist ops (rng 5)⟩]
      { (Enemy.mk3 ⟨dist ops (rng 0), ops.lit 1, dist ops (rng 1)⟩ : Enemy F) with health := 1 }
      rfl rfl rfl (by simp [Enemy.mk3]) (by simp) hr1 (by simp)
    exact ⟨h.1, h.2.1, h.2.2.1, (congrArg List.length h.1).trans rfl⟩
  · simp only [List.get?_cons_succ, List.get?_cons_zero, Option.some.injEq] at ht
    subst ht
    have h := update_single_kill ops
      { init ops rng with
        enemies := [Enemy.mk3 ⟨dist ops (rng 0), ops.lit 1, dist ops (rng 1)⟩,
          { (Enemy.mk3 ⟨dist ops (rng 2), ops.lit 1, dist ops (rng 3)⟩ : Enemy F) with health := 1 },
          Enemy.mk3 ⟨dist ops (rng 4), ops.lit 1, dist ops (rng 5)⟩]
        bullets := [Bullet.mk2 (⟨dist ops (rng 2), ops.lit 1, dist ops (rng 3)⟩ : Vector3 F) dir] }
      (Bullet.mk2 ⟨dist ops (rng 2), ops.lit 1, dist ops (rng 3)⟩ dir)
        [Enemy.mk3 ⟨dist ops (rng 0), ops.lit 1, dist ops (rng 1)⟩]
      [Enemy.mk3 ⟨dist ops (rng 4), ops.lit 1, dist ops (rng 5)⟩]
      { (Enemy.mk3 ⟨dist ops (rng 2), ops.lit 1, dist ops (rng 3)⟩ : Enemy F) with health := 1 }
      rfl rfl rfl (by simp [Enemy.mk3])
      (by
        intro p hp
        simp only [List.mem_singleton] at hp
        subst hp
        exact hfirst 0 _ (by norm_num) rfl)
      hr1 (by simp)
    exact ⟨h.1, h.2.1, h.2.2.1, (congrArg List.length h.1).trans rfl⟩
  · simp only [List.get?_cons_succ, List.get?_cons_zero, Option.some.injEq] at ht
    subst ht
    have h := update_single_kill ops
      { init ops rng with
        enemies := [Enemy.mk3 ⟨dist ops (rng 0), ops.lit 1, dist ops (rng 1)⟩,
          Enemy.mk3 ⟨dist ops (rng 2), ops.lit 1, dist ops (rng 3)⟩,
          { (Enemy.mk3 ⟨dist ops (rng 4), ops.lit 1, dist ops (rng 5)⟩ : Enemy F) with health := 1 }]
        bullets := [Bullet.mk2 (⟨dist ops (rng 4), ops.lit 1, dist ops (rng 5)⟩ : Vector3 F) dir] }
      (Bullet.mk2 ⟨dist ops (rng 4), ops.lit 1, dist ops (rng 5)⟩ dir)
      [Enemy.mk3 ⟨dist ops (rng 0), ops.lit 1, dist ops (rng 1)⟩,
        Enemy.mk3 ⟨dist ops (rng 2), ops.lit 1, dist ops (rng 3)⟩] []
      { (Enemy.mk3 ⟨dist ops (rng 4), ops.lit 1, dist ops (rng 5)⟩ : Enemy F) with health := 1 }
      rfl rfl rfl (by simp [Enemy.mk3])
      (by
        intro p hp
        simp only [List.mem_cons, List.mem_singleton, List.mem_nil_iff, or_false] at hp
        rcases hp with rfl | rfl
        · exact hfirst 0 _ (by norm_num) rfl
        · exact hfirst 1 _ (by norm_num) rfl)
      hr1 (by simp)
    exact ⟨h.1, h.2.1, h.2.2.1, (congrArg List.length h.1).trans rfl⟩

/-- C2, amended. Exact arithmetic (ordered field, exact square root). In a freshly
constructed simulation, set the health of the enemy at index `i` to 1 and place a
single alive bullet with a unit-length direction on it. If no enemy before index
`i` is within range of the advanced bullet, one `update` erases that enemy (the
other two keep their order and a fresh enemy is pushed at the back), empties the
bullet collection, raises the score by exactly 1 and leaves the enemy count
unchanged. -/
theorem C2_lethal_hit_first_in_range {K : Type} [LinearOrderedField K] (sqrt sin cos : K → K)
    (hs : IsSqrt sqrt) (rng : Nat → K) (i : Nat) (dir : Vector3 K)
    (hunit : Vector3.length (idealOps sqrt sin cos) dir = 1) (target : Enemy K)
    (ht : (init (idealOps sqrt sin cos) rng).enemies.get? i = some target)
    (hfirst : ∀ j p, j < i → (init (idealOps sqrt sin cos) rng).enemies.get? j = some p →
      inRange (idealOps sqrt sin cos)
        (advanceBullet (idealOps sqrt sin cos) (Bullet.mk2 target.position dir)).position p
        = false) :
    (update (idealOps sqrt sin cos) (lethalScenario (idealOps sqrt sin cos) rng i dir)).enemies
        = (init (idealOps sqrt sin cos) rng).enemies.eraseIdx i
          ++ [nextEnemy (idealOps sqrt sin cos) (init (idealOps sqrt sin cos) rng)] ∧
      (update (idealOps sqrt sin cos) (lethalScenario (idealOps sqrt sin cos) rng i dir)).bullets
        = [] ∧
      (update (idealOps sqrt sin cos) (lethalScenario (idealOps sqrt sin cos) rng i dir)).score
        = (lethalScenario (idealOps sqrt sin cos) rng i dir).score + 1 ∧
      (update (idealOps sqrt sin cos)
          (lethalScenario (idealOps sqrt sin cos) rng i dir)).enemies.length
        = (lethalScenario (idealOps sqrt sin cos) rng i dir).enemies.length :=
  lethalScenario_update (idealOps sqrt sin cos) rng i dir target ht hfirst
    (ideal_unit_step_inRange sin cos hs target.position dir hunit target rfl)

/-- Witness for the amended C2: real numbers, enemies at (0,1,3), (6,1,9),
(12,1,15), the second one targeted with direction (0,0,-1). -/
theorem C2_lethal_hit_first_in_range_witness :
    (update (idealOps Real.sqrt Real.sin Real.cos)
        (lethalScenario (idealOps Real.sqrt Real.sin Real.cos)
          (spreadRng (idealOps Real.sqrt Real.sin Real.cos)) 1
          (forwardDir (idealOps Real.sqrt Real.sin Real.cos)))).bullets = [] ∧
      (update (idealOps Real.sqrt Real.sin Real.cos)
        (lethalScenario (idealOps Real.sqrt Real.sin Real.cos)
          (spreadRng (idealOps Real.sqrt Real.sin Real.cos)) 1
          (forwardDir (idealOps Real.sqrt Real.sin Real.cos)))).score
        = (lethalScenario (idealOps Real.sqrt Real.sin Real.cos)
          (spreadRng (idealOps Real.sqrt Real.sin Real.cos)) 1
          (forwardDir (idealOps Real.sqrt Real.sin Real.cos))).score + 1 := by
  have h := C2_lethal_hit_first_in_range Real.sqrt Real.sin Real.cos isSqrt_real
    (spreadRng (idealOps Real.sqrt Real.sin Real.cos)) 1
    (forwardDir (idealOps Real.sqrt Real.sin Real.cos))
    (by simp [Vector3.length, forwardDir])
    (Enemy.mk3 ⟨dist (idealOps Real.sqrt Real.sin Real.cos)
        (spreadRng (idealOps Real.sqrt Real.sin Real.cos) 2), 1,
      dist (idealOps Real.sqrt Real.sin Real.cos)
        (spreadRng (idealOps Real.sqrt Real.sin Real.cos) 3)⟩)
    (by simp [init_enemies])
    (by
      intro j p hj hp
      have hj0 : j = 0 := by omega
      subst hj0
      simp only [init_enemies, List.get?_cons_zero, Option.some.injEq] at hp
      subst hp
      rw [ideal_inRange Real.sin Real.cos isSqrt_real]
      simp [advanceBullet, forwardDir, Bullet.mk2, Enemy.mk3, Vector3.add, Vector3.scale,
        ideal_dist, spreadRng]
      norm_num)
  exact ⟨h.2.1, h.2.2.1⟩

/-! ## Fields the collision resolver never touches -/

/-- The part of the state outside the entity collections, the score and the
random source is the same in `g` and `g1`. -/
theorem collideBullet_frame (ops : FloatOps F) (g : Game F) (b : Bullet F) :
    (collideBullet ops g b).1.playerPos = g.playerPos ∧
      (collideBullet ops g b).1.carPos = g.carPos ∧
      (collideBullet ops g b).1.inCar = g.inCar ∧
      (collideBullet ops g b).1.keys = g.keys ∧
      (collideBullet ops g b).1.camAngleH = g.camAngleH ∧
      (collideBullet ops g b).1.camAngleV = g.camAngleV ∧
      (collideBullet ops g b).1.camDist = g.camDist := by
  unfold collideBullet
  by_cases hb : b.alive = true
  · simp only [hb, Bool.not_true, Bool.false_eq_true, if_false]
    cases hitScan ops b.position g.enemies with
    | none => exact ⟨rfl, rfl, rfl, rfl, rfl, rfl, rfl⟩
    | some r =>
      obtain ⟨es, killed⟩ := r
      cases killed <;> exact ⟨rfl, rfl, rfl, rfl, rfl, rfl, rfl⟩
  · simp [hb]

theorem collideAll_frame (ops : FloatOps F) (bs : List (Bullet F)) (g : Game F) :
    (collideAll ops g bs).1.playerPos = g.playerPos ∧
      (collideAll ops g bs).1.carPos = g.carPos ∧
      (collideAll ops g bs).1.inCar = g.inCar ∧
      (collideAll ops g bs).1.keys = g.keys ∧
      (collideAll ops g bs).1.camAngleH = g.camAngleH ∧
      (collideAll ops g bs).1.camAngleV = g.camAngleV ∧
      (collideAll ops g bs).1.camDist = g.camDist := by
  induction bs generalizing g with
  | nil => exact ⟨rfl, rfl, rfl, rfl, rfl, rfl, rfl⟩
  | cons b bs ih =>
    obtain ⟨a1, a2, a3, a4, a5, a6, a7⟩ := ih (collideBullet ops g b).1
    obtain ⟨c1, c2, c3, c4, c5, c6, c7⟩ := collideBullet_frame ops g b
    simp only [collideAll]
    exact ⟨a1.trans c1, a2.trans c2, a3.trans c3, a4.trans c4, a5.trans c5, a6.trans c6,
      a7.trans c7⟩

theorem updateBullets_frame (ops : FloatOps F) (g : Game F) :
    (updateBullets ops g).playerPos = g.playerPos ∧
      (updateBullets ops g).carPos = g.carPos ∧
      (updateBullets ops g).inCar = g.inCar ∧
      (updateBullets ops g).keys = g.keys ∧
      (updateBullets ops g).camAngleH = g.camAngleH ∧
      (updateBullets ops g).camAngleV = g.camAngleV ∧
      (updateBullets ops g).camDist = g.camDist :=
  collideAll_frame ops _ g

theorem handleInteraction_of_not_held (ops : FloatOps F) (g : Game F)
    (h1 : g.keys key_e = false) (h2 : g.keys key_E = false) : handleInteraction ops g = g := by
  simp [handleInteraction, h1, h2]

theorem movementStep_on_foot (ops : FloatOps F) (g : Game F)
    (h1 : g.keys key_e = false) (h2 : g.keys key_E = false) (hc : g.inCar = false) :
    movementStep ops g = updatePlayerMovement ops g := by
  simp [movementStep, handleInteraction_of_not_held ops g h1 h2, hc]

theorem rawMove_y (ops : FloatOps F) (g : Game F) : (rawMove ops g).y = ops.lit 0 := by
  unfold rawMove
  dsimp only
  split <;> split <;> split <;> split <;> rfl

/-! ## Rounding to binary32 -/

theorem log2Fuel_spec : ∀ (fuel n : Nat), 1 ≤ n → n ≤ fuel →
    2 ^ log2Fuel fuel n ≤ n ∧ n < 2 ^ (log2Fuel fuel n + 1)
  | 0, n, h1, h2 => by omega
  | fuel + 1, n, h1, h2 => by
    unfold log2Fuel
    by_cases hn : n < 2
    · simp only [hn, if_true]
      have : n = 1 := by omega
      subst this
      norm_num
    · simp only [hn, if_false]
      obtain ⟨i1, i2⟩ := log2Fuel_spec fuel (n / 2) (by omega) (by omega)
      have e1 : 2 ^ (1 + log2Fuel fuel (n / 2)) = 2 * 2 ^ log2Fuel fuel (n / 2) := by ring
      have e2 : 2 ^ (1 + log2Fuel fuel (n / 2) + 1) = 4 * 2 ^ log2Fuel fuel (n / 2) := by ring
      have e3 : 2 ^ (log2Fuel fuel (n / 2) + 1) = 2 * 2 ^ log2Fuel fuel (n / 2) := by ring
      rw [e3] at i2
      rw [e1, e2]
      generalize 2 ^ log2Fuel fuel (n / 2) = p at i1 i2 ⊢
      omega

theorem ilog2_aux (N D : ℕ) (hN : 1 ≤ N) (hD : 1 ≤ D) :
    (2 : ℚ) ^ (if (log2Fuel N N : ℤ) - (log2Fuel D D : ℤ) ≥ 0 then
        (if D * 2 ^ ((log2Fuel N N : ℤ) - (log2Fuel D D : ℤ)).toNat ≤ N then
          (log2Fuel N N : ℤ) - (log2Fuel D D : ℤ)
        else (log2Fuel N N : ℤ) - (log2Fuel D D : ℤ) - 1)
      else
        (if D ≤ N * 2 ^ (-((log2Fuel N N : ℤ) - (log2Fuel D D : ℤ))).toNat then
          (log2Fuel N N : ℤ) - (log2Fuel D D : ℤ)
        else (log2Fuel N N : ℤ) - (log2Fuel D D : ℤ) - 1)) ≤ (N : ℚ) / (D : ℚ) := by
  obtain ⟨a1, _⟩ := log2Fuel_spec N N hN le_rfl
  obtain ⟨_, b2⟩ := log2Fuel_spec D D hD le_rfl
  have hDpos : (0 : ℚ) < (D : ℚ) := by exact_mod_cast hD
  -- the overshoot case: one below the difference of the logarithms
  have low : (2 : ℚ) ^ ((log2Fuel N N : ℤ) - (log2Fuel D D : ℤ) - 1) ≤ (N : ℚ) / (D : ℚ) := by
    rw [zpow_sub₀ (by norm_num), zpow_sub₀ (by norm_num), zpow_natCast, zpow_natCast,
      zpow_one, div_div, div_le_div_iff₀ (by positivity) hDpos]
    have h1 : ((2 : ℚ) ^ log2Fuel N N) ≤ N := by exact_mod_cast a1
    have h2 : (D : ℚ) ≤ 2 ^ log2Fuel D D * 2 := by
      have : D ≤ 2 ^ log2Fuel D D * 2 := by
        rw [← pow_succ]
        exact b2.le
      exact_mod_cast this
    exact mul_le_mul h1 h2 hDpos.le (by positivity)
  split_ifs with h1 h2 h2
  · -- difference nonnegative, test passed
    have e : ((log2Fuel N N : ℤ) - (log2Fuel D D : ℤ))
        = (((log2Fuel N N : ℤ) - (log2Fuel D D : ℤ)).toNat : ℤ) := (Int.toNat_of_nonneg h1).symm
    rw [e, zpow_natCast, le_div_iff₀ hDpos]
    have : (2 ^ ((log2Fuel N N : ℤ) - (log2Fuel D D : ℤ)).toNat * D : ℕ) ≤ N := by
      rw [Nat.mul_comm]
      exact h2
    exact_mod_cast this
  · exact low
  · -- difference negative, test passed
    have hneg : 0 ≤ -((log2Fuel N N : ℤ) - (log2Fuel D D : ℤ)) := by omega
    have e : ((log2Fuel N N : ℤ) - (log2Fuel D D : ℤ))
        = -((-((log2Fuel N N : ℤ) - (log2Fuel D D : ℤ))).toNat : ℤ) := by
      rw [Int.toNat_of_nonneg hneg]
      ring
    rw [e, zpow_neg, zpow_natCast, inv_eq_one_div, div_le_div_iff₀ (by positivity) hDpos,
      one_mul]
    exact_mod_cast h2
  · exact low

theorem rat_eq_natAbs_div_den (q : ℚ) (hq : 0 ≤ q) : q = (q.num.natAbs : ℚ) / (q.den : ℚ) := by
  have hnum : 0 ≤ q.num := Rat.num_nonneg.mpr hq
  have h2 : ((q.num.natAbs : ℕ) : ℚ) = (q.num : ℚ) := by
    rw [Nat.cast_natAbs, abs_of_nonneg hnum]
  rw [h2]
  exact (Rat.num_div_den q).symm

/-- The integer `ilog2 q` is a lower bound of the binary logarithm of `q`. -/
theorem ilog2_le (q : ℚ) (hq : 0 < q) : (2 : ℚ) ^ ilog2 q ≤ q := by
  have hnum : 0 < q.num := Rat.num_pos.mpr hq
  have hN : 1 ≤ q.num.natAbs := Int.natAbs_pos.mpr hnum.ne'
  have h := ilog2_aux q.num.natAbs q.den hN q.den_pos
  rw [← rat_eq_natAbs_div_den q hq.le] at h
  exact h

theorem roundHalfEven_le (n d M : ℕ) (hd : 0 < d) (h : n ≤ M * d) : roundHalfEven n d ≤ M := by
  have hf : n / d ≤ M := Nat.div_le_of_le_mul (by rw [Nat.mul_comm]; exact h)
  have hdm := Nat.div_add_mod n d
  have hr : n % d < d := Nat.mod_lt n hd
  unfold roundHalfEven
  simp only
  rcases Nat.lt_or_ge (n / d) M with hlt | hge
  · split_ifs <;> omega
  · have hfe : n / d = M := le_antisymm hf hge
    have hr0 : n % d = 0 := by
      rw [hfe, Nat.mul_comm] at hdm
      omega
    rw [hr0]
    simp [hd, hfe]

theorem le_roundHalfEven (n d M : ℕ) (hd : 0 < d) (h : M * d ≤ n) : M ≤ roundHalfEven n d := by
  have hf : M ≤ n / d := (Nat.le_div_iff_mul_le hd).mpr h
  unfold roundHalfEven
  simp only
  split_ifs <;> omega

/-- Rounding a positive rational below a natural number `B < 2^23` stays in
`[0, B]`: `B` is itself a binary32 value on the grid used for `q`. -/
theorem rnd32_pos_le_nat (q : ℚ) (B : ℕ) (hq : 0 < q) (hB : q ≤ B) (hB2 : (B : ℚ) < 2 ^ 23) :
    0 ≤ rnd32 q ∧ rnd32 q ≤ B := by
  have hl : ilog2 q < 23 := by
    by_contra hc
    push_neg at hc
    have h1 : (2 : ℚ) ^ (23 : ℤ) ≤ 2 ^ ilog2 q := zpow_le_zpow_right₀ (by norm_num) hc
    have h2 := ilog2_le q hq
    have h3 : (2 : ℚ) ^ (23 : ℤ) = 2 ^ 23 := by norm_cast
    linarith
  have he : ¬ (max (ilog2 q) (-126) - 23 ≥ 0) := by
    have : max (ilog2 q) (-126) < 23 := max_lt hl (by norm_num)
    omega
  have hN := rat_eq_natAbs_div_den q hq.le
  have hD : (0 : ℚ) < (q.den : ℚ) := by exact_mod_cast q.den_pos
  have hval : rnd32 q
      = (roundHalfEven (q.num.natAbs * 2 ^ (-(max (ilog2 q) (-126) - 23)).toNat) q.den : ℚ)
        / ((2 ^ (-(max (ilog2 q) (-126) - 23)).toNat : ℕ) : ℚ) := by
    unfold rnd32
    simp only [hq.ne', abs_of_pos hq, he, not_lt.mpr hq.le, if_false]
  rw [hval]
  generalize (-(max (ilog2 q) (-126) - 23)).toNat = s
  have hs : (0 : ℚ) < ((2 ^ s : ℕ) : ℚ) := by positivity
  refine ⟨by positivity, ?_⟩
  rw [div_le_iff₀ hs]
  have hnat : q.num.natAbs ≤ B * q.den := by
    have : (q.num.natAbs : ℚ) ≤ (B : ℚ) * (q.den : ℚ) := by
      rw [← div_le_iff₀ hD, ← hN]
      exact hB
    exact_mod_cast this
  have := roundHalfEven_le (q.num.natAbs * 2 ^ s) q.den (B * 2 ^ s) q.den_pos (by
    calc q.num.natAbs * 2 ^ s ≤ B * q.den * 2 ^ s := Nat.mul_le_mul_right _ hnat
      _ = B * 2 ^ s * q.den := by ring)
  exact_mod_cast this

theorem rnd32_zero : rnd32 0 = 0 := by
  unfold rnd32
  simp

theorem rnd32_neg (q : ℚ) : rnd32 (-q) = -rnd32 q := by
  rcases lt_trichotomy q 0 with h | h | h
  · unfold rnd32
    have h1 : ¬ (-q < 0) := by linarith
    have h2 : -q ≠ 0 := by linarith
    simp only [h.ne, h2, h, h1, abs_neg, Rat.neg_num, Int.natAbs_neg, Rat.neg_den, if_false,
      if_true, neg_neg]
  · subst h
    simp [rnd32_zero]
  · unfold rnd32
    have h1 : ¬ (q < 0) := by linarith
    have h2 : -q ≠ 0 := by linarith
    have h3 : -q < 0 := by linarith
    simp only [h.ne', h2, h3, h1, abs_neg, Rat.neg_num, Int.natAbs_neg, Rat.neg_den, if_false,
      if_true]

/-- Rounding keeps a rational inside `[-B, B]` for a natural number `B < 2^23`. -/
theorem rnd32_abs_le_nat (q : ℚ) (B : ℕ) (h1 : -(B : ℚ) ≤ q) (h2 : q ≤ B)
    (hB2 : (B : ℚ) < 2 ^ 23) : -(B : ℚ) ≤ rnd32 q ∧ rnd32 q ≤ B := by
  have hB0 : (0 : ℚ) ≤ B := by positivity
  rcases lt_trichotomy q 0 with h | h | h
  · have := rnd32_pos_le_nat (-q) B (by linarith) (by linarith) hB2
    rw [rnd32_neg] at this
    constructor <;> linarith [this.1, this.2]
  · subst h
    rw [rnd32_zero]
    constructor <;> linarith
  · have := rnd32_pos_le_nat q B h h2 hB2
    constructor <;> linarith [this.1, this.2]

/-- The integer `roundHalfEven n d` is within 1/2 of `n / d`. -/
theorem roundHalfEven_err (n d : ℕ) (hd : 0 < d) :
    |(n : ℚ) / (d : ℚ) - (roundHalfEven n d : ℚ)| ≤ 1 / 2 := by
  have hdq : (0 : ℚ) < (d : ℚ) := by exact_mod_cast hd
  have hdm : (d : ℚ) * ((n / d : ℕ) : ℚ) + ((n % d : ℕ) : ℚ) = (n : ℚ) := by
    exact_mod_cast Nat.div_add_mod n d
  have hr : ((n % d : ℕ) : ℚ) < (d : ℚ) := by exact_mod_cast Nat.mod_lt n hd
  have hr0 : (0 : ℚ) ≤ ((n % d : ℕ) : ℚ) := by positivity
  have key : ∀ r : ℚ, (d : ℚ) * (2 * r - 1) ≤ 2 * (n : ℚ) → 2 * (n : ℚ) ≤ (d : ℚ) * (2 * r + 1) →
      |(n : ℚ) / (d : ℚ) - r| ≤ 1 / 2 := by
    intro r h1 h2
    rw [abs_le]
    constructor
    · rw [le_sub_iff_add_le, le_div_iff₀ hdq]
      linarith
    · rw [sub_le_iff_le_add, div_le_iff₀ hdq]
      linarith
  unfold roundHalfEven
  simp only
  split_ifs with h1 h2 h3
  · have h1q : 2 * ((n % d : ℕ) : ℚ) < (d : ℚ) := by exact_mod_cast h1
    apply key <;> nlinarith
  · have h2q : (d : ℚ) < 2 * ((n % d : ℕ) : ℚ) := by exact_mod_cast h2
    push_cast
    apply key <;> nlinarith
  · have h1q : (d : ℚ) ≤ 2 * ((n % d : ℕ) : ℚ) := by exact_mod_cast not_lt.mp h1
    have h2q : 2 * ((n % d : ℕ) : ℚ) ≤ (d : ℚ) := by exact_mod_cast not_lt.mp h2
    apply key <;> nlinarith
  · have h1q : (d : ℚ) ≤ 2 * ((n % d : ℕ) : ℚ) := by exact_mod_cast not_lt.mp h1
    have h2q : 2 * ((n % d : ℕ) : ℚ) ≤ (d : ℚ) := by exact_mod_cast not_lt.mp h2
    push_cast
    apply key <;> nlinarith

/-- For positive `q`, `rnd32 q` is within half a unit in the last place of `q`:
the unit is `2 ^ e` with `e = max (ilog2 q) (-126) - 23`. -/
theorem rnd32_pos_err (q : ℚ) (hq : 0 < q) :
    |rnd32 q - q| ≤ (2 : ℚ) ^ (max (ilog2 q) (-126) - 23) / 2 := by
  have hN := rat_eq_natAbs_div_den q hq.le
  have hD : (0 : ℚ) < (q.den : ℚ) := by exact_mod_cast q.den_pos
  by_cases he : max (ilog2 q) (-126) - 23 ≥ 0
  · have hval : rnd32 q
        = ((roundHalfEven q.num.natAbs (q.den * 2 ^ (max (ilog2 q) (-126) - 23).toNat)
            * 2 ^ (max (ilog2 q) (-126) - 23).toNat : ℕ) : ℚ) := by
      unfold rnd32
      simp only [hq.ne', abs_of_pos hq, he, not_lt.mpr hq.le, if_false, if_true]
    have hz : (2 : ℚ) ^ (max (ilog2 q) (-126) - 23)
        = (2 : ℚ) ^ (max (ilog2 q) (-126) - 23).toNat := by
      conv_lhs => rw [← Int.toNat_of_nonneg he]
      rw [zpow_natCast]
    rw [hval, hz]
    generalize (max (ilog2 q) (-126) - 23).toNat = s
    have hs : (0 : ℚ) < (2 : ℚ) ^ s := by positivity
    have herr := roundHalfEven_err q.num.natAbs (q.den * 2 ^ s) (by positivity)
    have hq2 : (q.num.natAbs : ℚ) / ((q.den * 2 ^ s : ℕ) : ℚ) = q / 2 ^ s := by
      push_cast
      rw [← div_div, ← hN]
    rw [hq2] at herr
    push_cast
    have : (roundHalfEven q.num.natAbs (q.den * 2 ^ s) : ℚ) * 2 ^ s - q
        = -((q / 2 ^ s - (roundHalfEven q.num.natAbs (q.den * 2 ^ s) : ℚ)) * 2 ^ s) := by
      field_simp
      ring
    rw [this, abs_neg, abs_mul, abs_of_pos hs]
    calc |q / 2 ^ s - (roundHalfEven q.num.natAbs (q.den * 2 ^ s) : ℚ)| * 2 ^ s
        ≤ 1 / 2 * 2 ^ s := mul_le_mul_of_nonneg_right herr hs.le
      _ = 2 ^ s / 2 := by ring
  · have hneg : 0 ≤ -(max (ilog2 q) (-126) - 23) := by omega
    have hval : rnd32 q
        = (roundHalfEven (q.num.natAbs * 2 ^ (-(max (ilog2 q) (-126) - 23)).toNat) q.den : ℚ)
          / ((2 ^ (-(max (ilog2 q) (-126) - 23)).toNat : ℕ) : ℚ) := by
      unfold rnd32
      simp only [hq.ne', abs_of_pos hq, he, not_lt.mpr hq.le, if_false]
    have hz : (2 : ℚ) ^ (max (ilog2 q) (-126) - 23)
        = ((2 : ℚ) ^ (-(max (ilog2 q) (-126) - 23)).toNat)⁻¹ := by
      rw [← zpow_natCast, Int.toNat_of_nonneg hneg, zpow_neg, inv_inv]
    rw [hval, hz]
    generalize (-(max (ilog2 q) (-126) - 23)).toNat = s
    have hs : (0 : ℚ) < (2 : ℚ) ^ s := by positivity
    have herr := roundHalfEven_err (q.num.natAbs * 2 ^ s) q.den q.den_pos
    have hq2 : ((q.num.natAbs * 2 ^ s : ℕ) : ℚ) / (q.den : ℚ) = q * 2 ^ s := by
      push_cast
      rw [mul_div_right_comm, ← hN]
    rw [hq2] at herr
    push_cast
    have : (roundHalfEven (q.num.natAbs * 2 ^ s) q.den : ℚ) / 2 ^ s - q
        = -((q * 2 ^ s - (roundHalfEven (q.num.natAbs * 2 ^ s) q.den : ℚ)) / 2 ^ s) := by
      field_simp
      ring
    rw [this, abs_neg, abs_div, abs_of_pos hs, div_le_iff₀ hs]
    calc |q * 2 ^ s - (roundHalfEven (q.num.natAbs * 2 ^ s) q.den : ℚ)| ≤ 1 / 2 := herr
      _ = (2 ^ s)⁻¹ / 2 * 2 ^ s := by field_simp

/-- The relative error of rounding: `rnd32 q` differs from `q` by at most
`|q| / 2^24`, or by at most `2^-150` in the subnormal range. -/
theorem rnd32_err (q : ℚ) : |rnd32 q - q| ≤ roundErr q := by
  unfold roundErr
  have pos : ∀ p : ℚ, 0 < p → |rnd32 p - p| ≤ max (p / 2 ^ 24) (1 / 2 ^ 150) := by
    intro p hp
    refine (rnd32_pos_err p hp).trans ?_
    by_cases hl : -126 ≤ ilog2 p
    · rw [max_eq_left hl]
      apply le_max_of_le_left
      have h1 : (2 : ℚ) ^ (ilog2 p - 23) = 2 ^ ilog2 p / 2 ^ 23 := by
        rw [zpow_sub₀ (by norm_num)]
        norm_cast
      rw [h1, div_div, div_le_div_iff₀ (by positivity) (by positivity)]
      have := ilog2_le p hp
      nlinarith
    · rw [max_eq_right (by omega)]
      apply le_max_of_le_right
      have h1 : (2 : ℚ) ^ ((-126 : ℤ) - 23) = 1 / 2 ^ 149 := by
        have : ((-126 : ℤ) - 23) = -((149 : ℕ) : ℤ) := by norm_num
        rw [this, zpow_neg, zpow_natCast, one_div]
      rw [h1]
      norm_num
  rcases lt_trichotomy q 0 with h | h | h
  · have := pos (-q) (by linarith)
    rw [rnd32_neg] at this
    have e : -rnd32 q - -q = -(rnd32 q - q) := by ring
    rw [e, abs_neg] at this
    rw [abs_of_neg h]
    exact this
  · subst h
    rw [rnd32_zero]
    simp
  · have := pos q h
    rw [abs_of_pos h]
    exact this

/-- One binary32 step by `0.3f` against the exact step by 3/10: the stored value
differs from `x - 3/10` (from `x + 3/10`) by at most the rounding error of the
result plus `|0.3f - 3/10| = 1 / 83886080`. -/
theorem binary32_step_err (x : ℚ) :
    |rnd32 (x - 5033165 / 16777216) - (x - 3 / 10)|
        ≤ roundErr (x - 5033165 / 16777216) + 1 / 83886080 ∧
      |rnd32 (x + 5033165 / 16777216) - (x + 3 / 10)|
        ≤ roundErr (x + 5033165 / 16777216) + 1 / 83886080 := by
  constructor
  · have h := rnd32_err (x - 5033165 / 16777216)
    have e : rnd32 (x - 5033165 / 16777216) - (x - 3 / 10)
        = (rnd32 (x - 5033165 / 16777216) - (x - 5033165 / 16777216)) + -(1 / 83886080) := by
      ring
    rw [e]
    refine (abs_add _ _).trans ?_
    rw [abs_neg, abs_of_pos (by norm_num : (0 : ℚ) < 1 / 83886080)]
    linarith
  · have h := rnd32_err (x + 5033165 / 16777216)
    have e : rnd32 (x + 5033165 / 16777216) - (x + 3 / 10)
        = (rnd32 (x + 5033165 / 16777216) - (x + 5033165 / 16777216)) + 1 / 83886080 := by
      ring
    rw [e]
    refine (abs_add _ _).trans ?_
    rw [abs_of_pos (by norm_num : (0 : ℚ) < 1 / 83886080)]
    linarith

/-! ## C4: on-foot speed -/

section Ideal

variable {K : Type} [LinearOrderedField K] {sqrt sin cos : K → K}

theorem IsSqrt.pos (hs : IsSqrt sqrt) (x : K) (hx : 0 < x) : 0 < sqrt x := by
  obtain ⟨h0, h1⟩ := hs x hx.le
  rcases h0.lt_or_eq with h | h
  · exact h
  · rw [← h] at h1
    simp at h1
    linarith

/-- Rotation by the camera angle keeps the squared norm. -/
theorem rotate_sq (ht : IsTrig sin cos) (u w t : K) :
    (u * cos t - w * sin t) * (u * cos t - w * sin t)
        + (u * sin t + w * cos t) * (u * sin t + w * cos t) = u * u + w * w := by
  have h := ht t
  have : (u * cos t - w * sin t) * (u * cos t - w * sin t)
      + (u * sin t + w * cos t) * (u * sin t + w * cos t)
      = (u * u + w * w) * (sin t * sin t + cos t * cos t) := by ring
  rw [this, h, mul_one]

/-- The on-foot step in exact arithmetic: a non-zero raw direction moves the
player by a vector of length exactly 2/10 and leaves the height alone. -/
theorem ideal_updatePlayerMovement_step (hs : IsSqrt sqrt) (ht : IsTrig sin cos) (g : Game K)
    (hm : (rawMove (idealOps sqrt sin cos) g).x ≠ 0 ∨ (rawMove (idealOps sqrt sin cos) g).z ≠ 0) :
    Vector3.length (idealOps sqrt sin cos)
        (Vector3.sub (idealOps sqrt sin cos)
          (updatePlayerMovement (idealOps sqrt sin cos) g).playerPos g.playerPos) = 2 / 10 ∧
      (updatePlayerMovement (idealOps sqrt sin cos) g).playerPos.y = g.playerPos.y := by
  have hy : (rawMove (idealOps sqrt sin cos) g).y = 0 := by
    rw [rawMove_y]; simp
  unfold updatePlayerMovement
  generalize rawMove (idealOps sqrt sin cos) g = m at hm hy ⊢
  obtain ⟨mx, my, mz⟩ := m
  simp only at hm hy
  subst hy
  have hS : 0 < mx * mx + 0 * 0 + mz * mz := by
    rcases hm with h | h
    · have := mul_self_pos.mpr h
      have := mul_self_nonneg mz
      linarith
    · have := mul_self_pos.mpr h
      have := mul_self_nonneg mx
      linarith
  have hlen := hs.pos _ hS
  have hsq := (hs _ hS.le).2
  have hne : sqrt (mx * mx + 0 * 0 + mz * mz) ≠ 0 := hlen.ne'
  simp only [Vector3.length, Vector3.normalize, Vector3.sub, rotateH, idealOps_lt, idealOps_eq,
    idealOps_sqrt, idealOps_add, idealOps_mul, idealOps_sub, idealOps_div, idealOps_sin,
    idealOps_cos, idealOps_lit, Rat.cast_zero, hlen, hne, decide_True, decide_False, if_true,
    if_false, Bool.false_eq_true, and_true]
  apply hs.eq_of_sq _ _ (by norm_num)
  generalize sqrt (mx * mx + 0 * 0 + mz * mz) = len at hlen hsq hne
  have huw : mx / len * (mx / len) + mz / len * (mz / len) = 1 := by
    field_simp
    linarith
  have hrot := rotate_sq ht (mx / len) (mz / len) g.camAngleH
  push_cast
  have : (g.playerPos.x + (mx / len * cos g.camAngleH - mz / len * sin g.camAngleH) * (2 / 10)
        - g.playerPos.x)
        * (g.playerPos.x + (mx / len * cos g.camAngleH - mz / len * sin g.camAngleH) * (2 / 10)
          - g.playerPos.x)
      + (g.playerPos.y - g.playerPos.y) * (g.playerPos.y - g.playerPos.y)
      + (g.playerPos.z + (mx / len * sin g.camAngleH + mz / len * cos g.camAngleH) * (2 / 10)
          - g.playerPos.z)
        * (g.playerPos.z + (mx / len * sin g.camAngleH + mz / len * cos g.camAngleH) * (2 / 10)
          - g.playerPos.z)
      = (2 / 10) * (2 / 10)
        * ((mx / len * cos g.camAngleH - mz / len * sin g.camAngleH)
            * (mx / len * cos g.camAngleH - mz / len * sin g.camAngleH)
          + (mx / len * sin g.camAngleH + mz / len * cos g.camAngleH)
            * (mx / len * sin g.camAngleH + mz / len * cos g.camAngleH)) := by ring
  rw [this, hrot, huw, mul_one]

end Ideal

theorem update_playerPos_on_foot (ops : FloatOps F) (g : Game F)
    (h1 : g.keys key_e = false) (h2 : g.keys key_E = false) (hc : g.inCar = false) :
    (update ops g).playerPos = (updatePlayerMovement ops g).playerPos := by
  rw [update_eq, (updateBullets_frame ops _).1, movementStep_on_foot ops g h1 h2 hc]

/-- Exact arithmetic (ordered field, exact square root, `sin` and `cos` with
`sin^2 + cos^2 = 1`). For every state on foot with the interaction key not held,
whatever the camera angle, if the raw direction read from the w/a/s/d keys is
non-zero then one `update` displaces the player by a vector of length exactly
2/10 and leaves the y coordinate unchanged. -/
theorem ideal_update_on_foot {K : Type} [LinearOrderedField K] (sqrt sin cos : K → K)
    (hs : IsSqrt sqrt) (ht : IsTrig sin cos) (g : Game K)
    (hc : g.inCar = false) (he : g.keys key_e = false) (hE : g.keys key_E = false)
    (hm : (rawMove (idealOps sqrt sin cos) g).x ≠ 0 ∨ (rawMove (idealOps sqrt sin cos) g).z ≠ 0) :
    Vector3.length (idealOps sqrt sin cos)
        (Vector3.sub (idealOps sqrt sin cos)
          (update (idealOps sqrt sin cos) g).playerPos g.playerPos) = 2 / 10 ∧
      (update (idealOps sqrt sin cos) g).playerPos.y = g.playerPos.y := by
  rw [update_playerPos_on_foot _ g he hE hc]
  exact ideal_updatePlayerMovement_step hs ht g hm

/-- The on-foot step for any float semantics. -/
theorem updatePlayerMovement_step (ops : FloatOps F) (g : Game F) :
    (updatePlayerMovement ops g).playerPos.y = g.playerPos.y ∧
      (ops.lt (ops.lit 0) (Vector3.length ops (rawMove ops g)) = true →
        (updatePlayerMovement ops g).playerPos.x
            = ops.add g.playerPos.x
              (ops.mul (rotateH ops (Vector3.normalize ops (rawMove ops g)) g.camAngleH).1
                (ops.lit (2 / 10))) ∧
          (updatePlayerMovement ops g).playerPos.z
            = ops.add g.playerPos.z
              (ops.mul (rotateH ops (Vector3.normalize ops (rawMove ops g)) g.camAngleH).2
                (ops.lit (2 / 10)))) ∧
      (ops.lt (ops.lit 0) (Vector3.length ops (rawMove ops g)) = false →
        (updatePlayerMovement ops g).playerPos = g.playerPos) := by
  unfold updatePlayerMovement
  cases h : ops.lt (ops.lit 0) (Vector3.length ops (rawMove ops g))
  · exact ⟨by simp [h], fun h => absurd h (by simp), fun _ => by simp [h]⟩
  · exact ⟨by simp [h], fun _ => ⟨by simp [h], by simp [h]⟩, fun h => absurd h (by simp)⟩

/-- Exact arithmetic. `updateCarMovement` moves the vehicle along z by -3/10
when w/W is held and by +3/10 when s/S is held, along x by -3/10 when a/A is held
and by +3/10 when d/D is held, leaves y alone, and does not depend on the camera.
When exactly one of the two z directions and exactly one of the two x directions
are held the displacement has length `3/10 * sqrt 2`, which exceeds 3/10. -/
theorem ideal_updateCarMovement {K : Type} [LinearOrderedField K] (sqrt sin cos : K → K)
    (hs : IsSqrt sqrt) (g : Game K) :
    (updateCarMovement (idealOps sqrt sin cos) g).carPos.z
        = g.carPos.z - (if (g.keys key_w || g.keys key_W) then 3 / 10 else 0)
          + (if (g.keys key_s || g.keys key_S) then 3 / 10 else 0) ∧
      (updateCarMovement (idealOps sqrt sin cos) g).carPos.x
        = g.carPos.x - (if (g.keys key_a || g.keys key_A) then 3 / 10 else 0)
          + (if (g.keys key_d || g.keys key_D) then 3 / 10 else 0) ∧
      (updateCarMovement (idealOps sqrt sin cos) g).carPos.y = g.carPos.y ∧
      (∀ h v d : K,
        (updateCarMovement (idealOps sqrt sin cos)
          { g with camAngleH := h, camAngleV := v, camDist := d }).carPos
          = (updateCarMovement (idealOps sqrt sin cos) g).carPos) ∧
      ((g.keys key_w || g.keys key_W) ≠ (g.keys key_s || g.keys key_S) →
        (g.keys key_a || g.keys key_A) ≠ (g.keys key_d || g.keys key_D) →
        Vector3.length (idealOps sqrt sin cos)
            (Vector3.sub (idealOps sqrt sin cos)
              (updateCarMovement (idealOps sqrt sin cos) g).carPos g.carPos)
          = 3 / 10 * sqrt 2 ∧
        3 / 10 < Vector3.length (idealOps sqrt sin cos)
            (Vector3.sub (idealOps sqrt sin cos)
              (updateCarMovement (idealOps sqrt sin cos) g).carPos g.carPos)) := by
  obtain ⟨h20, h2⟩ := hs 2 (by norm_num)
  have h2gt : 1 < sqrt 2 := by
    by_contra hc
    push_neg at hc
    nlinarith
  have key : ∀ a b : K, a * a = 9 / 100 → b * b = 9 / 100 →
      sqrt (a * a + 0 * 0 + b * b) = 3 / 10 * sqrt 2 := by
    intro a b ha hb
    apply hs.eq_of_sq
    · positivity
    · rw [ha, hb]
      have : 3 / 10 * sqrt 2 * (3 / 10 * sqrt 2) = 9 / 100 * (sqrt 2 * sqrt 2) := by ring
      rw [this, h2]
      norm_num
  have hgt : (3 : K) / 10 < 3 / 10 * sqrt 2 := by linarith
  unfold updateCarMovement
  refine ⟨?_, ?_, ?_, ?_, ?_⟩
  · cases (g.keys key_w || g.keys key_W) <;> cases (g.keys key_s || g.keys key_S) <;>
      cases (g.keys key_a || g.keys key_A) <;> cases (g.keys key_d || g.keys key_D) <;>
      simp
  · cases (g.keys key_w || g.keys key_W) <;> cases (g.keys key_s || g.keys key_S) <;>
      cases (g.keys key_a || g.keys key_A) <;> cases (g.keys key_d || g.keys key_D) <;>
      simp
  · cases (g.keys key_w || g.keys key_W) <;> cases (g.keys key_s || g.keys key_S) <;>
      cases (g.keys key_a || g.keys key_A) <;> cases (g.keys key_d || g.keys key_D) <;>
      simp
  · intro h v d
    rfl
  · simp only [Vector3.length, Vector3.sub, idealOps_sqrt, idealOps_add, idealOps_mul,
      idealOps_sub, idealOps_lit]
    generalize (g.keys key_w || g.keys key_W) = bw
    generalize (g.keys key_s || g.keys key_S) = bs
    generalize (g.keys key_a || g.keys key_A) = ba
    generalize (g.keys key_d || g.keys key_D) = bd
    intro hz hx
    cases bw <;> cases bs <;> cases ba <;> cases bd <;>
      first
      | exact absurd rfl hz
      | exact absurd rfl hx
      | (simp only [if_true, if_false, Bool.false_eq_true, sub_self]
         push_cast
         rw [key _ _ (by ring) (by ring)]
         exact ⟨rfl, hgt⟩)

/-- The vehicle step for any float semantics: each held direction applies one
float subtraction or addition of the literal `0.3f` to its coordinate, `w` before
`s` and `a` before `d`; the height is not touched and the camera is not read. -/
theorem updateCarMovement_steps (ops : FloatOps F) (g : Game F) :
    (updateCarMovement ops g).carPos.z
        = (if (g.keys key_s || g.keys key_S) then
            ops.add (if (g.keys key_w || g.keys key_W) then ops.sub g.carPos.z (ops.lit (3 / 10))
              else g.carPos.z) (ops.lit (3 / 10))
          else if (g.keys key_w || g.keys key_W) then ops.sub g.carPos.z (ops.lit (3 / 10))
          else g.carPos.z) ∧
      (updateCarMovement ops g).carPos.x
        = (if (g.keys key_d || g.keys key_D) then
            ops.add (if (g.keys key_a || g.keys key_A) then ops.sub g.carPos.x (ops.lit (3 / 10))
              else g.carPos.x) (ops.lit (3 / 10))
          else if (g.keys key_a || g.keys key_A) then ops.sub g.carPos.x (ops.lit (3 / 10))
          else g.carPos.x) ∧
      (updateCarMovement ops g).carPos.y = g.carPos.y ∧
      (∀ h v d : F,
        (updateCarMovement ops { g with camAngleH := h, camAngleV := v, camDist := d }).carPos
          = (updateCarMovement ops g).carPos) := by
  unfold updateCarMovement
  refine ⟨?_, ?_, ?_, fun _ _ _ => rfl⟩ <;>
    cases (g.keys key_w || g.keys key_W) <;> cases (g.keys key_s || g.keys key_S) <;>
      cases (g.keys key_a || g.keys key_A) <;> cases (g.keys key_d || g.keys key_D) <;> rfl

/-- The literal `0.3f`. -/
theorem rnd32_three_tenths : rnd32 (3 / 10) = 5033165 / 16777216 := by decide!

/-- The vehicle step in binary32: the coordinate is replaced by the binary32
value nearest to the exact difference or sum with `0.3f = 5033165 / 2^24`. -/
theorem binary32_updateCarMovement (g : Game ℚ) :
    (updateCarMovement binary32Ops g).carPos.z
        = (if (g.keys key_s || g.keys key_S) then
            rnd32 ((if (g.keys key_w || g.keys key_W) then
                rnd32 (g.carPos.z - 5033165 / 16777216)
              else g.carPos.z) + 5033165 / 16777216)
          else if (g.keys key_w || g.keys key_W) then rnd32 (g.carPos.z - 5033165 / 16777216)
          else g.carPos.z) ∧
      (updateCarMovement binary32Ops g).carPos.x
        = (if (g.keys key_d || g.keys key_D) then
            rnd32 ((if (g.keys key_a || g.keys key_A) then
                rnd32 (g.carPos.x - 5033165 / 16777216)
              else g.carPos.x) + 5033165 / 16777216)
          else if (g.keys key_a || g.keys key_A) then rnd32 (g.carPos.x - 5033165 / 16777216)
          else g.carPos.x) := by
  have h := updateCarMovement_steps binary32Ops g
  refine ⟨h.1.trans ?_, h.2.1.trans ?_⟩ <;>
  · show _ = _
    simp only [binary32Ops, rnd32_three_tenths]

/-- C5, counterexample. Binary32, vehicle mode right after construction
(`carPos.x = 10`) with only `a` held: `updateCarMovement` stores
x = 10171187 / 2^20 (9.69999981), the binary32 value nearest to `10 - 0.3f`.
The coordinate changes by -314573 / 2^20 (exactly, and also as a float
subtraction computes it), which is neither -3/10 nor minus the literal
`0.3f = 5033165 / 2^24`. -/
theorem C5_vehicle_axis_steps_counterexample :
    (setKey (seated binary32Ops) 97 true).inCar = true ∧
      (setKey (seated binary32Ops) 97 true).keys key_a = true ∧
      (setKey (seated binary32Ops) 97 true).keys key_A = false ∧
      (setKey (seated binary32Ops) 97 true).keys key_d = false ∧
      (setKey (seated binary32Ops) 97 true).keys key_D = false ∧
      (setKey (seated binary32Ops) 97 true).carPos.x = 10 ∧
      (updateCarMovement binary32Ops (setKey (seated binary32Ops) 97 true)).carPos.x
        = 10171187 / 1048576 ∧
      (updateCarMovement binary32Ops (setKey (seated binary32Ops) 97 true)).carPos.x
          - (setKey (seated binary32Ops) 97 true).carPos.x = -(314573 / 1048576) ∧
      binary32Ops.sub
          (updateCarMovement binary32Ops (setKey (seated binary32Ops) 97 true)).carPos.x
          (setKey (seated binary32Ops) 97 true).carPos.x = -(314573 / 1048576) ∧
      (314573 / 1048576 : ℚ) ≠ 3 / 10 ∧
      (314573 / 1048576 : ℚ) ≠ binary32Ops.lit (3 / 10) := by
  decide!

/-- C5, amended. `updateCarMovement` treats the two axes independently and does
not normalise: for any float semantics, w/W replaces `carPos.z` by the float
difference `carPos.z - 0.3f` and s/S then replaces it by the float sum with
`0.3f`, a/A and d/D do the same to `carPos.x`, `carPos.y` is unchanged and the
camera is not read.  In binary32 each such step stores the binary32 value
nearest to the exact difference or sum with `0.3f = 5033165 / 2^24`, so the
stored coordinate changes by 0.3 only up to rounding: with one direction of an
axis held, it differs from the exact `x - 3/10` (or `x + 3/10`) by at most the
rounding error of the result, `roundErr`, plus `|0.3f - 3/10| = 1 / 83886080`.
In exact arithmetic each
step is exactly 3/10 and, with exactly one z direction and one x direction held,
the displacement has length `3/10 * sqrt 2 > 3/10`. -/
theorem C5_vehicle_float_steps (ops : FloatOps F) (g : Game F) :
    (updateCarMovement ops g).carPos.z
        = (if (g.keys key_s || g.keys key_S) then
            ops.add (if (g.keys key_w || g.keys key_W) then ops.sub g.carPos.z (ops.lit (3 / 10))
              else g.carPos.z) (ops.lit (3 / 10))
          else if (g.keys key_w || g.keys key_W) then ops.sub g.carPos.z (ops.lit (3 / 10))
          else g.carPos.z) ∧
      (updateCarMovement ops g).carPos.x
        = (if (g.keys key_d || g.keys key_D) then
            ops.add (if (g.keys key_a || g.keys key_A) then ops.sub g.carPos.x (ops.lit (3 / 10))
              else g.carPos.x) (ops.lit (3 / 10))
          else if (g.keys key_a || g.keys key_A) then ops.sub g.carPos.x (ops.lit (3 / 10))
          else g.carPos.x) ∧
      (updateCarMovement ops g).carPos.y = g.carPos.y ∧
      (∀ h v d : F,
        (updateCarMovement ops { g with camAngleH := h, camAngleV := v, camDist := d }).carPos
          = (updateCarMovement ops g).carPos) ∧
      (∀ k : Game ℚ,
        (updateCarMovement binary32Ops k).carPos.z
            = (if (k.keys key_s || k.keys key_S) then
                rnd32 ((if (k.keys key_w || k.keys key_W) then
                    rnd32 (k.carPos.z - 5033165 / 16777216)
                  else k.carPos.z) + 5033165 / 16777216)
              else if (k.keys key_w || k.keys key_W) then
                rnd32 (k.carPos.z - 5033165 / 16777216)
              else k.carPos.z) ∧
          (updateCarMovement binary32Ops k).carPos.x
            = (if (k.keys key_d || k.keys key_D) then
                rnd32 ((if (k.keys key_a || k.keys key_A) then
                    rnd32 (k.carPos.x - 5033165 / 16777216)
                  else k.carPos.x) + 5033165 / 16777216)
              else if (k.keys key_a || k.keys key_A) then
                rnd32 (k.carPos.x - 5033165 / 16777216)
              else k.carPos.x)) ∧
      (∀ k : Game ℚ,
        ((k.keys key_w || k.keys key_W) = true → (k.keys key_s || k.keys key_S) = false →
          |(updateCarMovement binary32Ops k).carPos.z - (k.carPos.z - 3 / 10)|
            ≤ roundErr (k.carPos.z - 5033165 / 16777216) + 1 / 83886080) ∧
        ((k.keys key_w || k.keys key_W) = false → (k.keys key_s || k.keys key_S) = true →
          |(updateCarMovement binary32Ops k).carPos.z - (k.carPos.z + 3 / 10)|
            ≤ roundErr (k.carPos.z + 5033165 / 16777216) + 1 / 83886080) ∧
        ((k.keys key_a || k.keys key_A) = true → (k.keys key_d || k.keys key_D) = false →
          |(updateCarMovement binary32Ops k).carPos.x - (k.carPos.x - 3 / 10)|
            ≤ roundErr (k.carPos.x - 5033165 / 16777216) + 1 / 83886080) ∧
        ((k.keys key_a || k.keys key_A) = false → (k.keys key_d || k.keys key_D) = true →
          |(updateCarMovement binary32Ops k).carPos.x - (k.carPos.x + 3 / 10)|
            ≤ roundErr (k.carPos.x + 5033165 / 16777216) + 1 / 83886080)) ∧
      (∀ (K : Type) [LinearOrderedField K] (sqrt sin cos : K → K), IsSqrt sqrt →
        ∀ k : Game K,
          (updateCarMovement (idealOps sqrt sin cos) k).carPos.z
              = k.carPos.z - (if (k.keys key_w || k.keys key_W) then 3 / 10 else 0)
                + (if (k.keys key_s || k.keys key_S) then 3 / 10 else 0) ∧
            (updateCarMovement (idealOps sqrt sin cos) k).carPos.x
              = k.carPos.x - (if (k.keys key_a || k.keys key_A) then 3 / 10 else 0)
                + (if (k.keys key_d || k.keys key_D) then 3 / 10 else 0) ∧
            ((k.keys key_w || k.keys key_W) ≠ (k.keys key_s || k.keys key_S) →
              (k.keys key_a || k.keys key_A) ≠ (k.keys key_d || k.keys key_D) →
              Vector3.length (idealOps sqrt sin cos)
                  (Vector3.sub (idealOps sqrt sin cos)
                    (updateCarMovement (idealOps sqrt sin cos) k).carPos k.carPos)
                = 3 / 10 * sqrt 2 ∧
              3 / 10 < Vector3.length (idealOps sqrt sin cos)
                  (Vector3.sub (idealOps sqrt sin cos)
                    (updateCarMovement (idealOps sqrt sin cos) k).carPos k.carPos))) := by
  obtain ⟨h1, h2, h3, h4⟩ := updateCarMovement_steps ops g
  refine ⟨h1, h2, h3, h4, binary32_updateCarMovement, ?_, ?_⟩
  · intro k
    obtain ⟨b1, b2⟩ := binary32_updateCarMovement k
    refine ⟨fun hw hs => ?_, fun hw hs => ?_, fun ha hd => ?_, fun ha hd => ?_⟩
    · rw [b1, hw, hs]
      exact (binary32_step_err k.carPos.z).1
    · rw [b1, hw, hs]
      exact (binary32_step_err k.carPos.z).2
    · rw [b2, ha, hd]
      exact (binary32_step_err k.carPos.x).1
    · rw [b2, ha, hd]
      exact (binary32_step_err k.carPos.x).2
  · intro _ _ sqrt sin cos hs k
    obtain ⟨i1, i2, _, _, i5⟩ := ideal_updateCarMovement sqrt sin cos hs k
    exact ⟨i1, i2, i5⟩

/-- Witness for C5: binary32, vehicle mode right after construction with `a`
held: the x coordinate 10 is replaced by the binary32 value nearest to
`10 - 0.3f`. -/
theorem C5_vehicle_float_steps_witness :
    (updateCarMovement binary32Ops (setKey (seated binary32Ops) 97 true)).carPos.x
      = rnd32 (10 - 5033165 / 16777216) :=
  ((C5_vehicle_float_steps binary32Ops (setKey (seated binary32Ops) 97 true)).2.2.2.2.1
    (setKey (seated binary32Ops) 97 true)).2.trans (by decide!)

/-! ## C6 and C7: the interaction toggle -/

/-- C6. For any float semantics: when `e` or `E` is held, `handleInteraction`
turns an on-foot state into an in-vehicle state exactly when the player-vehicle
distance compares `< 4`, and always turns an in-vehicle state into an on-foot
state; when neither is held, `inCar` is unchanged. -/
theorem C6_mode_transition (ops : FloatOps F) (g : Game F) :
    ((g.keys key_e || g.keys key_E) = true →
        (g.inCar = false →
          ((handleInteraction ops g).inCar = true ↔
            ops.lt (Vector3.distanceTo ops g.playerPos g.carPos) (ops.lit 4) = true)) ∧
        (g.inCar = true → (handleInteraction ops g).inCar = false)) ∧
      ((g.keys key_e || g.keys key_E) = false → (handleInteraction ops g).inCar = g.inCar) := by
  refine ⟨fun hk => ⟨fun hc => ?_, fun hc => ?_⟩, fun hk => ?_⟩
  · unfold handleInteraction
    by_cases hd : ops.lt (Vector3.distanceTo ops g.playerPos g.carPos) (ops.lit 4) = true
    · simp [hk, hc, hd]
    · simp [hk, hc, hd]
  · unfold handleInteraction
    simp [hk, hc]
  · unfold handleInteraction
    simp [hk]

theorem handleInteraction_keys_cleared (ops : FloatOps F) (g : Game F) :
    (handleInteraction ops g).keys key_e = false ∧ (handleInteraction ops g).keys key_E = false := by
  unfold handleInteraction
  by_cases hk : (g.keys key_e || g.keys key_E) = true
  · simp [hk]
  · have hk2 : (g.keys key_e || g.keys key_E) = false := by simpa using hk
    simp only [hk2, Bool.false_eq_true, if_false]
    simpa using hk2

theorem updatePlayerMovement_frame2 (ops : FloatOps F) (g : Game F) :
    (updatePlayerMovement ops g).keys = g.keys ∧ (updatePlayerMovement ops g).inCar = g.inCar ∧
      (updatePlayerMovement ops g).camAngleH = g.camAngleH ∧
      (updatePlayerMovement ops g).camAngleV = g.camAngleV ∧
      (updatePlayerMovement ops g).camDist = g.camDist ∧
      (updatePlayerMovement ops g).carPos = g.carPos := by
  unfold updatePlayerMovement
  by_cases h : ops.lt (ops.lit 0) (Vector3.length ops (rawMove ops g)) = true <;> simp [h]

theorem handleInteraction_cam (ops : FloatOps F) (g : Game F) :
    (handleInteraction ops g).camAngleH = g.camAngleH ∧
      (handleInteraction ops g).camAngleV = g.camAngleV ∧
      (handleInteraction ops g).camDist = g.camDist := by
  unfold handleInteraction
  split
  · dsimp only
    split
    · exact ⟨rfl, rfl, rfl⟩
    · split <;> exact ⟨rfl, rfl, rfl⟩
  · exact ⟨rfl, rfl, rfl⟩

/-- The movement resolvers leave keys, mode and camera as interaction handling
left them. -/
theorem movementStep_frame2 (ops : FloatOps F) (g : Game F) :
    (movementStep ops g).keys = (handleInteraction ops g).keys ∧
      (movementStep ops g).inCar = (handleInteraction ops g).inCar ∧
      (movementStep ops g).camAngleH = g.camAngleH ∧
      (movementStep ops g).camAngleV = g.camAngleV ∧
      (movementStep ops g).camDist = g.camDist := by
  obtain ⟨c1, c2, c3⟩ := handleInteraction_cam ops g
  unfold movementStep
  split
  · exact ⟨rfl, rfl, c1, c2, c3⟩
  · obtain ⟨k1, k2, k3, k4, k5, _⟩ := updatePlayerMovement_frame2 ops (handleInteraction ops g)
    exact ⟨k1, k2, k3.trans c1, k4.trans c2, k5.trans c3⟩

theorem update_keys (ops : FloatOps F) (g : Game F) :
    (update ops g).keys = (handleInteraction ops g).keys := by
  rw [update_eq, (updateBullets_frame ops _).2.2.2.1, (movementStep_frame2 ops g).1]

theorem update_inCar (ops : FloatOps F) (g : Game F) :
    (update ops g).inCar = (handleInteraction ops g).inCar := by
  rw [update_eq, (updateBullets_frame ops _).2.2.1, (movementStep_frame2 ops g).2.1]

/-- C7. For any float semantics and every state: after `update` both `keys['e']`
and `keys['E']` are false, so a second `update` with no `setKey` in between
leaves `inCar` as the first one left it. -/
theorem C7_single_toggle_per_press (ops : FloatOps F) (g : Game F) :
    (update ops g).keys key_e = false ∧ (update ops g).keys key_E = false ∧
      (update ops (update ops g)).inCar = (update ops g).inCar := by
  have h1 : (update ops g).keys key_e = false := by
    rw [update_keys]; exact (handleInteraction_keys_cleared ops g).1
  have h2 : (update ops g).keys key_E = false := by
    rw [update_keys]; exact (handleInteraction_keys_cleared ops g).2
  refine ⟨h1, h2, ?_⟩
  rw [update_inCar ops (update ops g), handleInteraction_of_not_held ops _ h1 h2]

/-! ## C8: camera limits -/

section Ideal

variable {K : Type} [LinearOrderedField K] (sqrt sin cos : K → K)

theorem ideal_fmax (a b : K) : fmax (idealOps sqrt sin cos) a b = max a b := by
  unfold fmax
  by_cases h : a < b
  · simp [h, max_eq_right h.le]
  · simp [h, max_eq_left (not_lt.mp h)]

theorem ideal_fmin (a b : K) : fmin (idealOps sqrt sin cos) a b = min a b := by
  unfold fmin
  by_cases h : b < a
  · simp [h, min_eq_right h.le]
  · simp [h, min_eq_left (not_lt.mp h)]

/-- What `updateCamera` stores, in exact arithmetic. -/
theorem ideal_updateCamera (g : Game K) (dh dv dz : K) :
    (updateCamera (idealOps sqrt sin cos) g dh dv dz).camAngleV
        = max (1 / 10) (min (14 / 10) (g.camAngleV - dv * (5 / 1000))) ∧
      (updateCamera (idealOps sqrt sin cos) g dh dv dz).camDist
        = max 5 (min 20 (g.camDist + dz * (1 / 100))) ∧
      (updateCamera (idealOps sqrt sin cos) g dh dv dz).camAngleH
        = g.camAngleH - dh * (5 / 1000) := by
  simp only [updateCamera, ideal_fmax, ideal_fmin, idealOps_sub, idealOps_add, idealOps_mul,
    idealOps_lit]
  push_cast
  exact ⟨rfl, rfl, rfl⟩

/-- The camera invariant: vertical angle in [1/10, 14/10], distance in [5, 20]. -/
theorem reachable_camera (g : Game K) (h : Reachable (idealOps sqrt sin cos) g) :
    1 / 10 ≤ g.camAngleV ∧ g.camAngleV ≤ 14 / 10 ∧ 5 ≤ g.camDist ∧ g.camDist ≤ 20 := by
  induction h with
  | init rng =>
    show (1 : K) / 10 ≤ ((2 / 5 : ℚ) : K) ∧ ((2 / 5 : ℚ) : K) ≤ 14 / 10 ∧
      (5 : K) ≤ ((10 : ℚ) : K) ∧ ((10 : ℚ) : K) ≤ 20
    push_cast
    norm_num
  | setKey g k p _ ih =>
    unfold setKey
    split
    · exact ih
    · exact ih
  | updateCamera g dh dv dz _ ih =>
    obtain ⟨hv, hd, _⟩ := ideal_updateCamera sqrt sin cos g dh dv dz
    rw [hv, hd]
    refine ⟨le_max_left _ _, max_le (by norm_num) (min_le_left _ _), le_max_left _ _,
      max_le (by norm_num) (min_le_left _ _)⟩
  | shoot g _ ih =>
    unfold shoot
    split
    · exact ih
    · exact ih
  | update g _ ih =>
    obtain ⟨_, _, _, _, _, b6, b7⟩ := updateBullets_frame (idealOps sqrt sin cos)
      (movementStep (idealOps sqrt sin cos) g)
    obtain ⟨_, _, _, m4, m5⟩ := movementStep_frame2 (idealOps sqrt sin cos) g
    rw [update_eq, b6, b7, m4, m5]
    exact ih

end Ideal

/-- C9. For any float semantics: in a state with `inCar` true, `shoot` changes
nothing, neither the bullet collection nor any other field. -/
theorem C9_shoot_in_vehicle_noop (ops : FloatOps F) (g : Game F) (h : g.inCar = true) :
    shoot ops g = g := by
  simp [shoot, h]

/-- Witness for C9: a fresh simulation switched to vehicle mode keeps an empty
bullet collection when `shoot` is called. -/
theorem C9_shoot_in_vehicle_noop_witness :
    (shoot (idealOps Real.sqrt Real.sin Real.cos)
      (seated (idealOps Real.sqrt Real.sin Real.cos))).bullets = [] :=
  (congrArg Game.bullets
    (C9_shoot_in_vehicle_noop (idealOps Real.sqrt Real.sin Real.cos)
      (seated (idealOps Real.sqrt Real.sin Real.cos)) rfl)).trans rfl

/-- Exact arithmetic. In a state on foot with horizontal camera angle `t`,
`shoot` changes only the bullet collection: it appends, at the end, one alive
bullet positioned at the player with direction `(sin t, 0, -cos t)`; that
direction has length 1 and the collection grows by exactly one entry. -/
theorem ideal_shoot_on_foot {K : Type} [LinearOrderedField K] (sqrt sin cos : K → K)
    (hs : IsSqrt sqrt) (ht : IsTrig sin cos) (g : Game K) (hc : g.inCar = false) :
    shoot (idealOps sqrt sin cos) g
        = { g with bullets := g.bullets ++
            [⟨g.playerPos, ⟨sin g.camAngleH, 0, -cos g.camAngleH⟩, true⟩] } ∧
      (shoot (idealOps sqrt sin cos) g).bullets.length = g.bullets.length + 1 ∧
      Vector3.length (idealOps sqrt sin cos) ⟨sin g.camAngleH, 0, -cos g.camAngleH⟩ = 1 := by
  have hdir : shoot (idealOps sqrt sin cos) g
      = { g with bullets := g.bullets ++
          [⟨g.playerPos, ⟨sin g.camAngleH, 0, -cos g.camAngleH⟩, true⟩] } := by
    simp [shoot, hc, rotateH, Bullet.mk2]
  refine ⟨hdir, ?_, ?_⟩
  · rw [hdir]
    simp
  · simp only [Vector3.length, idealOps_sqrt, idealOps_add, idealOps_mul]
    apply hs.eq_of_sq _ _ (by norm_num)
    have := ht g.camAngleH
    linarith

/-- Witness for C6: real numbers, `e` pressed right after construction: the
player at (0,1,0) is farther than 4 from the vehicle at (10,3/4,0), so the
state stays on foot. -/
theorem C6_mode_transition_witness :
    (handleInteraction (idealOps Real.sqrt Real.sin Real.cos)
      (setKey (init (idealOps Real.sqrt Real.sin Real.cos) (fun _ => 0)) 101 true)).inCar
      = false := by
  have h := ((C6_mode_transition (idealOps Real.sqrt Real.sin Real.cos)
    (setKey (init (idealOps Real.sqrt Real.sin Real.cos) (fun _ => 0)) 101 true)).1 rfl).1 rfl
  have hfar : (idealOps Real.sqrt Real.sin Real.cos).lt
      (Vector3.distanceTo (idealOps Real.sqrt Real.sin Real.cos)
        (setKey (init (idealOps Real.sqrt Real.sin Real.cos) (fun _ => 0)) 101 true).playerPos
        (setKey (init (idealOps Real.sqrt Real.sin Real.cos) (fun _ => 0)) 101 true).carPos)
      ((idealOps Real.sqrt Real.sin Real.cos).lit 4) = false := by
    have hp : (setKey (init (idealOps Real.sqrt Real.sin Real.cos) (fun _ => 0)) 101 true).playerPos
        = ⟨((0 : ℚ) : ℝ), ((1 : ℚ) : ℝ), ((0 : ℚ) : ℝ)⟩ := rfl
    have hcar : (setKey (init (idealOps Real.sqrt Real.sin Real.cos) (fun _ => 0)) 101 true).carPos
        = ⟨((10 : ℚ) : ℝ), ((3 / 4 : ℚ) : ℝ), ((0 : ℚ) : ℝ)⟩ := rfl
    rw [hp, hcar]
    simp only [Vector3.distanceTo, Vector3.length, Vector3.sub, idealOps_lt, idealOps_sqrt,
      idealOps_add, idealOps_mul, idealOps_sub, idealOps_lit, decide_eq_false_iff_not, not_lt]
    push_cast
    have key : ∀ x : ℝ, 16 ≤ x → 4 ≤ Real.sqrt x := by
      intro x hx
      obtain ⟨h0, h1⟩ := isSqrt_real x (by linarith)
      by_contra hc
      push_neg at hc
      nlinarith
    apply key
    norm_num
  cases hin : (handleInteraction (idealOps Real.sqrt Real.sin Real.cos)
      (setKey (init (idealOps Real.sqrt Real.sin Real.cos) (fun _ => 0)) 101 true)).inCar with
  | false => rfl
  | true =>
    have := h.mp hin
    rw [hfar] at this
    exact absurd this (by decide)

/-! ## The collision loop in the presence of bullets that meet nothing -/

/-- Bullet `c` meets no alive enemy of `es`: it is dead, or its position is out
of range of every alive enemy. -/
theorem collideBullet_miss (ops : FloatOps F) (g : Game F) (c : Bullet F)
    (h : c.alive = true → ∀ p ∈ g.enemies, p.alive = true → inRange ops c.position p = false) :
    collideBullet ops g c = (g, c) := by
  unfold collideBullet
  by_cases hc : c.alive = true
  · simp only [hc, Bool.not_true, Bool.false_eq_true, if_false]
    rw [hitScan_none_of_miss ops c.position g.enemies (h hc)]
  · simp [hc]

theorem collideAll_miss (ops : FloatOps F) (g : Game F) (bs : List (Bullet F))
    (h : ∀ c ∈ bs, c.alive = true →
      ∀ p ∈ g.enemies, p.alive = true → inRange ops c.position p = false) :
    collideAll ops g bs = (g, bs) := by
  induction bs with
  | nil => rfl
  | cons c bs ih =>
    have h1 := collideBullet_miss ops g c (h c (List.mem_cons_self _ _))
    have h2 := ih (fun d hd => h d (List.mem_cons_of_mem _ hd))
    simp only [collideAll, h1, h2]

theorem collideAll_append (ops : FloatOps F) (xs ys : List (Bullet F)) (g : Game F) :
    collideAll ops g (xs ++ ys)
      = ((collideAll ops (collideAll ops g xs).1 ys).1,
          (collideAll ops g xs).2 ++ (collideAll ops (collideAll ops g xs).1 ys).2) := by
  induction xs generalizing g with
  | nil => rfl
  | cons x xs ih =>
    show collideAll ops g (x :: (xs ++ ys)) = _
    simp only [collideAll]
    rw [ih]
    rfl

theorem advanceBullet_alive (ops : FloatOps F) (b : Bullet F) :
    (advanceBullet ops b).alive = b.alive := by
  unfold advanceBullet
  split <;> rfl

theorem filter_alive_map_advance (ops : FloatOps F) (bs : List (Bullet F))
    (h : ∀ c ∈ bs, c.alive = true) :
    (bs.map (advanceBullet ops)).filter (fun c => c.alive) = bs.map (advanceBullet ops) := by
  apply List.filter_eq_self.mpr
  intro c hc
  obtain ⟨d, hd, rfl⟩ := List.mem_map.mp hc
  rw [advanceBullet_alive]
  exact h d hd

/-- One bullet of the collection meets, as first enemy in range, the alive enemy
`e` of health at least 2, and every other bullet meets nothing: the enemy stays,
one health point lower, the other bullets stay (advanced), the score is
unchanged. -/
theorem updateBullets_one_wound (ops : FloatOps F) (g : Game F) (b : Bullet F)
    (bs1 bs2 : List (Bullet F)) (pre post : List (Enemy F)) (e : Enemy F)
    (hb : g.bullets = bs1 ++ b :: bs2) (hba : b.alive = true)
    (hes : g.enemies = pre ++ e :: post) (halive : ∀ p ∈ g.enemies, p.alive = true)
    (hmiss : ∀ c ∈ bs1 ++ bs2, c.alive = true →
      ∀ p ∈ g.enemies, inRange ops (advanceBullet ops c).position p = false)
    (hpre : ∀ p ∈ pre, inRange ops (advanceBullet ops b).position p = false)
    (hr : inRange ops (advanceBullet ops b).position e = true) (hh : 2 ≤ e.health) :
    (updateBullets ops g).enemies = pre ++ { e with health := e.health - 1 } :: post ∧
      (updateBullets ops g).bullets
        = ((bs1 ++ bs2).map (advanceBullet ops)).filter (fun c => c.alive) ∧
      (updateBullets ops g).score = g.score ∧ (updateBullets ops g).rng = g.rng := by
  have hea : e.alive = true := halive e (by simp [hes])
  have hscan := hitScan_first ops (advanceBullet ops b).position pre post e
    (fun p hp _ => hpre p hp) hea hr
  have hnot : ¬ (e.health - 1 ≤ 0) := by omega
  have hba2 : (advanceBullet ops b).alive = true := by rw [advanceBullet_alive]; exact hba
  have hfil : (pre ++ { e with health := e.health - 1 } :: post).filter (fun p => p.alive)
      = pre ++ { e with health := e.health - 1 } :: post := by
    apply filter_alive_of_all
    rw [hes] at halive
    exact alive_after_wound pre post e _ halive
  -- the bullets before `b` meet nothing
  have h1 : collideAll ops g (bs1.map (advanceBullet ops)) = (g, bs1.map (advanceBullet ops)) := by
    apply collideAll_miss
    intro c hc hca p hp _
    obtain ⟨d, hd, rfl⟩ := List.mem_map.mp hc
    rw [advanceBullet_alive] at hca
    exact hmiss d (by simp [hd]) hca p hp
  -- the bullet `b` wounds `e`
  have h2 : collideBullet ops g (advanceBullet ops b)
      = ({ g with enemies := pre ++ { e with health := e.health - 1 } :: post },
          { advanceBullet ops b with alive := false }) := by
    simp only [collideBullet, hba2, hes, hscan, Enemy.hit, hnot, Bool.not_true,
      Bool.false_eq_true, if_false, decide_False]
  -- the bullets after `b` meet nothing either: positions and flags are as before
  have h3 : collideAll ops { g with enemies := pre ++ { e with health := e.health - 1 } :: post }
      (bs2.map (advanceBullet ops))
      = ({ g with enemies := pre ++ { e with health := e.health - 1 } :: post },
          bs2.map (advanceBullet ops)) := by
    apply collideAll_miss
    intro c hc hca p hp _
    obtain ⟨d, hd, rfl⟩ := List.mem_map.mp hc
    rw [advanceBullet_alive] at hca
    have hm := hmiss d (by simp [hd]) hca
    simp only [List.mem_append, List.mem_cons] at hp
    rcases hp with hp | rfl | hp
    · exact hm p (by simp [hes, hp])
    · exact hm e (by simp [hes])
    · exact hm p (by simp [hes, hp])
  have hmap : List.map (advanceBullet ops) g.bullets
      = bs1.map (advanceBullet ops) ++ advanceBullet ops b :: bs2.map (advanceBullet ops) := by
    rw [hb, List.map_append, List.map_cons]
  simp only [updateBullets, hmap, collideAll_append, h1, collideAll, h2, h3, hfil,
    List.map_append, List.filter_append, List.filter_cons, Bool.false_eq_true, if_false]
  exact ⟨trivial, trivial, trivial, trivial⟩

theorem update_one_wound (ops : FloatOps F) (g : Game F) (b : Bullet F)
    (bs1 bs2 : List (Bullet F)) (pre post : List (Enemy F)) (e : Enemy F)
    (hb : g.bullets = bs1 ++ b :: bs2) (hba : b.alive = true)
    (hes : g.enemies = pre ++ e :: post) (halive : ∀ p ∈ g.enemies, p.alive = true)
    (hmiss : ∀ c ∈ bs1 ++ bs2, c.alive = true →
      ∀ p ∈ g.enemies, inRange ops (advanceBullet ops c).position p = false)
    (hpre : ∀ p ∈ pre, inRange ops (advanceBullet ops b).position p = false)
    (hr : inRange ops (advanceBullet ops b).position e = true) (hh : 2 ≤ e.health) :
    (update ops g).enemies = pre ++ { e with health := e.health - 1 } :: post ∧
      (update ops g).bullets
        = ((bs1 ++ bs2).map (advanceBullet ops)).filter (fun c => c.alive) ∧
      (update ops g).score = g.score := by
  obtain ⟨m1, m2, m3, m4⟩ := movementStep_frame ops g
  have := updateBullets_one_wound ops (movementStep ops g) b bs1 bs2 pre post e (m2.trans hb) hba
    (m1.trans hes) (by rw [m1]; exact halive) (by rw [m1]; exact hmiss) hpre hr hh
  rw [update_eq]
  rw [m3] at this
  exact ⟨this.1, this.2.1, this.2.2.1⟩

/-- One bullet of the collection meets, as first enemy in range, the alive enemy
`e` of health at most 1, and every other bullet meets nothing (the later ones
also stay clear of the replacement): the enemy is erased, a fresh enemy is pushed
at the back, the other bullets stay (advanced), the score grows by one. -/
theorem updateBullets_one_kill (ops : FloatOps F) (g : Game F) (b : Bullet F)
    (bs1 bs2 : List (Bullet F)) (pre post : List (Enemy F)) (e : Enemy F)
    (hb : g.bullets = bs1 ++ b :: bs2) (hba : b.alive = true)
    (hes : g.enemies = pre ++ e :: post) (halive : ∀ p ∈ g.enemies, p.alive = true)
    (hmiss : ∀ c ∈ bs1 ++ bs2, c.alive = true →
      ∀ p ∈ g.enemies, inRange ops (advanceBullet ops c).position p = false)
    (hnew : ∀ c ∈ bs2, c.alive = true →
      inRange ops (advanceBullet ops c).position (nextEnemy ops g) = false)
    (hpre : ∀ p ∈ pre, inRange ops (advanceBullet ops b).position p = false)
    (hr : inRange ops (advanceBullet ops b).position e = true) (hh : e.health ≤ 1) :
    (updateBullets ops g).enemies = pre ++ post ++ [nextEnemy ops g] ∧
      (updateBullets ops g).bullets
        = ((bs1 ++ bs2).map (advanceBullet ops)).filter (fun c => c.alive) ∧
      (updateBullets ops g).score = g.score + 1 ∧
      (updateBullets ops g).rng = fun n => g.rng (n + 2) := by
  have hea : e.alive = true := halive e (by simp [hes])
  have hscan := hitScan_first ops (advanceBullet ops b).position pre post e
    (fun p hp _ => hpre p hp) hea hr
  have hle : e.health - 1 ≤ 0 := by omega
  have hba2 : (advanceBullet ops b).alive = true := by rw [advanceBullet_alive]; exact hba
  have hpre2 : pre.filter (fun p => p.alive) = pre :=
    filter_alive_of_all pre (fun p hp => halive p (by simp [hes, hp]))
  have hpost2 : post.filter (fun p => p.alive) = post :=
    filter_alive_of_all post (fun p hp => halive p (by simp [hes, hp]))
  have h1 : collideAll ops g (bs1.map (advanceBullet ops)) = (g, bs1.map (advanceBullet ops)) := by
    apply collideAll_miss
    intro c hc hca p hp _
    obtain ⟨d, hd, rfl⟩ := List.mem_map.mp hc
    rw [advanceBullet_alive] at hca
    exact hmiss d (by simp [hd]) hca p hp
  have h2 : collideBullet ops g (advanceBullet ops b)
      = ({ g with
            enemies := (pre ++ { e with health := e.health - 1, alive := false } :: post)
              ++ [nextEnemy ops g]
            rng := fun n => g.rng (n + 2)
            score := g.score + 1 },
          { advanceBullet ops b with alive := false }) := by
    simp only [collideBullet, hba2, hes, hscan, Enemy.hit, hle, Bool.not_true,
      Bool.false_eq_true, if_false, if_true, decide_True, spawnEnemy, nextEnemy]
  have h3 : collideAll ops
      { g with
        enemies := (pre ++ { e with health := e.health - 1, alive := false } :: post)
          ++ [nextEnemy ops g]
        rng := fun n => g.rng (n + 2)
        score := g.score + 1 }
      (bs2.map (advanceBullet ops))
      = ({ g with
            enemies := (pre ++ { e with health := e.health - 1, alive := false } :: post)
              ++ [nextEnemy ops g]
            rng := fun n => g.rng (n + 2)
            score := g.score + 1 },
          bs2.map (advanceBullet ops)) := by
    apply collideAll_miss
    intro c hc hca p hp hpa
    obtain ⟨d, hd, rfl⟩ := List.mem_map.mp hc
    rw [advanceBullet_alive] at hca
    have hm := hmiss d (by simp [hd]) hca
    simp only [List.mem_append, List.mem_cons, List.mem_singleton, List.mem_nil_iff,
      or_false] at hp
    rcases hp with (hp | rfl | hp) | rfl
    · exact hm p (by simp [hes, hp])
    · exact absurd hpa (by simp)
    · exact hm p (by simp [hes, hp])
    · exact hnew d hd hca
  have hmap : List.map (advanceBullet ops) g.bullets
      = bs1.map (advanceBullet ops) ++ advanceBullet ops b :: bs2.map (advanceBullet ops) := by
    rw [hb, List.map_append, List.map_cons]
  simp only [updateBullets, hmap, collideAll_append, h1, collideAll, h2, h3]
  simp only [hpre2, hpost2, List.map_append, List.filter_append, List.filter_cons,
    List.filter_nil, Bool.false_eq_true, if_false, nextEnemy, Enemy.mk3, if_true,
    List.append_assoc, List.nil_append]
  exact ⟨trivial, trivial, trivial, trivial⟩

theorem update_one_kill (ops : FloatOps F) (g : Game F) (b : Bullet F)
    (bs1 bs2 : List (Bullet F)) (pre post : List (Enemy F)) (e : Enemy F)
    (hb : g.bullets = bs1 ++ b :: bs2) (hba : b.alive = true)
    (hes : g.enemies = pre ++ e :: post) (halive : ∀ p ∈ g.enemies, p.alive = true)
    (hmiss : ∀ c ∈ bs1 ++ bs2, c.alive = true →
      ∀ p ∈ g.enemies, inRange ops (advanceBullet ops c).position p = false)
    (hnew : ∀ c ∈ bs2, c.alive = true →
      inRange ops (advanceBullet ops c).position (nextEnemy ops g) = false)
    (hpre : ∀ p ∈ pre, inRange ops (advanceBullet ops b).position p = false)
    (hr : inRange ops (advanceBullet ops b).position e = true) (hh : e.health ≤ 1) :
    (update ops g).enemies = pre ++ post ++ [nextEnemy ops g] ∧
      (update ops g).bullets
        = ((bs1 ++ bs2).map (advanceBullet ops)).filter (fun c => c.alive) ∧
      (update ops g).score = g.score + 1 := by
  obtain ⟨m1, m2, m3, m4⟩ := movementStep_frame ops g
  have hn : nextEnemy ops (movementStep ops g) = nextEnemy ops g := by
    unfold nextEnemy
    rw [m4]
  have := updateBullets_one_kill ops (movementStep ops g) b bs1 bs2 pre post e (m2.trans hb) hba
    (m1.trans hes) (by rw [m1]; exact halive) (by rw [m1]; exact hmiss)
    (by rw [hn]; exact hnew) hpre hr hh
  rw [update_eq]
  rw [m3, hn] at this
  exact ⟨this.1, this.2.1, this.2.2.1⟩

/-! ## C3: an enemy with health 3 dies on the third hit -/

/-- C3. For any float semantics: in a tick in which one alive bullet first meets,
after advancing, the alive enemy `e` (no enemy before `e` in the collection is
within range) while every other bullet meets nothing, the enemy stays in place,
alive, with health `h - 1` and the score is unchanged when `h >= 2`; it is
erased, replaced by a fresh enemy at the back, and the score grows by 1 when
`h <= 1` (the later bullets staying clear of the replacement); the bullet is
removed in both cases. Consequently three successive single-bullet hits on an
enemy of health 3 leave health 2, then health 1, then remove it with score + 1. -/
theorem C3_dies_on_third_hit (ops : FloatOps F) :
    (∀ (g : Game F) (b : Bullet F) (bs1 bs2 : List (Bullet F)) (pre post : List (Enemy F))
        (e : Enemy F),
        g.bullets = bs1 ++ b :: bs2 → b.alive = true → g.enemies = pre ++ e :: post →
        (∀ p ∈ g.enemies, p.alive = true) →
        (∀ c ∈ bs1 ++ bs2, c.alive = true →
          ∀ p ∈ g.enemies, inRange ops (advanceBullet ops c).position p = false) →
        (∀ p ∈ pre, inRange ops (advanceBullet ops b).position p = false) →
        inRange ops (advanceBullet ops b).position e = true →
        (2 ≤ e.health →
          (update ops g).enemies = pre ++ { e with health := e.health - 1 } :: post ∧
            (update ops g).bullets
              = ((bs1 ++ bs2).map (advanceBullet ops)).filter (fun c => c.alive) ∧
            (update ops g).score = g.score) ∧
        (e.health ≤ 1 →
          (∀ c ∈ bs2, c.alive = true →
            inRange ops (advanceBullet ops c).position (nextEnemy ops g) = false) →
          (update ops g).enemies = pre ++ post ++ [nextEnemy ops g] ∧
            (update ops g).bullets
              = ((bs1 ++ bs2).map (advanceBullet ops)).filter (fun c => c.alive) ∧
            (update ops g).score = g.score + 1)) ∧
    (∀ (g : Game F) (b1 b2 b3 : Bullet F) (pre post : List (Enemy F)) (e : Enemy F),
        g.enemies = pre ++ e :: post → (∀ p ∈ g.enemies, p.alive = true) → e.health = 3 →
        (∀ b ∈ [b1, b2, b3], b.alive = true ∧
          (∀ p ∈ pre, inRange ops (advanceBullet ops b).position p = false) ∧
          inRange ops (advanceBullet ops b).position e = true) →
        (update ops { g with bullets := [b1] }).enemies
            = pre ++ { e with health := 2 } :: post ∧
          (update ops { g with bullets := [b1] }).score = g.score ∧
          (update ops { update ops { g with bullets := [b1] } with bullets := [b2] }).enemies
            = pre ++ { e with health := 1 } :: post ∧
          (update ops { update ops { g with bullets := [b1] } with bullets := [b2] }).score
            = g.score ∧
          (update ops { update ops { update ops { g with bullets := [b1] } with
              bullets := [b2] } with bullets := [b3] }).enemies
            = pre ++ post ++ [nextEnemy ops g] ∧
          (update ops { update ops { update ops { g with bullets := [b1] } with
              bullets := [b2] } with bullets := [b3] }).score = g.score + 1) := by
  constructor
  · intro g b bs1 bs2 pre post e hb hba hes halive hmiss hpre hr
    exact ⟨fun hh => update_one_wound ops g b bs1 bs2 pre post e hb hba hes halive hmiss hpre hr hh,
      fun hh hnew =>
        update_one_kill ops g b bs1 bs2 pre post e hb hba hes halive hmiss hnew hpre hr hh⟩
  · intro g b1 b2 b3 pre post e hes halive hh3 hbs
    obtain ⟨a1, p1, r1⟩ := hbs b1 (by simp)
    obtain ⟨a2, p2, r2⟩ := hbs b2 (by simp)
    obtain ⟨a3, p3, r3⟩ := hbs b3 (by simp)
    rw [hes] at halive
    -- first hit: health 3 becomes 2
    obtain ⟨e1, _, s1, n1⟩ := update_single_wound ops { g with bullets := [b1] } b1 pre post e
      rfl a1 hes (by rw [hes]; exact halive) p1 r1 (by omega)
    rw [hh3] at e1
    -- second hit: health 2 becomes 1
    obtain ⟨e2, _, s2, n2⟩ := update_single_wound ops
      { update ops { g with bullets := [b1] } with bullets := [b2] } b2 pre post
      { e with health := 3 - 1 } rfl a2 e1
      (by rw [e1]; exact alive_after_wound pre post e _ halive) p2 r2 (by show (2 : Int) ≤ 3 - 1; omega)
    -- third hit: health 1 becomes 0, the enemy is erased
    obtain ⟨e3, _, s3, _⟩ := update_single_kill ops
      { update ops { update ops { g with bullets := [b1] } with bullets := [b2] } with
        bullets := [b3] } b3 pre post
      { e with health := 3 - 1 - 1 } rfl a3 e2
      (by rw [e2]; exact alive_after_wound pre post _ _ (alive_after_wound pre post e _ halive))
      p3 r3 (by show (3 : Int) - 1 - 1 ≤ 1; omega)
    have hn : nextEnemy ops { update ops { update ops { g with bullets := [b1] } with
        bullets := [b2] } with bullets := [b3] } = nextEnemy ops g := by
      unfold nextEnemy
      show Enemy.mk3 ⟨dist ops ((update ops { update ops { g with bullets := [b1] } with
        bullets := [b2] }).rng 0), _, dist ops ((update ops { update ops { g with
        bullets := [b1] } with bullets := [b2] }).rng 1)⟩ = _
      rw [n2]
      show Enemy.mk3 ⟨dist ops ((update ops { g with bullets := [b1] }).rng 0), _,
        dist ops ((update ops { g with bullets := [b1] }).rng 1)⟩ = _
      rw [n1]
    rw [hn] at e3
    refine ⟨e1, s1, e2, ?_, e3, ?_⟩
    · exact s2.trans s1
    · rw [s3]
      show (update ops { update ops { g with bullets := [b1] } with bullets := [b2] }).score + 1 = _
      rw [s2]
      show (update ops { g with bullets := [b1] }).score + 1 = _
      rw [s1]

/-- Witness for C3: three successive hits by `aimedBullet` on the second enemy of
a fresh simulation (real-number interpretation); the score is 1 after the third
tick. -/
theorem C3_dies_on_third_hit_witness :
    (update (idealOps Real.sqrt Real.sin Real.cos)
      (reload (idealOps Real.sqrt Real.sin Real.cos)
        (update (idealOps Real.sqrt Real.sin Real.cos)
          (reload (idealOps Real.sqrt Real.sin Real.cos)
            (update (idealOps Real.sqrt Real.sin Real.cos)
              (reload (idealOps Real.sqrt Real.sin Real.cos)
                (init (idealOps Real.sqrt Real.sin Real.cos)
                  (spreadRng (idealOps Real.sqrt Real.sin Real.cos))))))))).score = 0 + 1 := by
  have h := (C3_dies_on_third_hit (idealOps Real.sqrt Real.sin Real.cos)).2
    (init (idealOps Real.sqrt Real.sin Real.cos) (spreadRng (idealOps Real.sqrt Real.sin Real.cos)))
    (aimedBullet (idealOps Real.sqrt Real.sin Real.cos))
    (aimedBullet (idealOps Real.sqrt Real.sin Real.cos))
    (aimedBullet (idealOps Real.sqrt Real.sin Real.cos))
    [Enemy.mk3 ⟨0, 1, 3⟩] [Enemy.mk3 ⟨12, 1, 15⟩] (Enemy.mk3 ⟨6, 1, 9⟩)
    (by simp [init, spawnEnemy, dist, uniformReal, spreadRng]; norm_num)
    (by simp [init, spawnEnemy, spreadRng, Enemy.mk3])
    rfl
    (by
      intro b hb
      simp only [List.mem_cons, List.mem_singleton, or_self, List.mem_nil_iff, or_false] at hb
      subst hb
      refine ⟨rfl, ?_, ?_⟩
      · intro p hp
        simp only [List.mem_singleton] at hp
        subst hp
        rw [ideal_inRange Real.sin Real.cos isSqrt_real]
        simp [advanceBullet, aimedBullet, forwardDir, Bullet.mk2, Enemy.mk3, Vector3.add,
          Vector3.scale]
        norm_num
      · rw [ideal_inRange Real.sin Real.cos isSqrt_real]
        simp [advanceBullet, aimedBullet, forwardDir, Bullet.mk2, Enemy.mk3, Vector3.add,
          Vector3.scale]
        norm_num)
  exact h.2.2.2.2.2

/-! ## C11: normalising the zero vector -/

/-- C11. For any float semantics: when the length compares equal to 0,
`normalize` returns the zero vector and its result does not depend on the
division operation (no division is performed); the quotient branch is taken
exactly when the length does not compare equal to 0. For the zero vector itself
the length is 0 as soon as `0 * 0 = 0`, `0 + 0 = 0`, `sqrt 0 = 0` and `0 == 0`,
so `normalize` returns the zero vector. -/
theorem C11_normalize_zero (ops : FloatOps F) :
    (∀ v : Vector3 F, ops.eq (Vector3.length ops v) (ops.lit 0) = true →
        Vector3.normalize ops v = Vector3.zero ops ∧
        ∀ d : F → F → F, Vector3.normalize { ops with div := d } v = Vector3.zero ops) ∧
      (∀ v : Vector3 F, ops.eq (Vector3.length ops v) (ops.lit 0) = false →
        Vector3.normalize ops v
          = ⟨ops.div v.x (Vector3.length ops v), ops.div v.y (Vector3.length ops v),
              ops.div v.z (Vector3.length ops v)⟩) ∧
      (ops.mul (ops.lit 0) (ops.lit 0) = ops.lit 0 → ops.add (ops.lit 0) (ops.lit 0) = ops.lit 0 →
        ops.sqrt (ops.lit 0) = ops.lit 0 → ops.eq (ops.lit 0) (ops.lit 0) = true →
        Vector3.length ops (Vector3.zero ops) = ops.lit 0 ∧
        Vector3.normalize ops (Vector3.zero ops) = Vector3.zero ops) := by
  refine ⟨fun v h => ⟨?_, fun d => ?_⟩, fun v h => ?_, fun hm ha hs he => ?_⟩
  · simp [Vector3.normalize, h]
  · have h2 : ops.eq (Vector3.length { ops with div := d } v) (ops.lit 0) = true := h
    simp only [Vector3.normalize, h2, if_true]
    rfl
  · simp [Vector3.normalize, h]
  · have hl : Vector3.length ops (Vector3.zero ops) = ops.lit 0 := by
      simp only [Vector3.length, Vector3.zero, hm, ha, hs]
    refine ⟨hl, ?_⟩
    simp [Vector3.normalize, hl, he]

/-- Witness for C11: over the real numbers the zero vector normalises to the
zero vector. -/
theorem C11_normalize_zero_witness :
    Vector3.normalize (idealOps Real.sqrt Real.sin Real.cos)
        (Vector3.zero (idealOps Real.sqrt Real.sin Real.cos))
      = Vector3.zero (idealOps Real.sqrt Real.sin Real.cos) :=
  ((C11_normalize_zero (idealOps Real.sqrt Real.sin Real.cos)).2.2
    (by simp) (by simp) (by simp) (by simp)).2

/-! ## C13: key codes outside the table -/

/-- C13. For a key code outside `0..255` (negative or at least 256) `setKey`
returns the state unchanged; for a code `c` in `0..255` it stores the value in
`keys[c]`, keeps every other key flag and changes no other field. -/
theorem C13_setKey_bounds (g : Game F) (keyCode : Int) (pressed : Bool) :
    ((keyCode < 0 ∨ 256 ≤ keyCode) → setKey g keyCode pressed = g) ∧
      (0 ≤ keyCode → keyCode < 256 →
        (∀ i : Fin 256, (i.val : Int) = keyCode → (setKey g keyCode pressed).keys i = pressed) ∧
        (∀ i : Fin 256, (i.val : Int) ≠ keyCode →
          (setKey g keyCode pressed).keys i = g.keys i) ∧
        setKey g keyCode pressed = { g with keys := (setKey g keyCode pressed).keys }) := by
  constructor
  · intro h
    have : ¬ (0 ≤ keyCode ∧ keyCode < 256) := by omega
    simp [setKey, this]
  · intro h0 h1
    have : 0 ≤ keyCode ∧ keyCode < 256 := ⟨h0, h1⟩
    refine ⟨fun i hi => ?_, fun i hi => ?_, ?_⟩
    · simp [setKey, this, hi]
    · simp [setKey, this, hi]
    · simp [setKey, this]

/-- Witness for C13: code 300 is ignored, code 101 stores the flag. -/
theorem C13_setKey_bounds_witness :
    setKey (init (idealOps Real.sqrt Real.sin Real.cos) (fun _ => 0)) 300 true
        = init (idealOps Real.sqrt Real.sin Real.cos) (fun _ => 0) ∧
      (setKey (init (idealOps Real.sqrt Real.sin Real.cos) (fun _ => 0)) 101 true).keys key_e
        = true :=
  ⟨(C13_setKey_bounds (init (idealOps Real.sqrt Real.sin Real.cos) (fun _ => 0)) 300 true).1
      (Or.inr (by norm_num)),
    ((C13_setKey_bounds (init (idealOps Real.sqrt Real.sin Real.cos) (fun _ => 0)) 101 true).2
      (by norm_num) (by norm_num)).1 key_e rfl⟩

/-! ## C14: the initial state -/

/-- In binary32 `dist` maps the unit interval into [-20, 20]: `40 * u` rounds to
a value of [0, 40], and adding -20 and rounding gives a value of [-20, 20],
because 0, 20, 40 are binary32 values and rounding never crosses one. -/
theorem binary32_dist_range (u : ℚ) (h0 : 0 ≤ u) (h1 : u ≤ 1) :
    -20 ≤ dist binary32Ops u ∧ dist binary32Ops u ≤ 20 := by
  have e1 : rnd32 20 = 20 := by decide!
  have e2 : rnd32 (-20) = -20 := by decide!
  have e3 : rnd32 (20 - -20) = 40 := by decide!
  have hval : dist binary32Ops u = rnd32 (rnd32 (40 * u) + -20) := by
    show rnd32 (rnd32 (rnd32 (rnd32 20 - rnd32 (-20)) * u) + rnd32 (-20)) = _
    rw [e1, e2, e3]
  rw [hval]
  have hv := rnd32_abs_le_nat (40 * u) 40 (by push_cast; linarith) (by push_cast; linarith)
    (by norm_num)
  have hv0 : 0 ≤ rnd32 (40 * u) := by
    rcases h0.lt_or_eq with h | h
    · exact (rnd32_pos_le_nat (40 * u) 40 (by linarith) (by push_cast; linarith)
        (by norm_num)).1
    · rw [← h, mul_zero, rnd32_zero]
  have hv40 : rnd32 (40 * u) ≤ 40 := by
    have := hv.2
    push_cast at this
    exact this
  have := rnd32_abs_le_nat (rnd32 (40 * u) + -20) 20 (by push_cast; linarith)
    (by push_cast; linarith) (by norm_num)
  push_cast at this
  exact this

/-- In exact arithmetic `dist` maps the unit interval into [-20, 20]: the bounds
are those of `uniform_real_distribution<float> dist(-20.0f, 20.0f)`. -/
theorem ideal_dist_range {K : Type} [LinearOrderedField K] (sqrt sin cos : K → K) (u : K)
    (h0 : 0 ≤ u) (h1 : u ≤ 1) :
    -20 ≤ dist (idealOps sqrt sin cos) u ∧ dist (idealOps sqrt sin cos) u ≤ 20 := by
  rw [ideal_dist]
  constructor <;> linarith

/-- The initial state in exact arithmetic, for canonical draws in the unit
interval. -/
theorem ideal_initial_state {K : Type} [LinearOrderedField K] (sqrt sin cos : K → K)
    (rng : Nat → K) (hr : ∀ n, 0 ≤ rng n ∧ rng n ≤ 1) :
    (init (idealOps sqrt sin cos) rng).enemies.length = 3 ∧
      (∀ e ∈ (init (idealOps sqrt sin cos) rng).enemies,
        e.alive = true ∧ e.health = 3 ∧ e.position.y = 1 ∧
        -20 ≤ e.position.x ∧ e.position.x ≤ 20 ∧ -20 ≤ e.position.z ∧ e.position.z ≤ 20) ∧
      (init (idealOps sqrt sin cos) rng).bullets = [] ∧
      (init (idealOps sqrt sin cos) rng).score = 0 ∧
      (init (idealOps sqrt sin cos) rng).inCar = false ∧
      (∀ i : Fin 256, (init (idealOps sqrt sin cos) rng).keys i = false) ∧
      (init (idealOps sqrt sin cos) rng).playerPos = ⟨0, 1, 0⟩ ∧
      (init (idealOps sqrt sin cos) rng).carPos = ⟨10, 3 / 4, 0⟩ := by
  refine ⟨rfl, ?_, rfl, rfl, rfl, fun _ => rfl, ?_, ?_⟩
  · intro e he
    rw [init_enemies] at he
    simp only [List.mem_cons, List.mem_singleton, List.mem_nil_iff, or_false] at he
    rcases he with rfl | rfl | rfl
    · exact ⟨rfl, rfl, by simp [Enemy.mk3],
        (ideal_dist_range sqrt sin cos (rng 0) (hr 0).1 (hr 0).2).1,
        (ideal_dist_range sqrt sin cos (rng 0) (hr 0).1 (hr 0).2).2,
        (ideal_dist_range sqrt sin cos (rng 1) (hr 1).1 (hr 1).2).1,
        (ideal_dist_range sqrt sin cos (rng 1) (hr 1).1 (hr 1).2).2⟩
    · exact ⟨rfl, rfl, by simp [Enemy.mk3],
        (ideal_dist_range sqrt sin cos (rng 2) (hr 2).1 (hr 2).2).1,
        (ideal_dist_range sqrt sin cos (rng 2) (hr 2).1 (hr 2).2).2,
        (ideal_dist_range sqrt sin cos (rng 3) (hr 3).1 (hr 3).2).1,
        (ideal_dist_range sqrt sin cos (rng 3) (hr 3).1 (hr 3).2).2⟩
    · exact ⟨rfl, rfl, by simp [Enemy.mk3],
        (ideal_dist_range sqrt sin cos (rng 4) (hr 4).1 (hr 4).2).1,
        (ideal_dist_range sqrt sin cos (rng 4) (hr 4).1 (hr 4).2).2,
        (ideal_dist_range sqrt sin cos (rng 5) (hr 5).1 (hr 5).2).1,
        (ideal_dist_range sqrt sin cos (rng 5) (hr 5).1 (hr 5).2).2⟩
  · show (⟨((0 : ℚ) : K), ((1 : ℚ) : K), ((0 : ℚ) : K)⟩ : Vector3 K) = ⟨0, 1, 0⟩
    simp
  · show (⟨((10 : ℚ) : K), ((3 / 4 : ℚ) : K), ((0 : ℚ) : K)⟩ : Vector3 K) = ⟨10, 3 / 4, 0⟩
    push_cast
    rfl

/-- The initial state in binary32, for canonical draws in the unit interval. -/
theorem binary32_initial_state (rng : Nat → ℚ) (hr : ∀ n, 0 ≤ rng n ∧ rng n ≤ 1) :
    (init binary32Ops rng).enemies.length = 3 ∧
      (∀ e ∈ (init binary32Ops rng).enemies,
        e.alive = true ∧ e.health = 3 ∧ e.position.y = 1 ∧
        -20 ≤ e.position.x ∧ e.position.x ≤ 20 ∧ -20 ≤ e.position.z ∧ e.position.z ≤ 20) ∧
      (init binary32Ops rng).bullets = [] ∧
      (init binary32Ops rng).score = 0 ∧
      (init binary32Ops rng).inCar = false ∧
      (∀ i : Fin 256, (init binary32Ops rng).keys i = false) ∧
      (init binary32Ops rng).playerPos = ⟨0, 1, 0⟩ ∧
      (init binary32Ops rng).carPos = ⟨10, 3 / 4, 0⟩ := by
  have e0 : rnd32 0 = 0 := by decide!
  have e1 : rnd32 1 = 1 := by decide!
  have e10 : rnd32 10 = 10 := by decide!
  have e34 : rnd32 (3 / 4) = 3 / 4 := by decide!
  refine ⟨rfl, ?_, rfl, rfl, rfl, fun _ => rfl, ?_, ?_⟩
  · intro e he
    rw [init_enemies] at he
    simp only [List.mem_cons, List.mem_singleton, List.mem_nil_iff, or_false] at he
    rcases he with rfl | rfl | rfl
    · exact ⟨rfl, rfl, e1,
        (binary32_dist_range (rng 0) (hr 0).1 (hr 0).2).1,
        (binary32_dist_range (rng 0) (hr 0).1 (hr 0).2).2,
        (binary32_dist_range (rng 1) (hr 1).1 (hr 1).2).1,
        (binary32_dist_range (rng 1) (hr 1).1 (hr 1).2).2⟩
    · exact ⟨rfl, rfl, e1,
        (binary32_dist_range (rng 2) (hr 2).1 (hr 2).2).1,
        (binary32_dist_range (rng 2) (hr 2).1 (hr 2).2).2,
        (binary32_dist_range (rng 3) (hr 3).1 (hr 3).2).1,
        (binary32_dist_range (rng 3) (hr 3).1 (hr 3).2).2⟩
    · exact ⟨rfl, rfl, e1,
        (binary32_dist_range (rng 4) (hr 4).1 (hr 4).2).1,
        (binary32_dist_range (rng 4) (hr 4).1 (hr 4).2).2,
        (binary32_dist_range (rng 5) (hr 5).1 (hr 5).2).1,
        (binary32_dist_range (rng 5) (hr 5).1 (hr 5).2).2⟩
  · show (⟨rnd32 0, rnd32 1, rnd32 0⟩ : Vector3 ℚ) = ⟨0, 1, 0⟩
    rw [e0, e1]
  · show (⟨rnd32 10, rnd32 (3 / 4), rnd32 0⟩ : Vector3 ℚ) = ⟨10, 3 / 4, 0⟩
    rw [e0, e10, e34]

/-- C14. For every random source, given as the sequence of canonical draws the
distribution consumes (values of the unit interval, the contract of
`std::generate_canonical`), the constructed simulation has exactly 3 enemies,
each alive with health 3, y = 1 and x, z in [-20, 20], the bounds of the
distribution `dist(-20.0f, 20.0f)` of `spawnEnemy`; it has no bullets, score 0,
`inCar` false, all 256 key flags false, the player at (0, 1, 0) and the vehicle
at (10, 3/4, 0).  First conjunct: in binary32, the program's arithmetic.  Second
conjunct: the same in exact arithmetic (any ordered field). -/
theorem C14_initial_state (rng : Nat → ℚ) (hr : ∀ n, 0 ≤ rng n ∧ rng n ≤ 1) :
    ((init binary32Ops rng).enemies.length = 3 ∧
      (∀ e ∈ (init binary32Ops rng).enemies,
        e.alive = true ∧ e.health = 3 ∧ e.position.y = 1 ∧
        -20 ≤ e.position.x ∧ e.position.x ≤ 20 ∧ -20 ≤ e.position.z ∧ e.position.z ≤ 20) ∧
      (init binary32Ops rng).bullets = [] ∧
      (init binary32Ops rng).score = 0 ∧
      (init binary32Ops rng).inCar = false ∧
      (∀ i : Fin 256, (init binary32Ops rng).keys i = false) ∧
      (init binary32Ops rng).playerPos = ⟨0, 1, 0⟩ ∧
      (init binary32Ops rng).carPos = ⟨10, 3 / 4, 0⟩) ∧
    (∀ (K : Type) [LinearOrderedField K] (sqrt sin cos : K → K) (r : Nat → K),
      (∀ n, 0 ≤ r n ∧ r n ≤ 1) →
      (init (idealOps sqrt sin cos) r).enemies.length = 3 ∧
        (∀ e ∈ (init (idealOps sqrt sin cos) r).enemies,
          e.alive = true ∧ e.health = 3 ∧ e.position.y = 1 ∧
          -20 ≤ e.position.x ∧ e.position.x ≤ 20 ∧
          -20 ≤ e.position.z ∧ e.position.z ≤ 20) ∧
        (init (idealOps sqrt sin cos) r).bullets = [] ∧
        (init (idealOps sqrt sin cos) r).score = 0 ∧
        (init (idealOps sqrt sin cos) r).inCar = false ∧
        (∀ i : Fin 256, (init (idealOps sqrt sin cos) r).keys i = false) ∧
        (init (idealOps sqrt sin cos) r).playerPos = ⟨0, 1, 0⟩ ∧
        (init (idealOps sqrt sin cos) r).carPos = ⟨10, 3 / 4, 0⟩) :=
  ⟨binary32_initial_state rng hr,
    fun _ _ sqrt sin cos r h => ideal_initial_state sqrt sin cos r h⟩

/-- Witness for C14: binary32, the random source whose canonical draws alternate
between 1 and 1/4: every initial enemy sits at x = 20 (the upper bound is
attained) and z = -10. -/
theorem C14_initial_state_witness :
    (init binary32Ops (fun n => if n % 2 = 0 then 1 else 1 / 4)).enemies.length = 3 ∧
      (init binary32Ops (fun n => if n % 2 = 0 then 1 else 1 / 4)).enemies.map
          (fun e => e.position.x) = [20, 20, 20] ∧
      (init binary32Ops (fun n => if n % 2 = 0 then 1 else 1 / 4)).enemies.map
          (fun e => e.position.z) = [-10, -10, -10] :=
  ⟨(C14_initial_state (fun n => if n % 2 = 0 then 1 else 1 / 4)
    (fun n => by
      show 0 ≤ (if n % 2 = 0 then (1 : ℚ) else 1 / 4) ∧ (if n % 2 = 0 then (1 : ℚ) else 1 / 4) ≤ 1
      split_ifs <;> norm_num)).1.1, by decide!, by decide!⟩

/-! ## C15: the resolver is selected after interaction handling -/

theorem handleInteraction_positions (ops : FloatOps F) (g : Game F) :
    (handleInteraction ops g).playerPos = g.playerPos ∧
      (handleInteraction ops g).carPos = g.carPos := by
  unfold handleInteraction
  split
  · dsimp only
    split
    · exact ⟨rfl, rfl⟩
    · split <;> exact ⟨rfl, rfl⟩
  · exact ⟨rfl, rfl⟩

theorem handleInteraction_other_keys (ops : FloatOps F) (g : Game F) (i : Fin 256)
    (h1 : i ≠ key_e) (h2 : i ≠ key_E) : (handleInteraction ops g).keys i = g.keys i := by
  unfold handleInteraction
  cases hk : (g.keys key_e || g.keys key_E)
  · simp
  · cases hd : (!g.inCar && ops.lt (Vector3.distanceTo ops g.playerPos g.carPos) (ops.lit 4)) <;>
      cases hc : g.inCar <;> simp <;> exact fun _ => ⟨h1, h2⟩

theorem update_in_vehicle (ops : FloatOps F) (g : Game F)
    (h : (handleInteraction ops g).inCar = true) :
    (update ops g).playerPos = g.playerPos ∧
      (update ops g).carPos = (updateCarMovement ops (handleInteraction ops g)).carPos := by
  have hm : movementStep ops g = updateCarMovement ops (handleInteraction ops g) := by
    simp [movementStep, h]
  rw [update_eq, (updateBullets_frame ops _).1, (updateBullets_frame ops _).2.1, hm]
  exact ⟨(handleInteraction_positions ops g).1, rfl⟩

theorem update_on_foot (ops : FloatOps F) (g : Game F)
    (h : (handleInteraction ops g).inCar = false) :
    (update ops g).carPos = g.carPos ∧
      (update ops g).playerPos = (updatePlayerMovement ops (handleInteraction ops g)).playerPos := by
  have hm : movementStep ops g = updatePlayerMovement ops (handleInteraction ops g) := by
    simp [movementStep, h]
  rw [update_eq, (updateBullets_frame ops _).1, (updateBullets_frame ops _).2.1, hm]
  exact ⟨((updatePlayerMovement_frame2 ops _).2.2.2.2.2).trans (handleInteraction_positions ops g).2,
    rfl⟩

/-- C15. For any float semantics: if `inCar` is true after `handleInteraction`,
the tick leaves the player position unchanged and moves the vehicle by the
vehicle rule; otherwise it leaves the vehicle position unchanged and moves the
player by the on-foot rule. In particular, with `e` and `w` held, `inCar` false
and the player closer than 4 to the vehicle, the tick does not move the player
and applies the step `z - 0.3` to the vehicle (followed by `+ 0.3` only if `s` or
`S` is held as well). -/
theorem C15_resolver_by_mode (ops : FloatOps F) (g : Game F) :
    ((handleInteraction ops g).inCar = true →
        (update ops g).playerPos = g.playerPos ∧
        (update ops g).carPos = (updateCarMovement ops (handleInteraction ops g)).carPos) ∧
      ((handleInteraction ops g).inCar = false →
        (update ops g).carPos = g.carPos ∧
        (update ops g).playerPos
          = (updatePlayerMovement ops (handleInteraction ops g)).playerPos) ∧
      (g.keys key_e = true → g.keys key_w = true → g.inCar = false →
        ops.lt (Vector3.distanceTo ops g.playerPos g.carPos) (ops.lit 4) = true →
        (update ops g).playerPos = g.playerPos ∧
        (update ops g).carPos.z
          = if (g.keys key_s || g.keys key_S) then
              ops.add (ops.sub g.carPos.z (ops.lit (3 / 10))) (ops.lit (3 / 10))
            else ops.sub g.carPos.z (ops.lit (3 / 10))) := by
  refine ⟨update_in_vehicle ops g, update_on_foot ops g, ?_⟩
  intro he hw hc hd
  have hin : (handleInteraction ops g).inCar = true := by
    simp [handleInteraction, he, hc, hd]
  obtain ⟨h1, h2⟩ := update_in_vehicle ops g hin
  refine ⟨h1, ?_⟩
  rw [h2]
  have kw : (handleInteraction ops g).keys key_w = true := by
    rw [handleInteraction_other_keys ops g key_w (by decide) (by decide)]; exact hw
  have ks : (handleInteraction ops g).keys key_s = g.keys key_s :=
    handleInteraction_other_keys ops g key_s (by decide) (by decide)
  have kS : (handleInteraction ops g).keys key_S = g.keys key_S :=
    handleInteraction_other_keys ops g key_S (by decide) (by decide)
  have hz : (handleInteraction ops g).carPos.z = g.carPos.z := by
    rw [(handleInteraction_positions ops g).2]
  unfold updateCarMovement
  simp only [kw, ks, kS, Bool.true_or, if_true]
  cases (g.keys key_s || g.keys key_S) <;>
    cases (handleInteraction ops g).keys key_a || (handleInteraction ops g).keys key_A <;>
    cases (handleInteraction ops g).keys key_d || (handleInteraction ops g).keys key_D <;>
    simp [hz]

/-- Witness for C15: real numbers, the player at (8, 1, 0) beside the vehicle at
(10, 3/4, 0), `e` and `w` held: the tick enters the vehicle and moves it, the
player stays. -/
theorem C15_resolver_by_mode_witness :
    (update (idealOps Real.sqrt Real.sin Real.cos)
        (setKey (setKey (besideCar (idealOps Real.sqrt Real.sin Real.cos)) 101 true)
          119 true)).playerPos
      = (setKey (setKey (besideCar (idealOps Real.sqrt Real.sin Real.cos)) 101 true)
          119 true).playerPos :=
  ((C15_resolver_by_mode (idealOps Real.sqrt Real.sin Real.cos)
    (setKey (setKey (besideCar (idealOps Real.sqrt Real.sin Real.cos)) 101 true) 119 true)).2.2
    rfl rfl rfl (by
      have hp : (setKey (setKey (besideCar (idealOps Real.sqrt Real.sin Real.cos)) 101 true)
          119 true).playerPos = ⟨((8 : ℚ) : ℝ), ((1 : ℚ) : ℝ), ((0 : ℚ) : ℝ)⟩ := rfl
      have hcar : (setKey (setKey (besideCar (idealOps Real.sqrt Real.sin Real.cos)) 101 true)
          119 true).carPos = ⟨((10 : ℚ) : ℝ), ((3 / 4 : ℚ) : ℝ), ((0 : ℚ) : ℝ)⟩ := rfl
      rw [hp, hcar]
      simp only [Vector3.distanceTo, Vector3.length, Vector3.sub, idealOps_lt, idealOps_sqrt,
        idealOps_add, idealOps_mul, idealOps_sub, idealOps_lit, decide_eq_true_eq]
      push_cast
      have key : ∀ x : ℝ, 0 ≤ x → x < 16 → Real.sqrt x < 4 := by
        intro x h0 hx
        obtain ⟨k0, k1⟩ := isSqrt_real x h0
        by_contra hc
        push_neg at hc
        nlinarith
      apply key <;> norm_num)).1

/-! ## One iteration of the collision loop, characterised -/

/-- A successful scan modified exactly the first alive enemy in range. -/
theorem hitScan_some_decomp (ops : FloatOps F) (bpos : Vector3 F) (es es1 : List (Enemy F))
    (killed : Bool) (h : hitScan ops bpos es = some (es1, killed)) :
    ∃ pre e post, es = pre ++ e :: post ∧
      (∀ p ∈ pre, p.alive = true → inRange ops bpos p = false) ∧
      e.alive = true ∧ inRange ops bpos e = true ∧
      es1 = pre ++ Enemy.hit e :: post ∧ killed = decide (e.health - 1 ≤ 0) := by
  induction es generalizing es1 killed with
  | nil => simp [hitScan] at h
  | cons a es ih =>
    unfold hitScan at h
    by_cases ha : a.alive = true
    · by_cases hd : ops.lt (Vector3.distanceTo ops a.position bpos) (ops.lit 1) = true
      · refine ⟨[], a, es, rfl, by simp, ha, hd, ?_⟩
        by_cases hh : a.health - 1 ≤ 0
        · simp [ha, hd, hh] at h
          simp [Enemy.hit, hh, h.1.symm, h.2.symm]
        · simp [ha, hd, hh] at h
          simp [Enemy.hit, hh, h.1.symm, h.2.symm, ha]
      · simp [ha, hd] at h
        obtain ⟨r, hr, h1⟩ := h
        obtain ⟨pre, e, post, e1, e2, e3, e4, e5, e6⟩ := ih r killed hr
        refine ⟨a :: pre, e, post, by simp [e1], ?_, e3, e4, by simp [← h1, e5], e6⟩
        intro p hp hpa
        simp only [List.mem_cons] at hp
        rcases hp with rfl | hp
        · simpa [inRange] using hd
        · exact e2 p hp hpa
    · simp [ha] at h
      obtain ⟨r, hr, h1⟩ := h
      obtain ⟨pre, e, post, e1, e2, e3, e4, e5, e6⟩ := ih r killed hr
      refine ⟨a :: pre, e, post, by simp [e1], ?_, e3, e4, by simp [← h1, e5], e6⟩
      intro p hp hpa
      simp only [List.mem_cons] at hp
      rcases hp with rfl | hp
      · exact absurd hpa ha
      · exact e2 p hp hpa

/-- The three possible outcomes of one iteration of the bullet loop: nothing
happens; the first alive enemy in range is wounded; or it is killed, a fresh
enemy is pushed at the back and the score grows by one. -/
theorem collideBullet_cases (ops : FloatOps F) (g : Game F) (b : Bullet F) :
    collideBullet ops g b = (g, b) ∨
      ∃ pre e post, b.alive = true ∧ g.enemies = pre ++ e :: post ∧
        (∀ p ∈ pre, p.alive = true → inRange ops b.position p = false) ∧
        e.alive = true ∧ inRange ops b.position e = true ∧
        ((¬ e.health - 1 ≤ 0 ∧
            collideBullet ops g b
              = ({ g with enemies := pre ++ { e with health := e.health - 1 } :: post },
                  { b with alive := false })) ∨
          (e.health - 1 ≤ 0 ∧
            collideBullet ops g b
              = ({ g with
                    enemies := (pre ++ { e with health := e.health - 1, alive := false } :: post)
                      ++ [nextEnemy ops g]
                    rng := fun n => g.rng (n + 2)
                    score := g.score + 1 },
                  { b with alive := false }))) := by
  by_cases hb : b.alive = true
  · cases hs : hitScan ops b.position g.enemies with
    | none =>
      left
      simp [collideBullet, hb, hs]
    | some r =>
      obtain ⟨es1, killed⟩ := r
      obtain ⟨pre, e, post, e1, e2, e3, e4, e5, e6⟩ :=
        hitScan_some_decomp ops b.position g.enemies es1 killed hs
      right
      refine ⟨pre, e, post, hb, e1, e2, e3, e4, ?_⟩
      by_cases hh : e.health - 1 ≤ 0
      · right
        refine ⟨hh, ?_⟩
        simp only [collideBullet, hb, hs, e5, e6, Enemy.hit, hh, Bool.not_true,
          Bool.false_eq_true, if_false, if_true, decide_True, spawnEnemy, nextEnemy]
      · left
        refine ⟨hh, ?_⟩
        simp only [collideBullet, hb, hs, e5, e6, Enemy.hit, hh, Bool.not_true,
          Bool.false_eq_true, if_false, decide_False]
  · left
    simp [collideBullet, hb]

theorem deadCount_append (es fs : List (Enemy F)) :
    deadCount (es ++ fs) = deadCount es + deadCount fs := by
  simp [deadCount, List.filter_append]

theorem deadCount_cons (e : Enemy F) (es : List (Enemy F)) :
    deadCount (e :: es) = (if e.alive then 0 else 1) + deadCount es := by
  unfold deadCount
  by_cases h : e.alive = true <;> simp [List.filter_cons, h, Nat.add_comm]

/-- Each iteration raises the score by exactly the number of enemies it marks
dead. -/
theorem collideBullet_score (ops : FloatOps F) (g : Game F) (b : Bullet F) :
    (collideBullet ops g b).1.score + deadCount g.enemies
      = g.score + deadCount (collideBullet ops g b).1.enemies := by
  rcases collideBullet_cases ops g b with h | ⟨pre, e, post, _, hes, _, hea, _, h | h⟩
  · rw [h]
  · rw [h.2, hes]
    simp [deadCount_append, deadCount_cons, hea]
  · rw [h.2, hes]
    simp [deadCount_append, deadCount_cons, hea, nextEnemy, Enemy.mk3, deadCount]
    omega

theorem collideAll_score (ops : FloatOps F) (bs : List (Bullet F)) (g : Game F) :
    (collideAll ops g bs).1.score + deadCount g.enemies
      = g.score + deadCount (collideAll ops g bs).1.enemies := by
  induction bs generalizing g with
  | nil => rfl
  | cons b bs ih =>
    have h1 := ih (collideBullet ops g b).1
    have h2 := collideBullet_score ops g b
    simp only [collideAll]
    omega

theorem collideBullet_dead_mono (ops : FloatOps F) (g : Game F) (b : Bullet F) :
    deadCount g.enemies ≤ deadCount (collideBullet ops g b).1.enemies := by
  rcases collideBullet_cases ops g b with h | ⟨pre, e, post, _, hes, _, hea, _, h | h⟩
  · rw [h]
  · rw [h.2, hes]
    simp [deadCount_append, deadCount_cons, hea]
  · rw [h.2, hes]
    simp only [deadCount_append, deadCount_cons, hea, if_true, Bool.false_eq_true, if_false]
    omega

theorem collideAll_dead_mono (ops : FloatOps F) (bs : List (Bullet F)) (g : Game F) :
    deadCount g.enemies ≤ deadCount (collideAll ops g bs).1.enemies := by
  induction bs generalizing g with
  | nil => exact le_refl _
  | cons b bs ih =>
    simp only [collideAll]
    exact (collideBullet_dead_mono ops g b).trans (ih _)

theorem update_score (ops : FloatOps F) (g : Game F) :
    (update ops g).score = g.score + killsInTick ops g := by
  obtain ⟨m1, _, m3, _⟩ := movementStep_frame ops g
  have h := collideAll_score ops ((movementStep ops g).bullets.map (advanceBullet ops))
    (movementStep ops g)
  rw [m1, m3] at h
  have hs : (update ops g).score = (collided ops g).1.score := rfl
  rw [hs]
  have hm := collideAll_dead_mono ops ((movementStep ops g).bullets.map (advanceBullet ops))
    (movementStep ops g)
  rw [m1] at hm
  unfold killsInTick
  unfold collided
  omega

/-! ## C12: score bookkeeping -/

/-- C12. For any float semantics and every state: `update` raises the score by
exactly the number of enemies marked dead during the tick, so the score never
decreases; `setKey`, `updateCamera` and `shoot` leave the score unchanged. -/
theorem C12_score_bookkeeping (ops : FloatOps F) (g : Game F) :
    (update ops g).score = g.score + killsInTick ops g ∧ g.score ≤ (update ops g).score ∧
      (∀ (keyCode : Int) (pressed : Bool), (setKey g keyCode pressed).score = g.score) ∧
      (∀ dh dv dz : F, (updateCamera ops g dh dv dz).score = g.score) ∧
      (shoot ops g).score = g.score := by
  have h := update_score ops g
  refine ⟨h, by omega, fun k p => ?_, fun dh dv dz => rfl, ?_⟩
  · unfold setKey
    split <;> rfl
  · unfold shoot
    split <;> rfl

/-! ## C19: stored entities are live -/

theorem collideBullet_healthOK (ops : FloatOps F) (g : Game F) (b : Bullet F)
    (h : HealthOK g.enemies) : HealthOK (collideBullet ops g b).1.enemies := by
  rcases collideBullet_cases ops g b with hc | ⟨pre, e, post, _, hes, _, hea, _, hc | hc⟩
  · rw [hc]; exact h
  · rw [hc.2]
    rw [hes] at h
    intro p hp hpa
    simp only [List.mem_append, List.mem_cons] at hp
    rcases hp with hp | rfl | hp
    · exact h p (by simp [hp]) hpa
    · have := h e (by simp) hea
      have hn := hc.1
      simp only
      omega
    · exact h p (by simp [hp]) hpa
  · rw [hc.2]
    rw [hes] at h
    intro p hp hpa
    simp only [List.mem_append, List.mem_cons, List.mem_singleton, List.mem_nil_iff,
      or_false] at hp
    rcases hp with (hp | rfl | hp) | rfl
    · exact h p (by simp [hp]) hpa
    · exact absurd hpa (by simp)
    · exact h p (by simp [hp]) hpa
    · simp [nextEnemy, Enemy.mk3]

theorem collideAll_healthOK (ops : FloatOps F) (bs : List (Bullet F)) (g : Game F)
    (h : HealthOK g.enemies) : HealthOK (collideAll ops g bs).1.enemies := by
  induction bs generalizing g with
  | nil => exact h
  | cons b bs ih =>
    simp only [collideAll]
    exact ih _ (collideBullet_healthOK ops g b h)

theorem update_live (ops : FloatOps F) (g : Game F) (h : Live g) : Live (update ops g) := by
  obtain ⟨m1, _, _, _⟩ := movementStep_frame ops g
  have h0 : HealthOK (movementStep ops g).enemies := by
    rw [m1]
    intro e he _
    exact (h.1 e he).2
  have h1 := collideAll_healthOK ops ((movementStep ops g).bullets.map (advanceBullet ops)) _ h0
  constructor
  · intro e he
    have he2 : e ∈ (collideAll ops (movementStep ops g)
        ((movementStep ops g).bullets.map (advanceBullet ops))).1.enemies.filter
          (fun e => e.alive) := he
    rw [List.mem_filter] at he2
    exact ⟨he2.2, h1 e he2.1 he2.2⟩
  · intro b hb
    have hb2 : b ∈ (collideAll ops (movementStep ops g)
        ((movementStep ops g).bullets.map (advanceBullet ops))).2.filter (fun b => b.alive) := hb
    rw [List.mem_filter] at hb2
    exact hb2.2

theorem reachable_live (ops : FloatOps F) (g : Game F) (h : Reachable ops g) : Live g := by
  induction h with
  | init rng =>
    constructor
    · intro e he
      rw [init_enemies] at he
      simp only [List.mem_cons, List.mem_singleton, List.mem_nil_iff, or_false] at he
      rcases he with rfl | rfl | rfl <;> simp [Enemy.mk3]
    · intro b hb
      have : (init ops rng).bullets = [] := rfl
      rw [this] at hb
      simp at hb
  | setKey g k p _ ih =>
    unfold setKey
    split
    · exact ih
    · exact ih
  | updateCamera g dh dv dz _ ih => exact ih
  | shoot g _ ih =>
    unfold shoot
    split
    · refine ⟨ih.1, ?_⟩
      intro b hb
      simp only [List.mem_append, List.mem_singleton] at hb
      rcases hb with hb | rfl
      · exact ih.2 b hb
      · rfl
    · exact ih
  | update g _ ih => exact update_live ops g ih

/-- C19. For any float semantics: in every state reachable from the constructor
through `setKey`, `updateCamera`, `shoot` and `update`, every enemy in the enemy
collection is alive with health between 1 and 3, and every bullet in the bullet
collection is alive. -/
theorem C19_stored_entities_live (ops : FloatOps F) (g : Game F) (h : Reachable ops g) :
    (∀ e ∈ g.enemies, e.alive = true ∧ 1 ≤ e.health ∧ e.health ≤ 3) ∧
      ∀ b ∈ g.bullets, b.alive = true :=
  reachable_live ops g h

/-- Witness for C19: the state after constructing, shooting once and ticking
once (real-number interpretation). -/
theorem C19_stored_entities_live_witness :
    Live (update (idealOps Real.sqrt Real.sin Real.cos)
      (shoot (idealOps Real.sqrt Real.sin Real.cos)
        (init (idealOps Real.sqrt Real.sin Real.cos)
          (spreadRng (idealOps Real.sqrt Real.sin Real.cos))))) :=
  C19_stored_entities_live _ _ (Reachable.update _ (Reachable.shoot _ (Reachable.init _)))

/-! ## C16: first match wins -/

theorem collideBullet_hit (ops : FloatOps F) (g : Game F) (b : Bullet F)
    (pre post : List (Enemy F)) (e : Enemy F) (hb : b.alive = true)
    (hes : g.enemies = pre ++ e :: post)
    (hpre : ∀ p ∈ pre, p.alive = true → inRange ops b.position p = false)
    (hea : e.alive = true) (hr : inRange ops b.position e = true) :
    (collideBullet ops g b).2 = { b with alive := false } ∧
      (collideBullet ops g b).1.enemies
        = pre ++ Enemy.hit e :: post ++ (if e.health - 1 ≤ 0 then [nextEnemy ops g] else []) := by
  have hscan := hitScan_first ops b.position pre post e hpre hea hr
  by_cases hh : e.health - 1 ≤ 0
  · simp only [collideBullet, hb, hes, hscan, hh, Bool.not_true, Bool.false_eq_true, if_false,
      if_true, decide_True, spawnEnemy, nextEnemy]
    exact ⟨trivial, by simp⟩
  · simp only [collideBullet, hb, hes, hscan, hh, Bool.not_true, Bool.false_eq_true, if_false,
      decide_False]
    exact ⟨trivial, by simp⟩

theorem Enemy.hit_health (e : Enemy F) : (Enemy.hit e).health = e.health - 1 := by
  unfold Enemy.hit
  split <;> rfl

theorem Enemy.hit_position (e : Enemy F) : (Enemy.hit e).position = e.position := by
  unfold Enemy.hit
  split <;> rfl

/-- C16. For any float semantics, for one iteration of the bullet loop on the
(advanced) alive bullet `b`: if `e` is the first alive enemy within range in
collection order, then whatever follows `e` in the collection (further alive
enemies within range included) the bullet is marked dead, the health of `e`
drops by exactly 1 and every other entry the collection had is left as it was.
In any case the healths of the entries the collection had change at no index
or at exactly one index. -/
theorem C16_first_match_wins (ops : FloatOps F) (g : Game F) (b : Bullet F) :
    (∀ (pre post : List (Enemy F)) (e : Enemy F), b.alive = true →
        g.enemies = pre ++ e :: post →
        (∀ p ∈ pre, p.alive = true → inRange ops b.position p = false) →
        e.alive = true → inRange ops b.position e = true →
        (collideBullet ops g b).2.alive = false ∧
        (collideBullet ops g b).1.enemies.take g.enemies.length = pre ++ Enemy.hit e :: post ∧
        (Enemy.hit e).health = e.health - 1 ∧ (Enemy.hit e).position = e.position) ∧
      (((collideBullet ops g b).1.enemies.take g.enemies.length).map (fun p => p.health)
          = g.enemies.map (fun p => p.health) ∨
        ∃ (pre post : List (Enemy F)) (e : Enemy F), g.enemies = pre ++ e :: post ∧
          ((collideBullet ops g b).1.enemies.take g.enemies.length).map (fun p => p.health)
            = pre.map (fun p => p.health) ++ (e.health - 1) :: post.map (fun p => p.health)) := by
  have htake : ∀ (pre post : List (Enemy F)) (e : Enemy F), b.alive = true →
      g.enemies = pre ++ e :: post →
      (∀ p ∈ pre, p.alive = true → inRange ops b.position p = false) →
      e.alive = true → inRange ops b.position e = true →
      (collideBullet ops g b).1.enemies.take g.enemies.length = pre ++ Enemy.hit e :: post := by
    intro pre post e hb hes hpre hea hr
    rw [(collideBullet_hit ops g b pre post e hb hes hpre hea hr).2, hes]
    apply List.take_left'
    simp
  constructor
  · intro pre post e hb hes hpre hea hr
    refine ⟨?_, htake pre post e hb hes hpre hea hr, Enemy.hit_health e, Enemy.hit_position e⟩
    rw [(collideBullet_hit ops g b pre post e hb hes hpre hea hr).1]
  · rcases collideBullet_cases ops g b with h | ⟨pre, e, post, hb, hes, hpre, hea, hr, _⟩
    · left
      rw [h, List.take_length]
    · right
      refine ⟨pre, post, e, hes, ?_⟩
      rw [htake pre post e hb hes hpre hea hr]
      simp [Enemy.hit_health]

/-- Witness for C16: real numbers, enemies at (0,1,1/4), (1/2,1,3/4), (1,1,5/4) and
an advanced bullet at (1/4,1,1/2) within range of the first two: the second
enemy is in range, yet only the first one loses a health point. -/
theorem C16_first_match_wins_witness :
    inRange (idealOps Real.sqrt Real.sin Real.cos)
        (tieBullet (idealOps Real.sqrt Real.sin Real.cos)).position
        (Enemy.mk3 ⟨1 / 2, 1, 3 / 4⟩) = true ∧
      (collideBullet (idealOps Real.sqrt Real.sin Real.cos)
          (init (idealOps Real.sqrt Real.sin Real.cos)
            (denseRng (idealOps Real.sqrt Real.sin Real.cos)))
          (tieBullet (idealOps Real.sqrt Real.sin Real.cos))).1.enemies.take
          (init (idealOps Real.sqrt Real.sin Real.cos)
            (denseRng (idealOps Real.sqrt Real.sin Real.cos))).enemies.length
        = [] ++ Enemy.hit (Enemy.mk3 ⟨0, 1, 1 / 4⟩)
            :: [Enemy.mk3 ⟨1 / 2, 1, 3 / 4⟩, Enemy.mk3 ⟨1, 1, 5 / 4⟩] := by
  constructor
  · rw [ideal_inRange Real.sin Real.cos isSqrt_real]
    simp [tieBullet, forwardDir, Bullet.mk2, Enemy.mk3]
    norm_num
  · exact ((C16_first_match_wins (idealOps Real.sqrt Real.sin Real.cos)
      (init (idealOps Real.sqrt Real.sin Real.cos)
        (denseRng (idealOps Real.sqrt Real.sin Real.cos)))
      (tieBullet (idealOps Real.sqrt Real.sin Real.cos))).1
      [] [Enemy.mk3 ⟨1 / 2, 1, 3 / 4⟩, Enemy.mk3 ⟨1, 1, 5 / 4⟩] (Enemy.mk3 ⟨0, 1, 1 / 4⟩)
      rfl (by simp [init_enemies, dist, uniformReal, denseRng]; norm_num) (by simp) rfl
      (by
        rw [ideal_inRange Real.sin Real.cos isSqrt_real]
        simp [tieBullet, forwardDir, Bullet.mk2, Enemy.mk3]
        norm_num)).2.1

/-! ## C17: compaction keeps the survivors in order -/

theorem Worn.refl (p : Enemy F) : Worn p p := ⟨rfl, le_refl _, fun h => h⟩

theorem Worn.hit {p e : Enemy F} (h : Worn p e) : Worn p (Enemy.hit e) := by
  obtain ⟨h1, h2, h3⟩ := h
  unfold Enemy.hit
  split
  · exact ⟨h1, by simp only; omega, by simp⟩
  · exact ⟨h1, by simp only; omega, h3⟩

/-- Replacing one entry of the right-hand list by its image under a hit keeps the
entry-wise correspondence. -/
theorem forall₂_worn_hit (xs pre post : List (Enemy F)) (e : Enemy F)
    (h : List.Forall₂ Worn xs (pre ++ e :: post)) :
    List.Forall₂ Worn xs (pre ++ Enemy.hit e :: post) := by
  induction pre generalizing xs with
  | nil =>
    cases h with
    | cons h1 h2 => exact List.Forall₂.cons h1.hit h2
  | cons p pre ih =>
    cases h with
    | cons h1 h2 => exact List.Forall₂.cons h1 (ih _ h2)

theorem spawnSeq_succ (ops : FloatOps F) (rng : Nat → F) (k : Nat) :
    spawnSeq ops rng (k + 1)
      = spawnSeq ops rng k ++
        [Enemy.mk3 ⟨dist ops (rng (2 * k)), ops.lit 1, dist ops (rng (2 * k + 1))⟩] := by
  simp [spawnSeq, List.range_succ]

theorem hit_eq_wound (e : Enemy F) (h : ¬ e.health - 1 ≤ 0) :
    ({ e with health := e.health - 1 } : Enemy F) = Enemy.hit e := by
  simp [Enemy.hit, h]

theorem hit_eq_kill (e : Enemy F) (h : e.health - 1 ≤ 0) :
    ({ e with health := e.health - 1, alive := false } : Enemy F) = Enemy.hit e := by
  simp [Enemy.hit, h]

/-- One iteration keeps the correspondence between the enemy vector and "the
enemies the tick started with, followed by the enemies spawned so far". -/
theorem collideBullet_trace (ops : FloatOps F) (r0 : Nat → F) (xs : List (Enemy F))
    (g : Game F) (b : Bullet F) (k : Nat)
    (h : List.Forall₂ Worn (xs ++ spawnSeq ops r0 k) g.enemies)
    (hr : g.rng = fun n => r0 (n + 2 * k)) :
    ∃ j, (j = k ∨ j = k + 1) ∧
      List.Forall₂ Worn (xs ++ spawnSeq ops r0 j) (collideBullet ops g b).1.enemies ∧
      ((collideBullet ops g b).1.rng = fun n => r0 (n + 2 * j)) ∧
      (collideBullet ops g b).1.score + k = g.score + j := by
  rcases collideBullet_cases ops g b with hc | ⟨pre, e, post, _, hes, _, _, _, hc | hc⟩
  · rw [hc]
    exact ⟨k, Or.inl rfl, h, hr, rfl⟩
  · rw [hc.2]
    refine ⟨k, Or.inl rfl, ?_, hr, rfl⟩
    rw [hes] at h
    rw [hit_eq_wound e hc.1]
    exact forall₂_worn_hit _ pre post e h
  · rw [hc.2]
    refine ⟨k + 1, Or.inr rfl, ?_, ?_, ?_⟩
    · rw [hes] at h
      rw [hit_eq_kill e hc.1, spawnSeq_succ, ← List.append_assoc]
      apply List.rel_append (forall₂_worn_hit _ pre post e h)
      have hn : nextEnemy ops g
          = Enemy.mk3 ⟨dist ops (r0 (2 * k)), ops.lit 1, dist ops (r0 (2 * k + 1))⟩ := by
        simp only [nextEnemy, hr]
        have e1 : 0 + 2 * k = 2 * k := by omega
        have e2 : 1 + 2 * k = 2 * k + 1 := by omega
        rw [e1, e2]
      rw [hn]
      exact List.Forall₂.cons (Worn.refl _) List.Forall₂.nil
    · show (fun n => g.rng (n + 2)) = fun n => r0 (n + 2 * (k + 1))
      rw [hr]
      funext n
      have e1 : n + 2 + 2 * k = n + 2 * (k + 1) := by omega
      simp only [e1]
    · show g.score + 1 + (k : Int) = g.score + ((k + 1 : Nat) : Int)
      push_cast
      ring

theorem collideAll_trace (ops : FloatOps F) (r0 : Nat → F) (xs : List (Enemy F))
    (bs : List (Bullet F)) (g : Game F) (k : Nat)
    (h : List.Forall₂ Worn (xs ++ spawnSeq ops r0 k) g.enemies)
    (hr : g.rng = fun n => r0 (n + 2 * k)) :
    ∃ j, k ≤ j ∧
      List.Forall₂ Worn (xs ++ spawnSeq ops r0 j) (collideAll ops g bs).1.enemies ∧
      ((collideAll ops g bs).1.rng = fun n => r0 (n + 2 * j)) ∧
      (collideAll ops g bs).1.score + k = g.score + j := by
  induction bs generalizing g k with
  | nil => exact ⟨k, le_refl _, h, hr, rfl⟩
  | cons b bs ih =>
    obtain ⟨j, hj, h1, h2, h3⟩ := collideBullet_trace ops r0 xs g b k h hr
    obtain ⟨i, hi, k1, k2, k3⟩ := ih (collideBullet ops g b).1 j h1 h2
    refine ⟨i, by omega, ?_, ?_, ?_⟩
    · simpa only [collideAll] using k1
    · simpa only [collideAll] using k2
    · simp only [collideAll]
      omega

theorem collideBullet_spent (ops : FloatOps F) (g : Game F) (b : Bullet F) :
    Spent b (collideBullet ops g b).2 := by
  rcases collideBullet_cases ops g b with hc | ⟨pre, e, post, hb, _, _, _, _, hc | hc⟩
  · rw [hc]; exact Or.inl rfl
  · rw [hc.2]; exact Or.inr ⟨hb, rfl⟩
  · rw [hc.2]; exact Or.inr ⟨hb, rfl⟩

theorem collideAll_spent (ops : FloatOps F) (bs : List (Bullet F)) (g : Game F) :
    List.Forall₂ Spent bs (collideAll ops g bs).2 := by
  induction bs generalizing g with
  | nil => exact List.Forall₂.nil
  | cons b bs ih =>
    simp only [collideAll]
    exact List.Forall₂.cons (collideBullet_spent ops g b) (ih _)

theorem spent_filter_sublist (bs ds : List (Bullet F)) (h : List.Forall₂ Spent bs ds) :
    List.Sublist (ds.filter (fun b => b.alive)) bs := by
  induction bs generalizing ds with
  | nil =>
    cases h
    exact List.Sublist.slnil
  | cons c cs ih =>
    cases h with
    | cons hcd hrest =>
      rename_i d ds1
      have ih1 := ih ds1 hrest
      rcases hcd with rfl | ⟨_, rfl⟩
      · by_cases hd : d.alive = true
        · simp only [List.filter_cons, hd, if_true]
          exact List.Sublist.cons₂ _ ih1
        · simp only [List.filter_cons, hd, if_false]
          exact List.Sublist.cons _ ih1
      · simp only [List.filter_cons, Bool.false_eq_true, if_false]
        exact List.Sublist.cons _ ih1

theorem afterLoop_enemies_split (ops : FloatOps F) (g : Game F) :
    ∃ (k : Nat) (olds news : List (Enemy F)),
      (afterLoop ops g).1.enemies = olds ++ news ∧ List.Forall₂ Worn g.enemies olds ∧
      List.Forall₂ Worn (spawnSeq ops g.rng k) news ∧
      (afterLoop ops g).1.score = g.score + k := by
  have h0 : List.Forall₂ Worn (g.enemies ++ spawnSeq ops g.rng 0) g.enemies := by
    have : spawnSeq ops g.rng 0 = [] := rfl
    rw [this, List.append_nil]
    exact List.forall₂_same.mpr (fun p _ => Worn.refl p)
  have hr0 : g.rng = fun n => g.rng (n + 2 * 0) := by
    funext n
    rfl
  obtain ⟨k, _, h1, _, h3⟩ := collideAll_trace ops g.rng g.enemies
    (g.bullets.map (advanceBullet ops)) g 0 h0 hr0
  refine ⟨k, (afterLoop ops g).1.enemies.take g.enemies.length,
    (afterLoop ops g).1.enemies.drop g.enemies.length, (List.take_append_drop _ _).symm, ?_, ?_, ?_⟩
  · have := List.forall₂_take g.enemies.length h1
    rwa [List.take_left' rfl] at this
  · have := List.forall₂_drop g.enemies.length h1
    rwa [List.drop_left' rfl] at this
  · have h4 : (afterLoop ops g).1.score + ((0 : Nat) : Int) = g.score + k := h3
    simpa using h4

theorem hitsNothing_iff (ops : FloatOps F) (es : List (Enemy F)) (bpos : Vector3 F) :
    hitsNothing ops es bpos = true
      ↔ ∀ p ∈ es, p.alive = true → inRange ops bpos p = false := by
  unfold hitsNothing
  rw [List.all_eq_true]
  constructor
  · intro h p hp ha
    have := h p hp
    simp [ha] at this
    exact this
  · intro h p hp
    cases ha : p.alive
    · simp
    · simp [h p hp ha]

/-- An enemy vector with an alive enemy in range splits at the first such enemy. -/
theorem first_in_range (ops : FloatOps F) (bpos : Vector3 F) (es : List (Enemy F))
    (h : hitsNothing ops es bpos = false) :
    ∃ pre e post, es = pre ++ e :: post ∧
      (∀ p ∈ pre, p.alive = true → inRange ops bpos p = false) ∧
      e.alive = true ∧ inRange ops bpos e = true := by
  induction es with
  | nil => simp [hitsNothing] at h
  | cons a as ih =>
    by_cases ha : a.alive = true ∧ inRange ops bpos a = true
    · exact ⟨[], a, as, rfl, by simp, ha.1, ha.2⟩
    · have h2 : hitsNothing ops as bpos = false := by
        unfold hitsNothing at h ⊢
        rw [List.all_cons] at h
        cases hx : (!(a.alive && inRange ops bpos a))
        · exfalso
          apply ha
          simpa using hx
        · rw [hx] at h
          simpa using h
      obtain ⟨pre, e, post, h1, h3, h4, h5⟩ := ih h2
      refine ⟨a :: pre, e, post, by rw [h1]; rfl, ?_, h4, h5⟩
      intro p hp hpa
      rcases List.mem_cons.mp hp with rfl | hp
      · cases hr : inRange ops bpos p
        · rfl
        · exact absurd ⟨hpa, hr⟩ ha
      · exact h3 p hp hpa

/-- One iteration of the collision loop leaves the bullet alive exactly when it
was alive and hit nothing; a kept bullet is unchanged. -/
theorem collideBullet_kept (ops : FloatOps F) (g : Game F) (b : Bullet F) :
    [(collideBullet ops g b).2].filter (fun c => c.alive)
      = if b.alive && hitsNothing ops g.enemies b.position then [b] else [] := by
  cases hb : b.alive
  · rw [collideBullet_miss ops g b (by intro h; rw [hb] at h; cases h)]
    simp [hb]
  · cases hn : hitsNothing ops g.enemies b.position
    · obtain ⟨pre, e, post, h1, h2, h3, h4⟩ := first_in_range ops b.position g.enemies hn
      rw [(collideBullet_hit ops g b pre post e hb h1 h2 h3 h4).1]
      simp
    · rw [collideBullet_miss ops g b (fun _ => (hitsNothing_iff ops _ _).mp hn)]
      simp [hb]

/-- The alive bullets the collision loop leaves behind are the `survivors`. -/
theorem collideAll_survivors (ops : FloatOps F) (bs : List (Bullet F)) (g : Game F) :
    (collideAll ops g bs).2.filter (fun c => c.alive) = survivors ops g bs := by
  induction bs generalizing g with
  | nil => rfl
  | cons b bs ih =>
    show ([(collideBullet ops g b).2] ++ (collideAll ops (collideBullet ops g b).1 bs).2).filter
      (fun c => c.alive) = _
    rw [List.filter_append, collideBullet_kept, ih]
    rfl

theorem struck_refl (p : Enemy F) : Struck p p := Or.inl rfl

theorem struck_worn {p q : Enemy F} (h : Struck p q) : Worn p q := by
  rcases h with rfl | ⟨ha, n, _, rfl⟩
  · exact Worn.refl _
  · exact ⟨rfl, by simp only; omega, fun _ => ha⟩

theorem struck_hit {p e : Enemy F} (h : Struck p e) (he : e.alive = true) :
    Struck p (Enemy.hit e) := by
  rcases h with rfl | ⟨ha, n, hn, rfl⟩
  · refine Or.inr ⟨he, 1, Nat.one_pos, ?_⟩
    unfold Enemy.hit
    split
    · rename_i h1
      have : decide (0 < e.health - ((1 : Nat) : Int)) = false := by
        simp only [decide_eq_false_iff_not, Nat.cast_one]
        omega
      rw [this]
      rfl
    · rename_i h1
      have : decide (0 < e.health - ((1 : Nat) : Int)) = true := by
        simp only [decide_eq_true_eq, Nat.cast_one]
        omega
      rw [this, ← he]
      rfl
  · refine Or.inr ⟨ha, n + 1, Nat.succ_pos _, ?_⟩
    have hpos : 0 < p.health - (n : Int) := by simpa using he
    unfold Enemy.hit
    split
    · rename_i h1
      have h2 : p.health - (n : Int) - 1 ≤ 0 := h1
      have : decide (0 < p.health - ((n + 1 : Nat) : Int)) = false := by
        simp only [decide_eq_false_iff_not, Nat.cast_add, Nat.cast_one]
        omega
      rw [this]
      show (⟨p.position, p.health - (n : Int) - 1, false⟩ : Enemy F)
        = ⟨p.position, p.health - ((n + 1 : Nat) : Int), false⟩
      have e1 : p.health - (n : Int) - 1 = p.health - ((n + 1 : Nat) : Int) := by
        push_cast
        ring
      rw [e1]
    · rename_i h1
      have h2 : ¬ p.health - (n : Int) - 1 ≤ 0 := h1
      have : decide (0 < p.health - ((n + 1 : Nat) : Int)) = true := by
        simp only [decide_eq_true_eq, Nat.cast_add, Nat.cast_one]
        omega
      have h3 : decide (0 < p.health - (n : Int)) = true := by simpa using hpos
      rw [this]
      show (⟨p.position, p.health - (n : Int) - 1, decide (0 < p.health - (n : Int))⟩ : Enemy F)
        = ⟨p.position, p.health - ((n + 1 : Nat) : Int), true⟩
      have e1 : p.health - (n : Int) - 1 = p.health - ((n + 1 : Nat) : Int) := by
        push_cast
        ring
      rw [e1, h3]

/-- Replacing one alive entry of the right-hand list by its image under a hit
keeps the entry-wise correspondence. -/
theorem forall₂_struck_hit (xs pre post : List (Enemy F)) (e : Enemy F) (he : e.alive = true)
    (h : List.Forall₂ Struck xs (pre ++ e :: post)) :
    List.Forall₂ Struck xs (pre ++ Enemy.hit e :: post) := by
  induction pre generalizing xs with
  | nil =>
    cases h with
    | cons h1 h2 => exact List.Forall₂.cons (struck_hit h1 he) h2
  | cons p pre ih =>
    cases h with
    | cons h1 h2 => exact List.Forall₂.cons h1 (ih _ h2)

/-- One iteration keeps the exact correspondence between the enemy vector and
"the enemies the tick started with, followed by the enemies spawned so far". -/
theorem collideBullet_struck (ops : FloatOps F) (r0 : Nat → F) (xs : List (Enemy F))
    (g : Game F) (b : Bullet F) (k : Nat)
    (h : List.Forall₂ Struck (xs ++ spawnSeq ops r0 k) g.enemies)
    (hr : g.rng = fun n => r0 (n + 2 * k)) :
    ∃ j, (j = k ∨ j = k + 1) ∧
      List.Forall₂ Struck (xs ++ spawnSeq ops r0 j) (collideBullet ops g b).1.enemies ∧
      ((collideBullet ops g b).1.rng = fun n => r0 (n + 2 * j)) ∧
      (collideBullet ops g b).1.score + k = g.score + j := by
  rcases collideBullet_cases ops g b with hc | ⟨pre, e, post, _, hes, _, hea, _, hc | hc⟩
  · rw [hc]
    exact ⟨k, Or.inl rfl, h, hr, rfl⟩
  · rw [hc.2]
    refine ⟨k, Or.inl rfl, ?_, hr, rfl⟩
    rw [hes] at h
    rw [hit_eq_wound e hc.1]
    exact forall₂_struck_hit _ pre post e hea h
  · rw [hc.2]
    refine ⟨k + 1, Or.inr rfl, ?_, ?_, ?_⟩
    · rw [hes] at h
      rw [hit_eq_kill e hc.1, spawnSeq_succ, ← List.append_assoc]
      apply List.rel_append (forall₂_struck_hit _ pre post e hea h)
      have hn : nextEnemy ops g
          = Enemy.mk3 ⟨dist ops (r0 (2 * k)), ops.lit 1, dist ops (r0 (2 * k + 1))⟩ := by
        simp only [nextEnemy, hr]
        have e1 : 0 + 2 * k = 2 * k := by omega
        have e2 : 1 + 2 * k = 2 * k + 1 := by omega
        rw [e1, e2]
      rw [hn]
      exact List.Forall₂.cons (struck_refl _) List.Forall₂.nil
    · show (fun n => g.rng (n + 2)) = fun n => r0 (n + 2 * (k + 1))
      rw [hr]
      funext n
      have e1 : n + 2 + 2 * k = n + 2 * (k + 1) := by omega
      simp only [e1]
    · show g.score + 1 + (k : Int) = g.score + ((k + 1 : Nat) : Int)
      push_cast
      ring

theorem collideAll_struck (ops : FloatOps F) (r0 : Nat → F) (xs : List (Enemy F))
    (bs : List (Bullet F)) (g : Game F) (k : Nat)
    (h : List.Forall₂ Struck (xs ++ spawnSeq ops r0 k) g.enemies)
    (hr : g.rng = fun n => r0 (n + 2 * k)) :
    ∃ j, k ≤ j ∧
      List.Forall₂ Struck (xs ++ spawnSeq ops r0 j) (collideAll ops g bs).1.enemies ∧
      ((collideAll ops g bs).1.rng = fun n => r0 (n + 2 * j)) ∧
      (collideAll ops g bs).1.score + k = g.score + j := by
  induction bs generalizing g k with
  | nil => exact ⟨k, le_refl _, h, hr, rfl⟩
  | cons b bs ih =>
    obtain ⟨j, hj, h1, h2, h3⟩ := collideBullet_struck ops r0 xs g b k h hr
    obtain ⟨i, hi, k1, k2, k3⟩ := ih (collideBullet ops g b).1 j h1 h2
    refine ⟨i, by omega, ?_, ?_, ?_⟩
    · simpa only [collideAll] using k1
    · simpa only [collideAll] using k2
    · simp only [collideAll]
      omega

theorem afterLoop_enemies_struck (ops : FloatOps F) (g : Game F) :
    ∃ (k : Nat) (olds news : List (Enemy F)),
      (afterLoop ops g).1.enemies = olds ++ news ∧ List.Forall₂ Struck g.enemies olds ∧
      List.Forall₂ Struck (spawnSeq ops g.rng k) news ∧
      (afterLoop ops g).1.score = g.score + k ∧
      (afterLoop ops g).1.rng = fun n => g.rng (n + 2 * k) := by
  have h0 : List.Forall₂ Struck (g.enemies ++ spawnSeq ops g.rng 0) g.enemies := by
    have : spawnSeq ops g.rng 0 = [] := rfl
    rw [this, List.append_nil]
    exact List.forall₂_same.mpr (fun p _ => struck_refl p)
  have hr0 : g.rng = fun n => g.rng (n + 2 * 0) := by
    funext n
    rfl
  obtain ⟨k, _, h1, h2, h3⟩ := collideAll_struck ops g.rng g.enemies
    (g.bullets.map (advanceBullet ops)) g 0 h0 hr0
  refine ⟨k, (afterLoop ops g).1.enemies.take g.enemies.length,
    (afterLoop ops g).1.enemies.drop g.enemies.length, (List.take_append_drop _ _).symm,
    ?_, ?_, ?_, h2⟩
  · have := List.forall₂_take g.enemies.length h1
    rwa [List.take_left' rfl] at this
  · have := List.forall₂_drop g.enemies.length h1
    rwa [List.drop_left' rfl] at this
  · have h4 : (afterLoop ops g).1.score + ((0 : Nat) : Int) = g.score + k := h3
    simpa using h4

/-- C17. For any float semantics and every state.  Bullets: the collision loop
leaves each advanced bullet untouched or clears the `alive` flag of one that hit;
the bullets `updateBullets` returns are exactly the `survivors`, that is, walking
the advanced bullets front to back, those that are alive and for which, in the
state the loop has reached when it comes to them, no alive enemy is closer than
`1.0` (`hitsNothing`); they form a subsequence, in the original order, of the
advanced bullets.  Enemies: the loop leaves the enemy vector as the enemies the
tick started with followed by the enemies spawned during the tick in spawn
order, each of them untouched or hit `n ≥ 1` times while alive, with health
lowered by `n` and marked dead exactly when the health is no longer positive
(`Struck`); `updateBullets` returns the alive ones of the first group followed by
the alive ones of the second, in order.  No dead entry remains in either
collection. -/
theorem C17_compaction_order (ops : FloatOps F) (g : Game F) :
    List.Forall₂ Spent (g.bullets.map (advanceBullet ops)) (afterLoop ops g).2 ∧
      (updateBullets ops g).bullets = (afterLoop ops g).2.filter (fun b => b.alive) ∧
      (updateBullets ops g).bullets = survivors ops g (g.bullets.map (advanceBullet ops)) ∧
      List.Sublist (updateBullets ops g).bullets (g.bullets.map (advanceBullet ops)) ∧
      (∃ (k : Nat) (olds news : List (Enemy F)),
        (afterLoop ops g).1.enemies = olds ++ news ∧ List.Forall₂ Worn g.enemies olds ∧
        List.Forall₂ Worn (spawnSeq ops g.rng k) news ∧
        (afterLoop ops g).1.score = g.score + k ∧
        (updateBullets ops g).enemies
          = olds.filter (fun e => e.alive) ++ news.filter (fun e => e.alive) ∧
        List.Forall₂ Struck g.enemies olds ∧
        List.Forall₂ Struck (spawnSeq ops g.rng k) news) ∧
      (∀ b ∈ (updateBullets ops g).bullets, b.alive = true) ∧
      (∀ e ∈ (updateBullets ops g).enemies, e.alive = true) := by
  have hsp := collideAll_spent ops (g.bullets.map (advanceBullet ops)) g
  refine ⟨hsp, rfl, collideAll_survivors ops _ g, spent_filter_sublist _ _ hsp, ?_, ?_,
    updateBullets_enemies_alive ops g⟩
  · obtain ⟨k, olds, news, h1, h2, h3, h4, _⟩ := afterLoop_enemies_struck ops g
    refine ⟨k, olds, news, h1, h2.imp (fun _ _ h => struck_worn h),
      h3.imp (fun _ _ h => struck_worn h), h4,
      ?_, h2, h3⟩
    show (afterLoop ops g).1.enemies.filter (fun e => e.alive) = _
    rw [h1, List.filter_append]
  · intro b hb
    have hb2 : b ∈ (afterLoop ops g).2.filter (fun b => b.alive) := hb
    rw [List.mem_filter] at hb2
    exact hb2.2

/-! ## C18: bullets never expire on their own -/

/-- An alive bullet that meets nothing when the loop reaches it is still in the
collection after the tick, advanced by one step. -/
theorem update_keeps_missing_bullet (ops : FloatOps F) (g : Game F) (b : Bullet F)
    (bs1 bs2 : List (Bullet F)) (hb : g.bullets = bs1 ++ b :: bs2) (hba : b.alive = true)
    (hmiss : ∀ p ∈ (collideAll ops (movementStep ops g)
        (bs1.map (advanceBullet ops))).1.enemies,
      p.alive = true → inRange ops (advanceBullet ops b).position p = false) :
    advanceBullet ops b ∈ (update ops g).bullets := by
  obtain ⟨_, m2, _, _⟩ := movementStep_frame ops g
  have hmap : List.map (advanceBullet ops) (movementStep ops g).bullets
      = bs1.map (advanceBullet ops) ++ advanceBullet ops b :: bs2.map (advanceBullet ops) := by
    rw [m2, hb, List.map_append, List.map_cons]
  have hcb := collideBullet_miss ops
    (collideAll ops (movementStep ops g) (bs1.map (advanceBullet ops))).1 (advanceBullet ops b)
    (fun _ => hmiss)
  have hba2 : (advanceBullet ops b).alive = true := by rw [advanceBullet_alive]; exact hba
  show advanceBullet ops b ∈ (collideAll ops (movementStep ops g)
    (List.map (advanceBullet ops) (movementStep ops g).bullets)).2.filter (fun c => c.alive)
  rw [hmap, collideAll_append]
  simp only [collideAll, hcb, List.filter_append, List.filter_cons, hba2, if_true,
    List.mem_append, List.mem_cons, true_or, or_true]

theorem advanceBullet_of_alive (ops : FloatOps F) (b : Bullet F) (hba : b.alive = true) :
    advanceBullet ops b
      = { b with position :=
            Vector3.add ops b.position (Vector3.scale ops b.direction (ops.lit (1 / 2))) } := by
  simp [advanceBullet, hba]

theorem iterate_keeps_missing_bullet (ops : FloatOps F) (n : Nat) (g : Game F) (b : Bullet F)
    (hba : b.alive = true) (hb : b ∈ g.bullets)
    (hmiss : ∀ k < n, MissesAtScan ops (Nat.iterate (update ops) k g)
      (Nat.iterate (advanceBullet ops) k b)) :
    Nat.iterate (advanceBullet ops) n b ∈ (Nat.iterate (update ops) n g).bullets := by
  induction n generalizing g b with
  | zero => exact hb
  | succ n ih =>
    obtain ⟨bs1, bs2, hsplit⟩ := List.append_of_mem hb
    have h0 : MissesAtScan ops g b := hmiss 0 (Nat.succ_pos n)
    have h1 := update_keeps_missing_bullet ops g b bs1 bs2 hsplit hba (h0 bs1 bs2 hsplit)
    have hba2 : (advanceBullet ops b).alive = true := by rw [advanceBullet_alive]; exact hba
    exact ih (update ops g) (advanceBullet ops b) hba2 h1
      (fun k hk => hmiss (k + 1) (Nat.succ_lt_succ hk))

/-- C18. For any float semantics: an alive bullet whose advanced position is out
of range of every alive enemy at the moment the collision loop reaches it is
still in the bullet collection after `update`, alive, with position
`old position + direction * 0.5` and the same direction. Consequently a bullet
that meets nothing in each of `n` successive ticks is in the collection after
those `n` ticks, advanced `n` times. -/
theorem C18_bullets_never_expire (ops : FloatOps F) :
    (∀ (g : Game F) (b : Bullet F) (bs1 bs2 : List (Bullet F)),
        g.bullets = bs1 ++ b :: bs2 → b.alive = true →
        (∀ p ∈ (collideAll ops (movementStep ops g) (bs1.map (advanceBullet ops))).1.enemies,
          p.alive = true → inRange ops (advanceBullet ops b).position p = false) →
        ({ b with position :=
            Vector3.add ops b.position (Vector3.scale ops b.direction (ops.lit (1 / 2))) }
          : Bullet F) ∈ (update ops g).bullets) ∧
      (∀ (n : Nat) (g : Game F) (b : Bullet F), b.alive = true → b ∈ g.bullets →
        (∀ k < n, MissesAtScan ops (Nat.iterate (update ops) k g)
          (Nat.iterate (advanceBullet ops) k b)) →
        Nat.iterate (advanceBullet ops) n b ∈ (Nat.iterate (update ops) n g).bullets) := by
  constructor
  · intro g b bs1 bs2 hb hba hmiss
    rw [← advanceBullet_of_alive ops b hba]
    exact update_keeps_missing_bullet ops g b bs1 bs2 hb hba hmiss
  · intro n g b hba hb hmiss
    exact iterate_keeps_missing_bullet ops n g b hba hb hmiss

theorem strayShot_enemies (ops : FloatOps F) :
    (movementStep ops (strayShot ops)).enemies
      = [Enemy.mk3 ⟨dist ops (spreadRng ops 0), ops.lit 1, dist ops (spreadRng ops 1)⟩,
          Enemy.mk3 ⟨dist ops (spreadRng ops 2), ops.lit 1, dist ops (spreadRng ops 3)⟩,
          Enemy.mk3 ⟨dist ops (spreadRng ops 4), ops.lit 1, dist ops (spreadRng ops 5)⟩] := by
  rw [(movementStep_frame ops (strayShot ops)).1]
  rfl

/-- Witness for C18: real numbers, enemies at (0,1,3), (6,1,9), (12,1,15) and one
bullet at (0,1,0) flying along (0,0,-1): after the tick the bullet is in the
collection at (0,1,-1/2). -/
theorem C18_bullets_never_expire_witness :
    ({ strayBullet (idealOps Real.sqrt Real.sin Real.cos) with
        position := Vector3.add (idealOps Real.sqrt Real.sin Real.cos)
          (strayBullet (idealOps Real.sqrt Real.sin Real.cos)).position
          (Vector3.scale (idealOps Real.sqrt Real.sin Real.cos)
            (strayBullet (idealOps Real.sqrt Real.sin Real.cos)).direction
            ((idealOps Real.sqrt Real.sin Real.cos).lit (1 / 2))) } : Bullet ℝ)
      ∈ (update (idealOps Real.sqrt Real.sin Real.cos)
          (strayShot (idealOps Real.sqrt Real.sin Real.cos))).bullets :=
  (C18_bullets_never_expire (idealOps Real.sqrt Real.sin Real.cos)).1
    (strayShot (idealOps Real.sqrt Real.sin Real.cos))
    (strayBullet (idealOps Real.sqrt Real.sin Real.cos)) [] [] rfl rfl
    (by
      intro p hp _
      have hp2 : p ∈ (movementStep (idealOps Real.sqrt Real.sin Real.cos)
          (strayShot (idealOps Real.sqrt Real.sin Real.cos))).enemies := hp
      rw [strayShot_enemies] at hp2
      simp only [List.mem_cons, List.mem_singleton, List.mem_nil_iff, or_false] at hp2
      rw [ideal_inRange Real.sin Real.cos isSqrt_real]
      rcases hp2 with rfl | rfl | rfl <;>
        simp [advanceBullet, strayBullet, forwardDir, Bullet.mk2, Enemy.mk3, Vector3.add,
          Vector3.scale, ideal_dist, spreadRng] <;>
        norm_num)

/-! ## C20: randomness is consumed only on a kill -/

theorem handleInteraction_withRng (ops : FloatOps F) (g : Game F) (r : Nat → F) :
    handleInteraction ops (withRng g r) = withRng (handleInteraction ops g) r := by
  unfold handleInteraction withRng
  cases hk : (g.keys key_e || g.keys key_E)
  · simp
  · cases hd : (!g.inCar && ops.lt (Vector3.distanceTo ops g.playerPos g.carPos) (ops.lit 4)) <;>
      cases hc : g.inCar <;> simp [hc]

theorem updatePlayerMovement_withRng (ops : FloatOps F) (g : Game F) (r : Nat → F) :
    updatePlayerMovement ops (withRng g r) = withRng (updatePlayerMovement ops g) r := by
  have hm : rawMove ops (withRng g r) = rawMove ops g := rfl
  unfold updatePlayerMovement
  rw [hm]
  cases h : ops.lt (ops.lit 0) (Vector3.length ops (rawMove ops g)) <;> simp [withRng, h]

theorem movementStep_withRng (ops : FloatOps F) (g : Game F) (r : Nat → F) :
    movementStep ops (withRng g r) = withRng (movementStep ops g) r := by
  unfold movementStep
  rw [handleInteraction_withRng]
  have hc : (withRng (handleInteraction ops g) r).inCar = (handleInteraction ops g).inCar := rfl
  rw [hc]
  cases (handleInteraction ops g).inCar
  · simp only [Bool.false_eq_true, if_false]
    exact updatePlayerMovement_withRng ops _ r
  · simp only [if_true]
    rfl

theorem collideBullet_score_mono (ops : FloatOps F) (g : Game F) (b : Bullet F) :
    g.score ≤ (collideBullet ops g b).1.score := by
  have h1 := collideBullet_score ops g b
  have h2 := collideBullet_dead_mono ops g b
  omega

theorem collideAll_score_mono (ops : FloatOps F) (bs : List (Bullet F)) (g : Game F) :
    g.score ≤ (collideAll ops g bs).1.score := by
  have h1 := collideAll_score ops bs g
  have h2 := collideAll_dead_mono ops bs g
  omega

/-- An iteration that leaves the score alone does not look at the random
source. -/
theorem collideBullet_withRng (ops : FloatOps F) (g : Game F) (b : Bullet F) (r : Nat → F)
    (h : (collideBullet ops g b).1.score = g.score) :
    collideBullet ops (withRng g r) b
      = (withRng (collideBullet ops g b).1 r, (collideBullet ops g b).2) := by
  rcases collideBullet_cases ops g b with hc | ⟨pre, e, post, hb, hes, hpre, hea, hr, hc | hc⟩
  · rw [hc]
    unfold collideBullet at hc ⊢
    by_cases hb : b.alive = true
    · simp only [hb, Bool.not_true, Bool.false_eq_true, if_false] at hc ⊢
      have he : (withRng g r).enemies = g.enemies := rfl
      rw [he]
      cases hs : hitScan ops b.position g.enemies with
      | none => rfl
      | some q =>
        rw [hs] at hc
        have := congrArg (fun x => x.2.alive) hc
        simp [hb] at this
    · simp [hb]
  · rw [hc.2]
    have hscan := hitScan_first ops b.position pre post e hpre hea hr
    simp only [collideBullet, withRng, hb, hes, hscan, hc.1, Enemy.hit, Bool.not_true,
      Bool.false_eq_true, if_false, decide_False]
  · rw [hc.2] at h
    have : g.score + 1 = g.score := h
    omega

theorem collideAll_withRng (ops : FloatOps F) (bs : List (Bullet F)) (g : Game F)
    (r : Nat → F) (h : (collideAll ops g bs).1.score = g.score) :
    collideAll ops (withRng g r) bs
      = (withRng (collideAll ops g bs).1 r, (collideAll ops g bs).2) := by
  induction bs generalizing g with
  | nil => rfl
  | cons b bs ih =>
    have h1 := collideBullet_score_mono ops g b
    have h2 := collideAll_score_mono ops bs (collideBullet ops g b).1
    have h3 : (collideAll ops (collideBullet ops g b).1 bs).1.score = g.score := h
    have hb : (collideBullet ops g b).1.score = g.score := by omega
    have hrest : (collideAll ops (collideBullet ops g b).1 bs).1.score
        = (collideBullet ops g b).1.score := by omega
    simp only [collideAll]
    rw [collideBullet_withRng ops g b r hb]
    simp only [ih (collideBullet ops g b).1 hrest]

/-- A tick without a kill commutes with replacing the random source. -/
theorem update_withRng (ops : FloatOps F) (g : Game F) (r : Nat → F)
    (h : killsInTick ops g = 0) : update ops (withRng g r) = withRng (update ops g) r := by
  have hs := update_score ops g
  rw [h] at hs
  have hs2 : (collideAll ops (movementStep ops g)
      ((movementStep ops g).bullets.map (advanceBullet ops))).1.score
      = (movementStep ops g).score := by
    rw [(movementStep_frame ops g).2.2.1]
    have : (update ops g).score = (collideAll ops (movementStep ops g)
      ((movementStep ops g).bullets.map (advanceBullet ops))).1.score := rfl
    rw [← this, hs]
    simp
  have hall := collideAll_withRng ops ((movementStep ops g).bullets.map (advanceBullet ops))
    (movementStep ops g) r hs2
  rw [update_eq, update_eq, movementStep_withRng]
  unfold updateBullets
  have hbul : (withRng (movementStep ops g) r).bullets = (movementStep ops g).bullets := rfl
  simp only [hbul, hall]
  rfl

theorem killsInTick_of_all_miss (ops : FloatOps F) (g : Game F)
    (h : ∀ c ∈ g.bullets, c.alive = true →
      ∀ p ∈ g.enemies, p.alive = true → inRange ops (advanceBullet ops c).position p = false) :
    killsInTick ops g = 0 := by
  obtain ⟨m1, m2, _, _⟩ := movementStep_frame ops g
  have hall : collided ops g
      = (movementStep ops g, (movementStep ops g).bullets.map (advanceBullet ops)) := by
    unfold collided
    apply collideAll_miss
    intro c hc hca p hp hpa
    obtain ⟨d, hd, rfl⟩ := List.mem_map.mp hc
    rw [advanceBullet_alive] at hca
    rw [m2] at hd
    rw [m1] at hp
    exact h d hd hca p hp hpa
  unfold killsInTick
  rw [hall, m1]
  exact Nat.sub_self _

/-- C20. For any float semantics, every state `g` and any two random sources: if
no enemy is marked dead during the tick run with the first source, the tick run
with the second source yields the same state apart from the generator, and each
run leaves its generator as it was; and two sources that give the same draws
yield identical results. -/
theorem C20_randomness_only_on_kill (ops : FloatOps F) (g : Game F) (rng1 rng2 : Nat → F) :
    (killsInTick ops (withRng g rng1) = 0 →
        withRng (update ops (withRng g rng1)) g.rng
          = withRng (update ops (withRng g rng2)) g.rng ∧
        (update ops (withRng g rng1)).rng = rng1 ∧
        (update ops (withRng g rng2)).rng = rng2) ∧
      ((∀ n, rng1 n = rng2 n) → update ops (withRng g rng1) = update ops (withRng g rng2)) := by
  constructor
  · intro h
    have h2 : update ops (withRng g rng2) = withRng (update ops (withRng g rng1)) rng2 :=
      update_withRng ops (withRng g rng1) rng2 h
    have h1 : update ops (withRng g rng1) = withRng (update ops (withRng g rng1)) rng1 :=
      update_withRng ops (withRng g rng1) rng1 h
    refine ⟨?_, ?_, ?_⟩
    · rw [h2]
      rfl
    · exact (congrArg Game.rng h1).trans rfl
    · rw [h2]
      rfl
  · intro h
    have : rng1 = rng2 := funext h
    rw [this]

/-- Witness for C20: real numbers, the state `strayShot` (its bullet meets
nothing) run with the constant sources 0 and 1. -/
theorem C20_randomness_only_on_kill_witness :
    withRng (update (idealOps Real.sqrt Real.sin Real.cos)
        (withRng (strayShot (idealOps Real.sqrt Real.sin Real.cos)) (fun _ => 0)))
        (strayShot (idealOps Real.sqrt Real.sin Real.cos)).rng
      = withRng (update (idealOps Real.sqrt Real.sin Real.cos)
        (withRng (strayShot (idealOps Real.sqrt Real.sin Real.cos)) (fun _ => 1)))
        (strayShot (idealOps Real.sqrt Real.sin Real.cos)).rng :=
  ((C20_randomness_only_on_kill (idealOps Real.sqrt Real.sin Real.cos)
    (strayShot (idealOps Real.sqrt Real.sin Real.cos)) (fun _ => 0) (fun _ => 1)).1
    (killsInTick_of_all_miss _ _ (by
      intro c hc _ p hp _
      have hc2 : c ∈ [strayBullet (idealOps Real.sqrt Real.sin Real.cos)] := hc
      have hp2 : p ∈ (init (idealOps Real.sqrt Real.sin Real.cos)
          (spreadRng (idealOps Real.sqrt Real.sin Real.cos))).enemies := hp
      simp only [List.mem_singleton] at hc2
      subst hc2
      rw [init_enemies] at hp2
      simp only [List.mem_cons, List.mem_singleton, List.mem_nil_iff, or_false] at hp2
      rw [ideal_inRange Real.sin Real.cos isSqrt_real]
      rcases hp2 with rfl | rfl | rfl <;>
        simp [advanceBullet, strayBullet, forwardDir, Bullet.mk2, Enemy.mk3, Vector3.add,
          Vector3.scale, ideal_dist, spreadRng] <;>
        norm_num))).1

/-! ## A tick with exactly one kill -/

/-- In the lethal-hit scenario on the enemies of `spreadRng` (second enemy
targeted, direction (0,0,-1), real numbers) the tick raises the score by one. -/
theorem lethal_spread_score :
    (update (idealOps Real.sqrt Real.sin Real.cos)
        (lethalScenario (idealOps Real.sqrt Real.sin Real.cos)
          (spreadRng (idealOps Real.sqrt Real.sin Real.cos)) 1
          (forwardDir (idealOps Real.sqrt Real.sin Real.cos)))).score
      = (lethalScenario (idealOps Real.sqrt Real.sin Real.cos)
          (spreadRng (idealOps Real.sqrt Real.sin Real.cos)) 1
          (forwardDir (idealOps Real.sqrt Real.sin Real.cos))).score + 1 := by
  have h := lethalScenario_update (idealOps Real.sqrt Real.sin Real.cos)
    (spreadRng (idealOps Real.sqrt Real.sin Real.cos)) 1
    (forwardDir (idealOps Real.sqrt Real.sin Real.cos))
    (Enemy.mk3 ⟨dist (idealOps Real.sqrt Real.sin Real.cos)
        (spreadRng (idealOps Real.sqrt Real.sin Real.cos) 2), 1,
      dist (idealOps Real.sqrt Real.sin Real.cos)
        (spreadRng (idealOps Real.sqrt Real.sin Real.cos) 3)⟩)
    (by simp [init_enemies])
    (by
      intro j p hj hp
      have hj0 : j = 0 := by omega
      subst hj0
      simp only [init_enemies, List.get?_cons_zero, Option.some.injEq] at hp
      subst hp
      rw [ideal_inRange Real.sin Real.cos isSqrt_real]
      simp [advanceBullet, forwardDir, Bullet.mk2, Enemy.mk3, Vector3.add, Vector3.scale,
        ideal_dist, spreadRng]
      norm_num)
    (ideal_unit_step_inRange Real.sin Real.cos isSqrt_real _ _
      (by simp [Vector3.length, forwardDir]) _ rfl)
  exact h.2.2.1

/-- Witness for C12: in the lethal-hit scenario exactly one enemy is marked dead
during the tick. -/
theorem C12_score_bookkeeping_witness :
    killsInTick (idealOps Real.sqrt Real.sin Real.cos)
      (lethalScenario (idealOps Real.sqrt Real.sin Real.cos)
        (spreadRng (idealOps Real.sqrt Real.sin Real.cos)) 1
        (forwardDir (idealOps Real.sqrt Real.sin Real.cos))) = 1 := by
  have h1 := (C12_score_bookkeeping (idealOps Real.sqrt Real.sin Real.cos)
    (lethalScenario (idealOps Real.sqrt Real.sin Real.cos)
      (spreadRng (idealOps Real.sqrt Real.sin Real.cos)) 1
      (forwardDir (idealOps Real.sqrt Real.sin Real.cos)))).1
  have h2 := lethal_spread_score
  omega

end Game

end GameCore
